import Mathlib

/-!
Transaction reconciliation tracker (`txreconciliation.h`, `txreconciliation.cpp`).

A shallow embedding of the per-peer `ReconciliationState` and of the
`TxReconciliationTracker` registry, followed by the properties established
about them.

Conventions of the embedding:

* `uint64_t`, `uint32_t`, `uint16_t` and `uint256` values are natural numbers;
  a reduction `% 2 ^ w` is written wherever the source computes in a `w`-bit type.
* A `double` value is the rational number it denotes. A product of two doubles is the
  exact product rounded to a double; the rounding `round_double` is an argument of the
  functions that multiply, so that nothing is assumed about it beyond what a theorem states.
* `std::unordered_map<NodeId, T>` is a function `NodeId → Option T`
  (`none` = key absent); `std::set` and `std::map` are ascending lists;
  `std::deque` is a list.
* A member function that can throw or abort returns `Except Fault _` together
  with the tracker as it stands when control leaves the function.
* Collaborators that live outside these two files (the tagged SHA256 writer,
  SipHash, the random source) are arguments of the functions that call them.
-/

namespace TxReconciliation

/-! ## Constants -/

/-- The size of the field used to compute sketches. -/
def RECON_FIELD_SIZE : Nat := 32

/-- Bytes of a serialised sketch per unit of capacity. -/
def BYTES_PER_SKETCH_CAPACITY : Nat := RECON_FIELD_SIZE / 8

/-- Limit on sketch capacity (`uint16_t`, `2 << 12`). -/
def MAX_SKETCH_CAPACITY : Nat := (2 <<< 12) % 2 ^ 16

/-- False-positive coefficient handed to the sketch library. -/
def RECON_FALSE_POSITIVE_COEF : Nat := 16

/-- Default coefficient used to estimate set difference: the `double` literal `0.02`, that
is the double nearest to 2/100, `5764607523034235 * 2 ^ (-58)`. -/
def DEFAULT_RECON_Q : ℚ := 5764607523034235 / 288230376151711744

/-- Fixed-point scale of a transmitted coefficient (`uint16_t`, `(2 << 14) - 1`). -/
def Q_PRECISION : Nat := ((2 <<< 14) - 1) % 2 ^ 16

/-- The finite values of the type `double`: `m * 2 ^ e` with a significand `m` of at most 53
bits and an exponent `e` in the range of the format. -/
def IsDouble (x : ℚ) : Prop :=
  ∃ m e : Int, |m| < 2 ^ 53 ∧ -1074 ≤ e ∧ e ≤ 971 ∧ x = (m : ℚ) * (2 : ℚ) ^ e

/-- Interval between reconciliation requests to the same peer, in microseconds (`16s`). -/
def RECON_REQUEST_INTERVAL : Int := 16000000

/-- Interval between responses to reconciliation requests, in microseconds (`2s`). -/
def RECON_RESPONSE_INTERVAL : Int := 2000000

/-! ## Data model -/

/-- Peer identifier (`NodeId`). -/
abbrev NodeId := Int

/-- Phase of the current reconciliation round with a peer. -/
inductive ReconciliationPhase where
  | RECON_NONE
  | RECON_INIT_REQUESTED
  | RECON_INIT_RESPONDED
  deriving DecidableEq, Repr

/-- Ways in which a member function leaves without returning a value:
`std::out_of_range` thrown by `unordered_map::at`, or a failed `assert`. -/
inductive Fault where
  | out_of_range
  | assertion
  deriving DecidableEq, Repr

/-- Per-peer reconciliation state (`class ReconciliationState`).
`m_remote_q` and `m_remote_set_size` have no initialiser in the constructor;
`none` stands for such a not yet written member. -/
structure ReconciliationState where
  m_requestor : Bool
  m_responder : Bool
  m_flood_to : Bool
  m_k0 : Nat
  m_k1 : Nat
  m_local_q : ℚ
  m_remote_q : Option ℚ
  m_local_set : List Nat
  m_local_short_id_mapping : List (Nat × Nat)
  m_remote_set_size : Option Nat
  m_next_recon_respond : Int
  m_incoming_recon : ReconciliationPhase
  m_outgoing_recon : ReconciliationPhase
  deriving DecidableEq, Repr

/-- The tracker of reconciliations across all peers (`class TxReconciliationTracker`). -/
structure TxReconciliationTracker where
  m_local_salts : NodeId → Option Nat
  m_states : NodeId → Option ReconciliationState
  m_queue : List NodeId
  m_next_recon_request : Int
  m_next_recon_respond : Int

/-! ## `ReconciliationState` -/

namespace ReconciliationState

/-- The constructor `ReconciliationState(requestor, responder, flood_to, k0, k1)`:
the five arguments, `m_local_q(DEFAULT_RECON_Q)`, and the default member
initialisers of the class body. -/
def construct (requestor responder flood_to : Bool) (k0 k1 : Nat) : ReconciliationState :=
  { m_requestor := requestor
    m_responder := responder
    m_flood_to := flood_to
    m_k0 := k0
    m_k1 := k1
    m_local_q := DEFAULT_RECON_Q
    m_remote_q := none
    m_local_set := []
    m_local_short_id_mapping := []
    m_remote_set_size := none
    m_next_recon_respond := 0
    m_incoming_recon := ReconciliationPhase.RECON_NONE
    m_outgoing_recon := ReconciliationPhase.RECON_NONE }

/-- Short transaction id of `wtxid`, salted with the link-specific key.
`SipHashUint256` is the keyed hash of the node; `s` is its `uint64_t` result,
the sum is formed in `uint64_t` and narrowed to `uint32_t`. -/
def ComputeShortID (SipHashUint256 : Nat → Nat → Nat → Nat)
    (self : ReconciliationState) (wtxid : Nat) : Nat :=
  let s := SipHashUint256 self.m_k0 self.m_k1 wtxid % 2 ^ 64
  let short_txid := ((1 + (s &&& 0xFFFFFFFF)) % 2 ^ 64) % 2 ^ 32
  short_txid

/-- Whether the peer is flooded to. -/
def IsChosenForFlooding (self : ReconciliationState) : Bool := self.m_flood_to

/-- Whether this peer will send reconciliation requests. -/
def IsRequestor (self : ReconciliationState) : Bool := self.m_requestor

/-- Whether this peer will respond to reconciliation requests. -/
def IsResponder (self : ReconciliationState) : Bool := self.m_responder

/-- The local set as a vector, in the iteration order of the set. -/
def GetLocalSet (self : ReconciliationState) : List Nat := self.m_local_set

/-- Phase of the incoming reconciliation. -/
def GetIncomingPhase (self : ReconciliationState) : ReconciliationPhase := self.m_incoming_recon

/-- Phase of the outgoing reconciliation. -/
def GetOutgoingPhase (self : ReconciliationState) : ReconciliationPhase := self.m_outgoing_recon

end ReconciliationState

/-! ## Salt computation -/

/-- Modelled from the spec: `uint256::GetUint64(pos)` is declared outside these
sources; the 256-bit hash output is split into 64-bit values, `pos` counting
from the least significant one. -/
def GetUint64 (v : Nat) (pos : Nat) : Nat := (v / 2 ^ (64 * pos)) % 2 ^ 64

/-- The salt of a connection from the two contributed salts. `saltHash salt1 salt2`
stands for `(CHashWriter(RECON_SALT_HASHER) << salt1 << salt2).GetSHA256()`. -/
def ComputeSalt (saltHash : Nat → Nat → Nat) (local_salt remote_salt : Nat) : Nat :=
  let salt1 := local_salt
  let salt2 := remote_salt
  if salt1 > salt2 then saltHash salt2 salt1 else saltHash salt1 salt2

/-! ## `TxReconciliationTracker` -/

namespace TxReconciliationTracker

/-- The tracker after `TxReconciliationTracker() {}`. -/
def empty : TxReconciliationTracker :=
  { m_local_salts := fun _ => none
    m_states := fun _ => none
    m_queue := []
    m_next_recon_request := 0
    m_next_recon_respond := 0 }

/-- Announce readiness to reconcile with `peer_id`. `rand` is the value drawn by
`GetRand(UINT64_MAX)`. `emplace` inserts only when the key is absent. -/
def SuggestReconciling (self : TxReconciliationTracker) (peer_id : NodeId) (inbound : Bool)
    (rand : Nat) : (Bool × Bool × Nat × Nat) × TxReconciliationTracker :=
  let be_recon_requestor := if inbound then false else true
  let be_recon_responder := if inbound then true else false
  let recon_version : Nat := 1
  let m_local_recon_salt := rand
  let salts := fun p =>
    if p = peer_id then
      (match self.m_local_salts peer_id with
       | some old => some old
       | none => some m_local_recon_salt)
    else self.m_local_salts p
  ((be_recon_requestor, be_recon_responder, recon_version, m_local_recon_salt),
   { self with m_local_salts := salts })

/-- Register the peer for reconciliation after its `SENDRECON`. The second
component is the tracker when control leaves the function (also when
`m_local_salts.at` throws). -/
def EnableReconciliationSupport (saltHash : Nat → Nat → Nat) (self : TxReconciliationTracker)
    (peer_id : NodeId) (inbound recon_requestor recon_responder : Bool)
    (recon_version remote_salt : Nat) (_outbound_flooders : Nat) :
    Except Fault Bool × TxReconciliationTracker :=
  if (self.m_states peer_id).isSome then (Except.ok false, self)
  else if recon_version ≠ 1 then (Except.ok false, self)
  else if inbound && !recon_requestor then (Except.ok false, self)
  else if inbound && recon_responder then (Except.ok false, self)
  else if !inbound && recon_requestor then (Except.ok false, self)
  else if !inbound && !recon_responder then (Except.ok false, self)
  else
    let flood_to := if inbound then false else true
    let queued : TxReconciliationTracker :=
      if recon_responder then { self with m_queue := self.m_queue ++ [peer_id] } else self
    match queued.m_local_salts peer_id with
    | none => (Except.error Fault.out_of_range, queued)
    | some local_peer_salt =>
      let full_salt := ComputeSalt saltHash local_peer_salt remote_salt
      let st := ReconciliationState.construct recon_requestor recon_responder flood_to
        (GetUint64 full_salt 0) (GetUint64 full_salt 1)
      (Except.ok true,
       { queued with m_states := fun p => if p = peer_id then some st else queued.m_states p })

/-- The current reconciliation state of a peer, by value, if it has one. -/
def GetPeerState (self : TxReconciliationTracker) (peer_id : NodeId) :
    Option ReconciliationState :=
  self.m_states peer_id

end TxReconciliationTracker

/-! ## Containers of the state: `std::set<uint256>` and `std::map<uint32_t, uint256>` -/

/-- The member `std::set<uint256>::insert` on the ascending list of the elements: the list
is unchanged when the element is present. Transaction ids are numbered in the order of
`operator<` on `uint256`. -/
def setInsert (x : Nat) : List Nat → List Nat
  | [] => [x]
  | y :: ys => if x < y then x :: y :: ys else if x = y then y :: ys else y :: setInsert x ys

/-- The member `std::map<uint32_t, uint256>::emplace` on the list of entries ascending by
key: an entry whose key is present is left as it is. -/
def mapEmplace (k v : Nat) : List (Nat × Nat) → List (Nat × Nat)
  | [] => [(k, v)]
  | e :: es =>
    if k < e.1 then (k, v) :: e :: es else if k = e.1 then e :: es else e :: mapEmplace k v es

/-! ## The sketch object -/

/-- Modelled from the spec: the `Minisketch` class belongs to the sketch library, outside
these sources. A created sketch is represented by the arguments of its constructor and by
the elements passed to `Add`, in call order. -/
structure SketchData where
  bits : Nat
  implementation : Nat
  capacity : Nat
  added : List Nat
  deriving DecidableEq, Repr

/-- A `Minisketch` object: `none` is the default-constructed sketch, for which
`if (sketch)` is false. -/
abbrev Minisketch := Option SketchData

/-- Modelled from the spec: `Minisketch(bits, implementation, capacity)`. Whether the
library yields a usable sketch for these arguments is told by `created`. -/
def Minisketch.create (created : Nat → Nat → Nat → Bool) (bits implementation capacity : Nat) :
    Minisketch :=
  if created bits implementation capacity then
    some { bits := bits, implementation := implementation, capacity := capacity, added := [] }
  else none

/-- Modelled from the spec: `sketch.Add(element)`, recorded on the sketch. -/
def Minisketch.Add (sketch : Minisketch) (element : Nat) : Minisketch :=
  sketch.map fun d => { d with added := d.added ++ [element] }

/-! ## `ReconciliationState`, continued -/

namespace ReconciliationState

/-- Size of the local set, as the `uint16_t` the function returns. -/
def GetLocalSetSize (self : ReconciliationState) : Nat := self.m_local_set.length % 2 ^ 16

/-- Insert every listed transaction id into the local set. -/
def AddToReconSet (self : ReconciliationState) (txs_to_reconcile : List Nat) :
    ReconciliationState :=
  { self with
    m_local_set := txs_to_reconcile.foldl (fun set wtxid => setInsert wtxid set) self.m_local_set }

/-- The local `estimated_diff` of `EstimateSketchCapacity`, from the size of the local set,
`m_remote_set_size` and `m_remote_q`. Each `uint16_t` local is reduced modulo `2 ^ 16`.
`m_remote_q * min_size` is a product of doubles (`min_size` converts exactly): the exact
product rounded by `round_double`; the rounded product is then truncated by the conversion
to `uint16_t` (the conversion of a negative or too large `double` has no defined value in
the source; it is taken as 0, resp. reduced). -/
def estimated_diff (round_double : ℚ → ℚ) (local_set_size remote_set_size : Nat)
    (remote_q : ℚ) : Nat :=
  let local_size : Nat := local_set_size % 2 ^ 16
  let set_size_diff : Nat := Int.natAbs ((local_size : Int) - (remote_set_size : Int)) % 2 ^ 16
  let min_size : Nat := min local_size remote_set_size
  let weighted_min_size : Nat :=
    Int.toNat ⌊round_double (remote_q * (min_size : ℚ))⌋ % 2 ^ 16
  (1 + weighted_min_size + set_size_diff) % 2 ^ 16

/-- Estimate the capacity of a sketch. `round_double` is the rounding of the double
multiplication and `minisketch_compute_capacity` is the function of the sketch library; its
result is narrowed to the `uint16_t` return type. The value is `none` when
`m_remote_set_size` or `m_remote_q` was never written. -/
def EstimateSketchCapacity (round_double : ℚ → ℚ)
    (minisketch_compute_capacity : Nat → Nat → Nat → Nat)
    (self : ReconciliationState) : Option Nat :=
  match self.m_remote_set_size, self.m_remote_q with
  | some remote_set_size, some remote_q =>
    some (minisketch_compute_capacity RECON_FIELD_SIZE
      (estimated_diff round_double self.m_local_set.length remote_set_size remote_q)
      RECON_FALSE_POSITIVE_COEF % 2 ^ 16)
  | _, _ => none

/-- Compute the sketch of the local set with the given capacity. The loop over the local
set collects the short ids and emplaces each (short id, wtxid) into the mapping. Returns the
sketch and the state after the call. -/
def ComputeSketch (SipHashUint256 : Nat → Nat → Nat → Nat) (created : Nat → Nat → Nat → Bool)
    (self : ReconciliationState) (capacity : Nat) : Minisketch × ReconciliationState :=
  let sketch : Minisketch := none
  if self.m_local_set.length = 0 ∨ capacity = 0 then (sketch, self)
  else
    let loop := self.m_local_set.foldl
      (fun (acc : List Nat × List (Nat × Nat)) wtxid =>
        let short_txid := self.ComputeShortID SipHashUint256 wtxid
        (acc.1 ++ [short_txid], mapEmplace short_txid wtxid acc.2))
      ([], self.m_local_short_id_mapping)
    let short_ids := loop.1
    let capacity := min capacity MAX_SKETCH_CAPACITY
    let sketch := Minisketch.create created RECON_FIELD_SIZE 0 capacity
    let sketch := if sketch.isSome then short_ids.foldl Minisketch.Add sketch else sketch
    (sketch, { self with m_local_short_id_mapping := loop.2 })

end ReconciliationState

/-! ## `TxReconciliationTracker`, continued -/

namespace TxReconciliationTracker

/-- Add transactions to the reconciliation set of a peer; aborts on the `assert` when the
peer has no state. -/
def StoreTxsToAnnounce (self : TxReconciliationTracker) (peer_id : NodeId)
    (txs_to_reconcile : List Nat) : Except Fault Unit × TxReconciliationTracker :=
  match self.m_states peer_id with
  | none => (Except.error Fault.assertion, self)
  | some recon_state =>
    (Except.ok (),
     { self with
       m_states := fun p =>
         if p = peer_id then some (recon_state.AddToReconSet txs_to_reconcile)
         else self.m_states p })

/-- Forget a peer: erase it from the queue, from the local salts and from the states. -/
def RemovePeer (self : TxReconciliationTracker) (peer_id : NodeId) : TxReconciliationTracker :=
  { self with
    m_queue := self.m_queue.filter fun p => p ≠ peer_id
    m_local_salts := fun p => if p = peer_id then none else self.m_local_salts p
    m_states := fun p => if p = peer_id then none else self.m_states p }

end TxReconciliationTracker

/-! ## `ReconciliationState`: phases, round parameters, lookups and finalisation -/

/-- The member `std::map<uint32_t, uint256>::find` on the list of entries: the value of the
entry with the given key, if there is one. -/
def mapFind (k : Nat) : List (Nat × Nat) → Option Nat
  | [] => none
  | e :: es => if e.1 = k then some e.2 else mapFind k es

/-- Modelled from the spec: the combine and decode operation of the sketch library, which
is outside these sources. A sketch encodes the set of the elements added to it; combining
two sketches and decoding recovers the symmetric difference of the two sets, or signals a
failure when the difference has more elements than the capacity. -/
def Minisketch.MergeDecode (local_sketch remote_sketch : SketchData) : Option (List Nat) :=
  let diff := (local_sketch.added.filter (fun e => !remote_sketch.added.contains e)
    ++ remote_sketch.added.filter (fun e => !local_sketch.added.contains e)).dedup
  if diff.length ≤ local_sketch.capacity then some diff else none

namespace ReconciliationState

/-- The local coefficient as the `uint16_t` sent on the wire. `m_local_q * Q_PRECISION` is
a product of doubles (`Q_PRECISION` converts exactly): the exact product rounded by
`round_double`; the rounded product is converted to the integer type by truncation. -/
def GetLocalQ (round_double : ℚ → ℚ) (self : ReconciliationState) : Nat :=
  Int.toNat ⌊round_double (self.m_local_q * (Q_PRECISION : ℚ))⌋ % 2 ^ 16

/-- Time of the scheduled response. -/
def GetNextRespond (self : ReconciliationState) : Int := self.m_next_recon_respond

/-- Set the phase of the incoming reconciliation; `assert(m_requestor)`. -/
def UpdateIncomingPhase (self : ReconciliationState) (phase : ReconciliationPhase) :
    Except Fault ReconciliationState :=
  if !self.m_requestor then Except.error Fault.assertion
  else Except.ok { self with m_incoming_recon := phase }

/-- Set the phase of the outgoing reconciliation; `assert(m_responder)`. -/
def UpdateOutgoingPhase (self : ReconciliationState) (phase : ReconciliationPhase) :
    Except Fault ReconciliationState :=
  if !self.m_responder then Except.error Fault.assertion
  else Except.ok { self with m_outgoing_recon := phase }

/-- Store the parameters of a reconciliation request. The three asserts come first; the
third one reads the member `m_remote_q`, and `unwritten_q` is the value it finds there when
the member was never written. -/
def PrepareIncoming (unwritten_q : ℚ) (self : ReconciliationState) (remote_set_size : Nat)
    (remote_q : ℚ) (next_respond : Int) : Except Fault ReconciliationState :=
  if !self.m_requestor then Except.error Fault.assertion
  else if self.m_incoming_recon ≠ ReconciliationPhase.RECON_NONE then
    Except.error Fault.assertion
  else
    let m_remote_q := self.m_remote_q.getD unwritten_q
    if ¬ (m_remote_q ≥ 0 ∧ m_remote_q ≤ 2) then Except.error Fault.assertion
    else
      Except.ok { self with
        m_remote_q := some remote_q
        m_remote_set_size := some remote_set_size
        m_next_recon_respond := next_respond }

/-- Look up the full ids of the listed short ids; a short id without an entry in the mapping
contributes nothing. -/
def GetWTXIDsFromShortIDs (self : ReconciliationState) (remote_missing_short_ids : List Nat) :
    List Nat :=
  remote_missing_short_ids.foldl
    (fun remote_missing missing_short_id =>
      match mapFind missing_short_id self.m_local_short_id_mapping with
      | some wtxid => remote_missing ++ [wtxid]
      | none => remote_missing)
    []

/-- Forget the short-id mapping. -/
def ClearState (self : ReconciliationState) : ReconciliationState :=
  { self with m_local_short_id_mapping := [] }

/-- End of a round in which the peer requested; `assert(m_requestor)`. -/
def FinalizeIncomingReconciliation (self : ReconciliationState) :
    Except Fault ReconciliationState :=
  if !self.m_requestor then Except.error Fault.assertion
  else Except.ok self.ClearState

/-- End of a round in which we requested; `assert(m_responder)`. -/
def FinalizeOutgoingReconciliation (self : ReconciliationState) (clear_local_set : Bool)
    (updated_q : ℚ) : Except Fault ReconciliationState :=
  if !self.m_responder then Except.error Fault.assertion
  else
    let updated := { self with m_local_q := updated_q }
    let cleared := if clear_local_set then { updated with m_local_set := [] } else updated
    Except.ok cleared.ClearState

/-- Split a decoded difference into the short ids missing locally and the full ids missing
remotely. The elements of `diff` are `uint64_t`; the key handed to `find` and the element
pushed to `local_missing` are `uint32_t`, hence the reductions modulo `2 ^ 32`. -/
def GetRelevantIDsFromShortIDs (self : ReconciliationState) (diff : List Nat) :
    List Nat × List Nat :=
  diff.foldl
    (fun (acc : List Nat × List Nat) diff_short_id =>
      match mapFind (diff_short_id % 2 ^ 32) self.m_local_short_id_mapping with
      | some wtxid => (acc.1, acc.2 ++ [wtxid])
      | none => (acc.1 ++ [diff_short_id % 2 ^ 32], acc.2))
    ([], [])

end ReconciliationState

/-! ## Sequences of calls on a state -/

/-- A call of one of the state-changing operations of `ReconciliationState`, with its
arguments. -/
inductive StateOp where
  | addToReconSet (txs_to_reconcile : List Nat)
  | computeSketch (capacity : Nat)
  | prepareIncoming (remote_set_size : Nat) (remote_q : ℚ) (next_respond : Int)
  | updateIncomingPhase (phase : ReconciliationPhase)
  | updateOutgoingPhase (phase : ReconciliationPhase)
  | finalizeIncoming
  | finalizeOutgoing (clear_local_set : Bool) (updated_q : ℚ)

/-- The state after one call, or the fault on which the call aborts. -/
def applyStateOp (sip : Nat → Nat → Nat → Nat) (created : Nat → Nat → Nat → Bool)
    (unwritten_q : ℚ) (st : ReconciliationState) : StateOp → Except Fault ReconciliationState
  | StateOp.addToReconSet txs_to_reconcile => Except.ok (st.AddToReconSet txs_to_reconcile)
  | StateOp.computeSketch capacity => Except.ok (st.ComputeSketch sip created capacity).2
  | StateOp.prepareIncoming remote_set_size remote_q next_respond =>
    st.PrepareIncoming unwritten_q remote_set_size remote_q next_respond
  | StateOp.updateIncomingPhase phase => st.UpdateIncomingPhase phase
  | StateOp.updateOutgoingPhase phase => st.UpdateOutgoingPhase phase
  | StateOp.finalizeIncoming => st.FinalizeIncomingReconciliation
  | StateOp.finalizeOutgoing clear_local_set updated_q =>
    st.FinalizeOutgoingReconciliation clear_local_set updated_q

/-- The state after a sequence of calls, or the fault of the first call that aborts. -/
def runStateOps (sip : Nat → Nat → Nat → Nat) (created : Nat → Nat → Nat → Bool)
    (unwritten_q : ℚ) : List StateOp → ReconciliationState → Except Fault ReconciliationState
  | [], st => Except.ok st
  | op :: rest, st =>
    match applyStateOp sip created unwritten_q st op with
    | Except.ok next => runStateOps sip created unwritten_q rest next
    | Except.error fault => Except.error fault

/-! ## Sequences of calls on a tracker -/

/-- A call of one of the four public operations, with its arguments. -/
inductive TrackerOp where
  | suggest (peer_id : NodeId) (inbound : Bool) (rand : Nat)
  | enable (peer_id : NodeId) (inbound recon_requestor recon_responder : Bool)
      (recon_version remote_salt outbound_flooders : Nat)
  | store (peer_id : NodeId) (txs_to_reconcile : List Nat)
  | remove (peer_id : NodeId)
  deriving DecidableEq, Repr

/-- The tracker after one call (whatever the call returned or threw). -/
def applyOp (saltHash : Nat → Nat → Nat) (t : TxReconciliationTracker) :
    TrackerOp → TxReconciliationTracker
  | TrackerOp.suggest peer_id inbound rand => (t.SuggestReconciling peer_id inbound rand).2
  | TrackerOp.enable peer_id inbound recon_requestor recon_responder recon_version remote_salt
      outbound_flooders =>
    (t.EnableReconciliationSupport saltHash peer_id inbound recon_requestor recon_responder
      recon_version remote_salt outbound_flooders).2
  | TrackerOp.store peer_id txs_to_reconcile => (t.StoreTxsToAnnounce peer_id txs_to_reconcile).2
  | TrackerOp.remove peer_id => t.RemovePeer peer_id

/-- The tracker reached from the empty tracker by a sequence of calls. -/
def runOps (saltHash : Nat → Nat → Nat) (ops : List TrackerOp) : TxReconciliationTracker :=
  ops.foldl (applyOp saltHash) TxReconciliationTracker.empty

/-! ## `TxReconciliationTracker`: scheduling -/

namespace TxReconciliationTracker

/-- Schedule the next reconciliation request: `now + RECON_REQUEST_INTERVAL / m_queue.size()`.
Times are counts of microseconds, taken exactly. With an empty queue the division has no
defined value in the source and the result is `none`. -/
def UpdateNextReconRequest (self : TxReconciliationTracker) (now : Int) :
    Option TxReconciliationTracker :=
  if self.m_queue.length = 0 then none
  else
    some { self with
      m_next_recon_request := now + RECON_REQUEST_INTERVAL / (self.m_queue.length : Int) }

/-- The time of the next response to reconciliation requests; `current_time` is the value of
`GetTime<std::chrono::microseconds>()` at the call. Returns the deadline and the tracker
after the call. -/
def NextReconRespond (self : TxReconciliationTracker) (current_time : Int) :
    Int × TxReconciliationTracker :=
  let updated : TxReconciliationTracker :=
    if self.m_next_recon_respond < current_time then
      { self with m_next_recon_respond := current_time + RECON_RESPONSE_INTERVAL }
    else self
  (updated.m_next_recon_respond, updated)

/-- The deadlines returned by successive calls of `NextReconRespond` at the listed clock
times, and the tracker after them. -/
def respondAtTimes (self : TxReconciliationTracker) :
    List Int → List Int × TxReconciliationTracker
  | [] => ([], self)
  | current_time :: later =>
    let first := self.NextReconRespond current_time
    let rest := respondAtTimes first.2 later
    (first.1 :: rest.1, rest.2)

end TxReconciliationTracker

/-! ## Lock acquisitions of the tracker operations -/

/-- The three mutexes of the tracker. -/
inductive TrackerMutex where
  | m_local_salts_mutex
  | m_states_mutex
  | m_queue_mutex
  deriving DecidableEq, Repr

/-- Taking (`LOCK`, `WITH_LOCK`) or releasing (end of the scope) a mutex. -/
inductive LockEvent where
  | lock (m : TrackerMutex)
  | unlock (m : TrackerMutex)
  deriving DecidableEq, Repr

/-- Lock events of `EnableReconciliationSupport`, in program order: `LOCK(m_states_mutex)` for
the whole body; on the path past the early returns, `LOCK(m_queue_mutex)` inside the block
of `if (recon_responder)` and then `WITH_LOCK(m_local_salts_mutex, ...)`. -/
def EnableReconciliationSupport_locks (early_return recon_responder : Bool) : List LockEvent :=
  [LockEvent.lock TrackerMutex.m_states_mutex]
  ++ (if early_return then []
      else
        (if recon_responder then
          [LockEvent.lock TrackerMutex.m_queue_mutex, LockEvent.unlock TrackerMutex.m_queue_mutex]
         else [])
        ++ [LockEvent.lock TrackerMutex.m_local_salts_mutex,
            LockEvent.unlock TrackerMutex.m_local_salts_mutex])
  ++ [LockEvent.unlock TrackerMutex.m_states_mutex]

/-- Lock events of `RemovePeer`, in program order: three `LOCK`s in one scope. -/
def RemovePeer_locks : List LockEvent :=
  [LockEvent.lock TrackerMutex.m_queue_mutex,
   LockEvent.lock TrackerMutex.m_local_salts_mutex,
   LockEvent.lock TrackerMutex.m_states_mutex,
   LockEvent.unlock TrackerMutex.m_states_mutex,
   LockEvent.unlock TrackerMutex.m_local_salts_mutex,
   LockEvent.unlock TrackerMutex.m_queue_mutex]

/-- The pairs (mutex held, mutex taken) met while running through a list of lock events,
starting with the mutexes `held`. -/
def lockNestings : List TrackerMutex → List LockEvent → List (TrackerMutex × TrackerMutex)
  | _, [] => []
  | held, LockEvent.lock m :: rest =>
    held.map (fun h => (h, m)) ++ lockNestings (held ++ [m]) rest
  | held, LockEvent.unlock m :: rest => lockNestings (held.filter (fun h => h ≠ m)) rest

/-- Position of a mutex in the global order of the specification: local salts, then states,
then queue. -/
def specLockRank : TrackerMutex → Nat
  | TrackerMutex.m_local_salts_mutex => 0
  | TrackerMutex.m_states_mutex => 1
  | TrackerMutex.m_queue_mutex => 2

/-! ## Example trackers used at concrete inputs -/

/-- A salt hasher used at concrete inputs: it keeps both arguments readable in its value. -/
def exampleHash (salt1 salt2 : Nat) : Nat := salt1 + 2 ^ 64 * salt2

/-- The tracker after `SuggestReconciling(1, inbound, 5)` on a fresh tracker. -/
def suggested (inbound : Bool) : TxReconciliationTracker :=
  (TxReconciliationTracker.empty.SuggestReconciling 1 inbound 5).2

/-- A requestor state with the given local set and the given round parameters of the peer. -/
def exampleState (local_set : List Nat) (remote_set_size : Nat) (remote_q : ℚ) :
    ReconciliationState :=
  { ReconciliationState.construct true false false 5 9 with
    m_local_set := local_set
    m_remote_set_size := some remote_set_size
    m_remote_q := some remote_q }

/-- A capacity normalisation used at concrete inputs: the identity on the estimate. -/
def exampleCapacity (_bits max_elements _fpbits : Nat) : Nat := max_elements

/-- A rounding used at concrete inputs: the identity. It is monotone and leaves doubles
unchanged, and it is what the double multiplication returns wherever the exact product is
itself a double (the product 0, twice the double 0.1). -/
def exampleRound (x : ℚ) : ℚ := x

/-- The `double` literal `0.1`: the double nearest to 1/10, `3602879701896397 * 2 ^ (-55)`. -/
def double_0_1 : ℚ := 3602879701896397 / 36028797018963968

/-- The `double` literal `0.03`: the double nearest to 3/100, `1080863910568919 * 2 ^ (-55)`. -/
def double_0_03 : ℚ := 1080863910568919 / 36028797018963968

/-- The `double` quotient `1.0 / 32767`: the double nearest to 1/32767,
`35185445863425 * 2 ^ (-60)`. -/
def double_inv_32767 : ℚ := 35185445863425 / 1152921504606846976

/-- A keyed hash used at concrete inputs: it depends on the parity of the id only, so that
ids of the same parity collide. -/
def exampleSip (_k0 _k1 wtxid : Nat) : Nat := wtxid % 2

/-- A sketch library that creates every sketch it is asked for. -/
def exampleCreated (_bits _implementation _capacity : Nat) : Bool := true

/-- The state after `AddToReconSet({5})`, `ComputeSketch(10)` and `AddToReconSet({3})` on a
freshly constructed state; ids 3 and 5 have the same short id under `exampleSip`. -/
def exampleSecondRound : ReconciliationState :=
  ((((ReconciliationState.construct true false false 5 9).AddToReconSet [5]).ComputeSketch
    exampleSip exampleCreated 10).2).AddToReconSet [3]

/-- A responder state with the salt of `exampleState` and the given local set. -/
def exampleResponder (local_set : List Nat) : ReconciliationState :=
  { ReconciliationState.construct false true true 5 9 with m_local_set := local_set }

/-- A responder state with an empty local set and the given local coefficient. -/
def exampleWithLocalQ (local_q : ℚ) : ReconciliationState :=
  { exampleResponder [] with m_local_q := local_q }

/-! ## Formulas of the specification -/

/-- The difference estimate as the specification words it:
`1 + floor(remote_q * min(local size, remote_set_size)) + |local size - remote_set_size|`,
with integers of any size; `remote_q * min(..)` is the product of the two doubles, rounded
by `round_double`. -/
def spec_estimated_diff (round_double : ℚ → ℚ) (local_set_size remote_set_size : Nat)
    (remote_q : ℚ) : Nat :=
  1 + Int.toNat ⌊round_double (remote_q * ((min local_set_size remote_set_size : Nat) : ℚ))⌋
    + Int.natAbs ((local_set_size : Int) - (remote_set_size : Int))

/-! ## Properties -/

section Lemmas

open TxReconciliationTracker

/-- The tracker in which `EnableReconciliationSupport` leaves on acceptance. -/
def accepted (saltHash : Nat → Nat → Nat) (self : TxReconciliationTracker) (peer_id : NodeId)
    (inbound : Bool) (local_salt remote_salt : Nat) : TxReconciliationTracker :=
  { m_local_salts := self.m_local_salts
    m_states := fun p =>
      if p = peer_id then
        some (ReconciliationState.construct inbound (!inbound) (!inbound)
          (GetUint64 (ComputeSalt saltHash local_salt remote_salt) 0)
          (GetUint64 (ComputeSalt saltHash local_salt remote_salt) 1))
      else self.m_states p
    m_queue := if inbound then self.m_queue else self.m_queue ++ [peer_id]
    m_next_recon_request := self.m_next_recon_request
    m_next_recon_respond := self.m_next_recon_respond }

/-- Acceptance: with no state, version 1, the roles of the direction and a stored salt,
the call returns `true` and leaves the tracker `accepted`. -/
theorem enable_accept (saltHash : Nat → Nat → Nat) (self : TxReconciliationTracker)
    (peer_id : NodeId) (inbound : Bool) (remote_salt flooders s : Nat)
    (hstate : self.m_states peer_id = none) (hsalt : self.m_local_salts peer_id = some s) :
    EnableReconciliationSupport saltHash self peer_id inbound inbound (!inbound) 1 remote_salt
      flooders = (Except.ok true, accepted saltHash self peer_id inbound s remote_salt) := by
  cases inbound <;> simp [EnableReconciliationSupport, accepted, hstate, hsalt]

/-- Without a stored salt the accepted path throws. -/
theorem enable_throw (saltHash : Nat → Nat → Nat) (self : TxReconciliationTracker)
    (peer_id : NodeId) (inbound : Bool) (remote_salt flooders : Nat)
    (hstate : self.m_states peer_id = none) (hsalt : self.m_local_salts peer_id = none) :
    (EnableReconciliationSupport saltHash self peer_id inbound inbound (!inbound) 1 remote_salt
      flooders).1 = Except.error Fault.out_of_range := by
  cases inbound <;> simp [EnableReconciliationSupport, hstate, hsalt]

/-- Rejection: an existing state, a version other than 1, or roles other than those of the
direction make the call return `false` with the tracker untouched. -/
theorem enable_reject (saltHash : Nat → Nat → Nat) (self : TxReconciliationTracker)
    (peer_id : NodeId) (inbound recon_requestor recon_responder : Bool)
    (recon_version remote_salt flooders : Nat)
    (h : (self.m_states peer_id).isSome = true ∨ recon_version ≠ 1 ∨
      recon_requestor ≠ inbound ∨ recon_responder ≠ !inbound) :
    EnableReconciliationSupport saltHash self peer_id inbound recon_requestor recon_responder
      recon_version remote_salt flooders = (Except.ok false, self) := by
  unfold EnableReconciliationSupport
  by_cases h1 : (self.m_states peer_id).isSome = true
  · simp [h1]
  · by_cases h2 : recon_version = 1
    · have h3 : recon_requestor ≠ inbound ∨ recon_responder ≠ !inbound := by tauto
      cases inbound <;> cases recon_requestor <;> cases recon_responder <;> simp_all
    · simp [h1, h2]

/-- Every call falls under acceptance, rejection or the throw, by its arguments. -/
theorem enable_cases (self : TxReconciliationTracker) (peer_id : NodeId)
    (inbound recon_requestor recon_responder : Bool) (recon_version : Nat) :
    ((self.m_states peer_id).isSome = true ∨ recon_version ≠ 1 ∨
      recon_requestor ≠ inbound ∨ recon_responder ≠ !inbound) ∨
    (self.m_states peer_id = none ∧ recon_version = 1 ∧
      recon_requestor = inbound ∧ recon_responder = !inbound) := by
  cases hst : self.m_states peer_id <;> simp
  by_cases h2 : recon_version = 1 <;> simp [h2]
  cases inbound <;> cases recon_requestor <;> cases recon_responder <;> simp

/-- A call that returns `true` took the acceptance path. -/
theorem enable_true_inv (saltHash : Nat → Nat → Nat) (self : TxReconciliationTracker)
    (peer_id : NodeId) (inbound recon_requestor recon_responder : Bool)
    (recon_version remote_salt flooders : Nat)
    (h : (EnableReconciliationSupport saltHash self peer_id inbound recon_requestor
      recon_responder recon_version remote_salt flooders).1 = Except.ok true) :
    ∃ s, self.m_local_salts peer_id = some s ∧ self.m_states peer_id = none ∧
      recon_version = 1 ∧ recon_requestor = inbound ∧ recon_responder = (!inbound) ∧
      EnableReconciliationSupport saltHash self peer_id inbound recon_requestor
        recon_responder recon_version remote_salt flooders
        = (Except.ok true, accepted saltHash self peer_id inbound s remote_salt) := by
  rcases enable_cases self peer_id inbound recon_requestor recon_responder recon_version
    with hr | ⟨h1, h2, h3, h4⟩
  · rw [enable_reject saltHash self peer_id inbound recon_requestor recon_responder
      recon_version remote_salt flooders hr] at h
    simp at h
  · rw [h2, h3, h4] at h ⊢
    cases hs : self.m_local_salts peer_id with
    | none =>
      rw [enable_throw saltHash self peer_id inbound remote_salt flooders h1 hs] at h
      simp at h
    | some s =>
      exact ⟨s, rfl, h1, rfl, rfl, rfl,
        enable_accept saltHash self peer_id inbound remote_salt flooders s h1 hs⟩

/-- Without a stored salt the accepted path throws after the queue was extended. -/
theorem enable_throw_tracker (saltHash : Nat → Nat → Nat) (self : TxReconciliationTracker)
    (peer_id : NodeId) (inbound : Bool) (remote_salt flooders : Nat)
    (hstate : self.m_states peer_id = none) (hsalt : self.m_local_salts peer_id = none) :
    EnableReconciliationSupport saltHash self peer_id inbound inbound (!inbound) 1 remote_salt
      flooders = (Except.error Fault.out_of_range,
        { self with m_queue := if inbound then self.m_queue else self.m_queue ++ [peer_id] }) := by
  cases inbound <;> simp [EnableReconciliationSupport, hstate, hsalt]

/-- A state found after `EnableReconciliationSupport` was there before or has the roles of
one direction. -/
theorem enable_states (saltHash : Nat → Nat → Nat) (self : TxReconciliationTracker)
    (peer_id : NodeId) (inbound recon_requestor recon_responder : Bool)
    (recon_version remote_salt flooders : Nat) (q : NodeId) (st : ReconciliationState)
    (h : (EnableReconciliationSupport saltHash self peer_id inbound recon_requestor
      recon_responder recon_version remote_salt flooders).2.m_states q = some st) :
    self.m_states q = some st ∨ st.m_requestor = !st.m_responder := by
  rcases enable_cases self peer_id inbound recon_requestor recon_responder recon_version
    with hr | ⟨h1, h2, h3, h4⟩
  · rw [enable_reject saltHash self peer_id inbound recon_requestor recon_responder
      recon_version remote_salt flooders hr] at h
    exact Or.inl h
  · rw [h2, h3, h4] at h
    cases hs : self.m_local_salts peer_id with
    | none =>
      rw [enable_throw_tracker saltHash self peer_id inbound remote_salt flooders h1 hs] at h
      exact Or.inl h
    | some s =>
      rw [enable_accept saltHash self peer_id inbound remote_salt flooders s h1 hs] at h
      simp only [accepted] at h
      by_cases hq : q = peer_id
      · rw [if_pos hq] at h
        right
        cases h
        simp [ReconciliationState.construct]
      · rw [if_neg hq] at h
        exact Or.inl h

/-- One call keeps the property that every state has exactly one of the two roles. -/
theorem applyOp_roles (saltHash : Nat → Nat → Nat) (t : TxReconciliationTracker)
    (op : TrackerOp)
    (ht : ∀ p st, t.m_states p = some st → st.m_requestor = !st.m_responder) :
    ∀ p st, (applyOp saltHash t op).m_states p = some st →
      st.m_requestor = !st.m_responder := by
  intro p st h
  cases op with
  | suggest peer_id inbound rand => exact ht p st h
  | enable peer_id inbound req resp ver salt fl =>
    rcases enable_states saltHash t peer_id inbound req resp ver salt fl p st h with h1 | h1
    · exact ht p st h1
    · exact h1
  | store peer_id txs =>
    simp only [applyOp, StoreTxsToAnnounce] at h
    cases hs : t.m_states peer_id with
    | none =>
      rw [hs] at h
      exact ht p st h
    | some old =>
      rw [hs] at h
      simp only at h
      by_cases hp : p = peer_id
      · rw [if_pos hp] at h
        cases h
        exact ht peer_id old hs
      · rw [if_neg hp] at h
        exact ht p st h
  | remove peer_id =>
    simp only [applyOp, RemovePeer] at h
    by_cases hp : p = peer_id
    · rw [if_pos hp] at h
      cases h
    · rw [if_neg hp] at h
      exact ht p st h

/-- Every sequence of calls keeps the property that every state has exactly one role. -/
theorem foldl_roles (saltHash : Nat → Nat → Nat) (ops : List TrackerOp) :
    ∀ t : TxReconciliationTracker,
      (∀ p st, t.m_states p = some st → st.m_requestor = !st.m_responder) →
      ∀ p st, (ops.foldl (applyOp saltHash) t).m_states p = some st →
        st.m_requestor = !st.m_responder := by
  induction ops with
  | nil => intro t ht; exact ht
  | cons op rest ih =>
    intro t ht
    exact ih (applyOp saltHash t op) (applyOp_roles saltHash t op ht)

/-! ### The local set -/

/-- Membership after `setInsert`. -/
theorem mem_setInsert (x y : Nat) (l : List Nat) : y ∈ setInsert x l ↔ y = x ∨ y ∈ l := by
  induction l with
  | nil => simp [setInsert]
  | cons z zs ih =>
    unfold setInsert
    split_ifs with h1 h2
    · simp
    · subst h2
      simp
    · simp only [List.mem_cons, ih]
      tauto

/-- An ascending list stays ascending under `setInsert`. -/
theorem sorted_setInsert (x : Nat) (l : List Nat) (h : l.Sorted (fun a b => a < b)) :
    (setInsert x l).Sorted (fun a b => a < b) := by
  induction l with
  | nil => simp [setInsert]
  | cons z zs ih =>
    have hz := List.sorted_cons.mp h
    unfold setInsert
    split_ifs with h1 h2
    · refine List.sorted_cons.mpr ⟨?_, h⟩
      intro b hb
      rcases List.mem_cons.mp hb with hb | hb
      · omega
      · have := hz.1 b hb
        omega
    · exact h
    · refine List.sorted_cons.mpr ⟨?_, ih hz.2⟩
      intro b hb
      rcases (mem_setInsert x b zs).mp hb with hb | hb
      · omega
      · exact hz.1 b hb

/-- Inserting a present element leaves an ascending list unchanged. -/
theorem setInsert_of_mem (x : Nat) (l : List Nat) (h : l.Sorted (fun a b => a < b))
    (hx : x ∈ l) : setInsert x l = l := by
  induction l with
  | nil => simp at hx
  | cons z zs ih =>
    have hz := List.sorted_cons.mp h
    unfold setInsert
    rcases List.mem_cons.mp hx with hx | hx
    · subst hx
      simp
    · have hlt := hz.1 x hx
      have h1 : ¬ x < z := by omega
      have h2 : ¬ x = z := by omega
      simp [h1, h2, ih hz.2 hx]

/-- Membership after inserting a list of elements. -/
theorem mem_foldl_setInsert (ids : List Nat) :
    ∀ (l : List Nat) (y : Nat),
      y ∈ ids.foldl (fun set wtxid => setInsert wtxid set) l ↔ y ∈ l ∨ y ∈ ids := by
  induction ids with
  | nil => intro l y; simp
  | cons a rest ih =>
    intro l y
    simp only [List.foldl_cons, ih, mem_setInsert, List.mem_cons]
    tauto

/-- An ascending list stays ascending when a list of elements is inserted. -/
theorem sorted_foldl_setInsert (ids : List Nat) :
    ∀ l : List Nat, l.Sorted (fun a b => a < b) →
      (ids.foldl (fun set wtxid => setInsert wtxid set) l).Sorted (fun a b => a < b) := by
  induction ids with
  | nil => intro l h; exact h
  | cons a rest ih =>
    intro l h
    exact ih (setInsert a l) (sorted_setInsert a l h)

/-- Inserting elements that are all present leaves an ascending list unchanged. -/
theorem foldl_setInsert_of_subset (ids : List Nat) :
    ∀ l : List Nat, l.Sorted (fun a b => a < b) → (∀ x ∈ ids, x ∈ l) →
      ids.foldl (fun set wtxid => setInsert wtxid set) l = l := by
  induction ids with
  | nil => intro l _ _; rfl
  | cons a rest ih =>
    intro l h hsub
    have ha : setInsert a l = l := setInsert_of_mem a l h (hsub a (List.mem_cons_self a rest))
    simp only [List.foldl_cons, ha]
    exact ih l h (fun x hx => hsub x (List.mem_cons_of_mem a hx))

/-- Two ascending lists with the same elements are equal. -/
theorem sorted_ext (l₁ l₂ : List Nat) (h₁ : l₁.Sorted (fun a b => a < b))
    (h₂ : l₂.Sorted (fun a b => a < b)) (h : ∀ x, x ∈ l₁ ↔ x ∈ l₂) : l₁ = l₂ :=
  List.eq_of_perm_of_sorted ((List.perm_ext_iff_of_nodup h₁.nodup h₂.nodup).mpr h) h₁ h₂

/-! ### The capacity estimate -/

/-- Within 16 bits the computed estimate is the formula of the specification, whatever the
rounding of the product. -/
theorem estimated_diff_eq_spec (round_double : ℚ → ℚ) (local_set_size remote_set_size : Nat)
    (remote_q : ℚ) (hl : local_set_size < 2 ^ 16)
    (h : spec_estimated_diff round_double local_set_size remote_set_size remote_q < 2 ^ 16) :
    ReconciliationState.estimated_diff round_double local_set_size remote_set_size remote_q
      = spec_estimated_diff round_double local_set_size remote_set_size remote_q := by
  unfold ReconciliationState.estimated_diff spec_estimated_diff at *
  simp only [Nat.mod_eq_of_lt hl]
  generalize Int.toNat
    ⌊round_double (remote_q * ((min local_set_size remote_set_size : Nat) : ℚ))⌋ = w at *
  generalize Int.natAbs ((local_set_size : Int) - (remote_set_size : Int)) = d at *
  omega

/-- The formula of the specification grows with the absolute size difference when the
coefficient and the smaller size are fixed. -/
theorem spec_estimated_diff_mono (round_double : ℚ → ℚ) (l₁ r₁ l₂ r₂ : Nat) (remote_q : ℚ)
    (hmin : min l₁ r₁ = min l₂ r₂)
    (hdiff : Int.natAbs ((l₁ : Int) - (r₁ : Int)) ≤ Int.natAbs ((l₂ : Int) - (r₂ : Int))) :
    spec_estimated_diff round_double l₁ r₁ remote_q
      ≤ spec_estimated_diff round_double l₂ r₂ remote_q := by
  unfold spec_estimated_diff
  rw [hmin]
  omega

/-- Twice the double 0.1 is a double, `3602879701896397 * 2 ^ (-54)`. -/
theorem double_0_1_twice : IsDouble (double_0_1 * 2) := by
  refine ⟨3602879701896397, -54, ?_, by norm_num, by norm_num, ?_⟩
  · rw [abs_lt]
    constructor <;> norm_num
  · rw [double_0_1]
    norm_num

/-- The example of the specification: sizes 3 and 2 with the double 0.1 give 2, for every
rounding that leaves doubles unchanged. -/
theorem spec_estimated_diff_example (round_double : ℚ → ℚ)
    (hexact : ∀ x : ℚ, IsDouble x → round_double x = x) :
    spec_estimated_diff round_double 3 2 double_0_1 = 2 := by
  have hmin : ((min 3 2 : Nat) : ℚ) = 2 := by norm_num
  have hfloor : ⌊round_double (double_0_1 * ((min 3 2 : Nat) : ℚ))⌋ = 0 := by
    rw [hmin, hexact _ double_0_1_twice, Int.floor_eq_iff, double_0_1]
    norm_num
  simp only [spec_estimated_diff, hfloor]
  norm_num

/-- A rounding that is monotone and leaves doubles unchanged keeps a value between two
integers of at most 53 bits that enclose it. -/
theorem round_double_between (round_double : ℚ → ℚ)
    (hmono : ∀ x y : ℚ, x ≤ y → round_double x ≤ round_double y)
    (hexact : ∀ x : ℚ, IsDouble x → round_double x = x)
    (a b : Int) (ha : |a| < 2 ^ 53) (hb : |b| < 2 ^ 53) (x : ℚ)
    (hax : (a : ℚ) ≤ x) (hxb : x ≤ (b : ℚ)) :
    (a : ℚ) ≤ round_double x ∧ round_double x ≤ (b : ℚ) := by
  have hda : IsDouble (a : ℚ) := ⟨a, 0, ha, by norm_num, by norm_num, by simp⟩
  have hdb : IsDouble (b : ℚ) := ⟨b, 0, hb, by norm_num, by norm_num, by simp⟩
  constructor
  · have h := hmono _ _ hax
    rwa [hexact _ hda] at h
  · have h := hmono _ _ hxb
    rwa [hexact _ hdb] at h

/-- A natural number of at most 53 bits is a double. -/
theorem isDouble_natCast (n : Nat) (hn : n < 2 ^ 53) : IsDouble (n : ℚ) := by
  refine ⟨(n : Int), 0, ?_, by norm_num, by norm_num, by simp⟩
  rw [abs_lt]
  constructor <;> omega

/-- A rounding that leaves doubles unchanged returns the double 0 for the product 0. -/
theorem round_double_zero (round_double : ℚ → ℚ)
    (hexact : ∀ x : ℚ, IsDouble x → round_double x = x) : round_double 0 = 0 := by
  have h := hexact _ (isDouble_natCast 0 (by norm_num))
  simpa using h

/-- A double of size at least `2 ^ k` is a multiple of `2 ^ (k - 52)`. -/
theorem isDouble_grid (y : ℚ) (k : Int) (hy : IsDouble y) (hk : (2 : ℚ) ^ k ≤ y) :
    ∃ n : Int, y = (n : ℚ) * (2 : ℚ) ^ (k - 52) := by
  obtain ⟨m, e, hm, _, _, rfl⟩ := hy
  have h2e : (0 : ℚ) < (2 : ℚ) ^ e := zpow_pos (by norm_num) e
  have h2k : (0 : ℚ) < (2 : ℚ) ^ k := zpow_pos (by norm_num) k
  have hmpos : (0 : ℚ) < m := by
    by_contra hneg
    push_neg at hneg
    have : (m : ℚ) * 2 ^ e ≤ 0 := mul_nonpos_of_nonpos_of_nonneg hneg h2e.le
    linarith
  have hmlt : (m : ℚ) < 2 ^ 53 := by
    have := (abs_lt.mp hm).2
    exact_mod_cast this
  have he : k - 52 ≤ e := by
    by_contra hlt
    push_neg at hlt
    have h1 : e ≤ k - 53 := by omega
    have h2 : (2 : ℚ) ^ e ≤ 2 ^ (k - 53) := zpow_le_zpow_right₀ (by norm_num) h1
    have h3 : (m : ℚ) * 2 ^ e < 2 ^ 53 * 2 ^ (k - 53) :=
      calc (m : ℚ) * 2 ^ e ≤ m * 2 ^ (k - 53) := mul_le_mul_of_nonneg_left h2 hmpos.le
        _ < 2 ^ 53 * 2 ^ (k - 53) :=
          mul_lt_mul_of_pos_right hmlt (zpow_pos (by norm_num) _)
    have h4 : (2 : ℚ) ^ 53 * 2 ^ (k - 53) = 2 ^ k := by
      rw [← zpow_natCast, ← zpow_add₀ (by norm_num)]
      congr 1
      omega
    linarith
  refine ⟨m * 2 ^ (e - (k - 52)).toNat, ?_⟩
  have hsplit : (2 : ℚ) ^ e = 2 ^ (((e - (k - 52)).toNat : Nat) : Int) * 2 ^ (k - 52) := by
    rw [← zpow_add₀ (by norm_num)]
    congr 1
    omega
  push_cast
  rw [hsplit, zpow_natCast]
  ring

/-- A rounding to a nearest double returns the double `d` for every `x` that is nearer to
`d` than half the spacing `2 ^ (k - 52)` of the doubles from `2 ^ k` on. -/
theorem round_nearest_eq (round_double : ℚ → ℚ) (x d : ℚ) (k n : Int)
    (hdouble : IsDouble (round_double x))
    (hnearest : ∀ d : ℚ, IsDouble d → |round_double x - x| ≤ |d - x|)
    (hd : IsDouble d) (hdn : d = (n : ℚ) * (2 : ℚ) ^ (k - 52))
    (hk : (2 : ℚ) ^ k ≤ x - |d - x|)
    (hclose : 2 * |d - x| < (2 : ℚ) ^ (k - 52)) : round_double x = d := by
  have h1 := hnearest d hd
  have hlow : (2 : ℚ) ^ k ≤ round_double x := by
    have := (abs_le.mp h1).1
    linarith
  obtain ⟨n', hn'⟩ := isDouble_grid _ k hdouble hlow
  have hulp : (0 : ℚ) < (2 : ℚ) ^ (k - 52) := zpow_pos (by norm_num) _
  have hdist : |round_double x - d| < (2 : ℚ) ^ (k - 52) := by
    have h2 : |round_double x - d| ≤ |round_double x - x| + |d - x| := by
      have := abs_sub_le (round_double x) x d
      rwa [abs_sub_comm x d] at this
    linarith
  have hnn : |((n' - n : Int) : ℚ)| < 1 := by
    have h3 : round_double x - d = ((n' - n : Int) : ℚ) * (2 : ℚ) ^ (k - 52) := by
      rw [hn', hdn]
      push_cast
      ring
    rw [h3, abs_mul, abs_of_pos hulp] at hdist
    by_contra hge
    push_neg at hge
    have := mul_le_mul_of_nonneg_right hge hulp.le
    linarith
  have hz : n' - n = 0 := by
    have h4 : |(n' - n : Int)| < 1 := by exact_mod_cast hnn
    rw [abs_lt] at h4
    omega
  have : n' = n := by omega
  rw [hn', hdn, this]

/-- The double product `0.03 * 100` is 3: the exact product is `3 - 2 ^ (-53)`, nearer to 3
than to any other double, so a rounding to a nearest double returns 3. -/
theorem round_product_0_03 (round_double : ℚ → ℚ)
    (hdouble : IsDouble (round_double (double_0_03 * 100)))
    (hnearest : ∀ d : ℚ, IsDouble d →
      |round_double (double_0_03 * 100) - double_0_03 * 100| ≤ |d - double_0_03 * 100|) :
    round_double (double_0_03 * 100) = 3 := by
  have hx : (3 : ℚ) - double_0_03 * 100 = 1 / 2 ^ 53 := by
    rw [double_0_03]
    norm_num
  have habs : |(3 : ℚ) - double_0_03 * 100| = 1 / 2 ^ 53 := by
    rw [hx]
    exact abs_of_pos (by norm_num)
  have h3 : IsDouble (3 : ℚ) := by
    simpa using isDouble_natCast 3 (by norm_num)
  refine round_nearest_eq round_double _ 3 1 (3 * 2 ^ 51) hdouble hnearest h3 ?_ ?_ ?_
  · norm_num
  · rw [habs, double_0_03]
    norm_num
  · rw [habs]
    norm_num

/-- The double product `(1.0 / 32767) * 32767` is 1: the exact product is `1 - 2 ^ (-60)`,
nearer to 1 than to any other double, so a rounding to a nearest double returns 1. -/
theorem round_product_inv_32767 (round_double : ℚ → ℚ)
    (hdouble : IsDouble (round_double (double_inv_32767 * 32767)))
    (hnearest : ∀ d : ℚ, IsDouble d →
      |round_double (double_inv_32767 * 32767) - double_inv_32767 * 32767|
        ≤ |d - double_inv_32767 * 32767|) :
    round_double (double_inv_32767 * 32767) = 1 := by
  have hx : (1 : ℚ) - double_inv_32767 * 32767 = 1 / 2 ^ 60 := by
    rw [double_inv_32767]
    norm_num
  have habs : |(1 : ℚ) - double_inv_32767 * 32767| = 1 / 2 ^ 60 := by
    rw [hx]
    exact abs_of_pos (by norm_num)
  have h1 : IsDouble (1 : ℚ) := by
    simpa using isDouble_natCast 1 (by norm_num)
  refine round_nearest_eq round_double _ 1 (-1) (2 ^ 53) hdouble hnearest h1 ?_ ?_ ?_
  · norm_num
  · rw [habs, double_inv_32767]
    norm_num
  · rw [habs]
    norm_num

/-- With the coefficient 0 the weighted term vanishes: the estimate is one more than the
16-bit size difference, reduced to 16 bits. -/
theorem estimated_diff_zero_q (round_double : ℚ → ℚ)
    (hexact : ∀ x : ℚ, IsDouble x → round_double x = x) (local_set_size remote_set_size : Nat) :
    ReconciliationState.estimated_diff round_double local_set_size remote_set_size 0
      = (1 + Int.natAbs (((local_set_size % 2 ^ 16 : Nat) : Int) - (remote_set_size : Int))
          % 2 ^ 16) % 2 ^ 16 := by
  simp only [ReconciliationState.estimated_diff, zero_mul, round_double_zero round_double hexact,
    Int.floor_zero, Int.toNat_zero, Nat.zero_mod, Nat.add_zero]

/-- With the coefficient 0 the formula of the specification is one more than the size
difference. -/
theorem spec_estimated_diff_zero_q (round_double : ℚ → ℚ)
    (hexact : ∀ x : ℚ, IsDouble x → round_double x = x) (local_set_size remote_set_size : Nat) :
    spec_estimated_diff round_double local_set_size remote_set_size 0
      = 1 + Int.natAbs ((local_set_size : Int) - (remote_set_size : Int)) := by
  simp only [spec_estimated_diff, zero_mul, round_double_zero round_double hexact,
    Int.floor_zero, Int.toNat_zero, Nat.add_zero]

/-! ### The sketch and the short-id mapping -/

/-- An entry stays in the mapping under `mapEmplace`. -/
theorem mem_mapEmplace_of_mem (k v : Nat) (e : Nat × Nat) (m : List (Nat × Nat))
    (h : e ∈ m) : e ∈ mapEmplace k v m := by
  induction m with
  | nil => simp at h
  | cons a rest ih =>
    unfold mapEmplace
    split_ifs
    · exact List.mem_cons_of_mem _ h
    · exact h
    · rcases List.mem_cons.mp h with h | h
      · rw [h]
        exact List.mem_cons_self _ _
      · exact List.mem_cons_of_mem _ (ih h)

/-- An entry of the mapping after `mapEmplace` was there before or is the emplaced one. -/
theorem mem_mapEmplace (k v : Nat) (e : Nat × Nat) (m : List (Nat × Nat))
    (h : e ∈ mapEmplace k v m) : e ∈ m ∨ e = (k, v) := by
  induction m with
  | nil =>
    simp only [mapEmplace, List.mem_singleton] at h
    exact Or.inr h
  | cons a rest ih =>
    unfold mapEmplace at h
    split_ifs at h
    · rcases List.mem_cons.mp h with h | h
      · exact Or.inr h
      · exact Or.inl h
    · exact Or.inl h
    · rcases List.mem_cons.mp h with h | h
      · rw [h]
        exact Or.inl (List.mem_cons_self _ _)
      · rcases ih h with h | h
        · exact Or.inl (List.mem_cons_of_mem _ h)
        · exact Or.inr h

/-- The emplaced key is a key of the mapping afterwards. -/
theorem key_mapEmplace (k v : Nat) (m : List (Nat × Nat)) :
    ∃ v', (k, v') ∈ mapEmplace k v m := by
  induction m with
  | nil => exact ⟨v, by simp [mapEmplace]⟩
  | cons a rest ih =>
    unfold mapEmplace
    split_ifs with h1 h2
    · exact ⟨v, List.mem_cons_self _ _⟩
    · refine ⟨a.2, ?_⟩
      rw [h2]
      exact List.mem_cons_self _ _
    · obtain ⟨v', hv'⟩ := ih
      exact ⟨v', List.mem_cons_of_mem _ hv'⟩

/-- Entries stay in the mapping while a list of ids is emplaced. -/
theorem mem_foldl_mapEmplace_of_mem (sid : Nat → Nat) (l : List Nat) :
    ∀ (m : List (Nat × Nat)) (e : Nat × Nat), e ∈ m →
      e ∈ l.foldl (fun m wtxid => mapEmplace (sid wtxid) wtxid m) m := by
  induction l with
  | nil => intro m e h; exact h
  | cons a rest ih =>
    intro m e h
    exact ih _ e (mem_mapEmplace_of_mem (sid a) a e m h)

/-- An entry found after emplacing a list of ids was there before or belongs to a listed id. -/
theorem mem_foldl_mapEmplace (sid : Nat → Nat) (l : List Nat) :
    ∀ (m : List (Nat × Nat)) (e : Nat × Nat),
      e ∈ l.foldl (fun m wtxid => mapEmplace (sid wtxid) wtxid m) m →
      e ∈ m ∨ ∃ x ∈ l, e = (sid x, x) := by
  induction l with
  | nil => intro m e h; exact Or.inl h
  | cons a rest ih =>
    intro m e h
    rcases ih _ e h with h | ⟨x, hx, hex⟩
    · rcases mem_mapEmplace (sid a) a e m h with h | h
      · exact Or.inl h
      · exact Or.inr ⟨a, List.mem_cons_self _ _, h⟩
    · exact Or.inr ⟨x, List.mem_cons_of_mem _ hx, hex⟩

/-- The short id of every listed id is a key after emplacing the list. -/
theorem key_foldl_mapEmplace (sid : Nat → Nat) (l : List Nat) :
    ∀ (m : List (Nat × Nat)) (x : Nat), x ∈ l →
      ∃ v, (sid x, v) ∈ l.foldl (fun m wtxid => mapEmplace (sid wtxid) wtxid m) m := by
  induction l with
  | nil => intro m x h; simp at h
  | cons a rest ih =>
    intro m x h
    rcases List.mem_cons.mp h with h | h
    · subst h
      obtain ⟨v, hv⟩ := key_mapEmplace (sid x) x m
      exact ⟨v, mem_foldl_mapEmplace_of_mem sid rest _ _ hv⟩
    · exact ih _ x h

/-- The loop of `ComputeSketch`: the short ids collected. -/
theorem loop_fst (sid : Nat → Nat) (l : List Nat) :
    ∀ (acc : List Nat) (m : List (Nat × Nat)),
      (l.foldl (fun (p : List Nat × List (Nat × Nat)) wtxid =>
        (p.1 ++ [sid wtxid], mapEmplace (sid wtxid) wtxid p.2)) (acc, m)).1
        = acc ++ l.map sid := by
  induction l with
  | nil => intro acc m; simp
  | cons a rest ih =>
    intro acc m
    simp only [List.foldl_cons, List.map_cons, ih]
    simp

/-- The loop of `ComputeSketch`: the mapping built. -/
theorem loop_snd (sid : Nat → Nat) (l : List Nat) :
    ∀ (acc : List Nat) (m : List (Nat × Nat)),
      (l.foldl (fun (p : List Nat × List (Nat × Nat)) wtxid =>
        (p.1 ++ [sid wtxid], mapEmplace (sid wtxid) wtxid p.2)) (acc, m)).2
        = l.foldl (fun m wtxid => mapEmplace (sid wtxid) wtxid m) m := by
  induction l with
  | nil => intro acc m; simp
  | cons a rest ih =>
    intro acc m
    simp only [List.foldl_cons, ih]

/-- Adding a list of elements to a created sketch appends them to its record. -/
theorem foldl_Add (elements : List Nat) :
    ∀ d : SketchData, elements.foldl Minisketch.Add (some d)
      = some { d with added := d.added ++ elements } := by
  induction elements with
  | nil => intro d; simp
  | cons a rest ih =>
    intro d
    simp only [List.foldl_cons, Minisketch.Add, Option.map_some']
    rw [ih]
    simp

/-- Past the early return, `ComputeSketch` yields the created sketch with the short ids of
the local set added in order, and the mapping with every local id emplaced. -/
theorem computeSketch_eq (sip : Nat → Nat → Nat → Nat) (created : Nat → Nat → Nat → Bool)
    (self : ReconciliationState) (capacity : Nat)
    (hne : self.m_local_set ≠ []) (hcap : capacity ≠ 0) :
    self.ComputeSketch sip created capacity =
      ((if created RECON_FIELD_SIZE 0 (min capacity MAX_SKETCH_CAPACITY) then
          some { bits := RECON_FIELD_SIZE, implementation := 0,
                 capacity := min capacity MAX_SKETCH_CAPACITY,
                 added := self.m_local_set.map (self.ComputeShortID sip) }
        else none),
       { self with
         m_local_short_id_mapping := self.m_local_set.foldl
           (fun m wtxid => mapEmplace (self.ComputeShortID sip wtxid) wtxid m)
           self.m_local_short_id_mapping }) := by
  have hlen : ¬ (self.m_local_set.length = 0 ∨ capacity = 0) := by
    simp [List.length_eq_zero, hne, hcap]
  unfold ReconciliationState.ComputeSketch
  simp only [hlen, if_false, loop_fst, loop_snd, List.nil_append]
  cases hc : created RECON_FIELD_SIZE 0 (min capacity MAX_SKETCH_CAPACITY)
  · simp [Minisketch.create, hc]
  · simp [Minisketch.create, hc, foldl_Add]

/-- On the early return `ComputeSketch` yields the empty sketch and the state as it was. -/
theorem computeSketch_early (sip : Nat → Nat → Nat → Nat) (created : Nat → Nat → Nat → Bool)
    (self : ReconciliationState) (capacity : Nat)
    (h : self.m_local_set.length = 0 ∨ capacity = 0) :
    self.ComputeSketch sip created capacity = (none, self) := by
  simp only [ReconciliationState.ComputeSketch, if_pos h]

/-! ### Lookups in the short-id mapping -/

/-- A key is found exactly when the mapping has an entry with it. -/
theorem mapFind_isSome_iff (k : Nat) (m : List (Nat × Nat)) :
    (mapFind k m).isSome = true ↔ ∃ v, (k, v) ∈ m := by
  induction m with
  | nil => simp [mapFind]
  | cons e es ih =>
    unfold mapFind
    by_cases h : e.1 = k
    · simp only [h, if_true, Option.isSome_some, true_iff]
      exact ⟨e.2, by rw [← h]; exact List.mem_cons_self _ _⟩
    · simp only [h, if_false, ih, List.mem_cons]
      constructor
      · rintro ⟨v, hv⟩
        exact ⟨v, Or.inr hv⟩
      · rintro ⟨v, hv | hv⟩
        · exact absurd (congrArg Prod.fst hv).symm h
        · exact ⟨v, hv⟩

/-- The value found for a key is the value of an entry with that key. -/
theorem mapFind_mem (k v : Nat) (m : List (Nat × Nat)) (h : mapFind k m = some v) :
    (k, v) ∈ m := by
  induction m with
  | nil => simp [mapFind] at h
  | cons e es ih =>
    unfold mapFind at h
    by_cases hk : e.1 = k
    · simp only [hk, if_true, Option.some.injEq] at h
      have : e = (k, v) := Prod.ext hk h
      rw [this]
      exact List.mem_cons_self _ _
    · simp only [hk, if_false] at h
      exact List.mem_cons_of_mem _ (ih h)

/-- The loop of `GetWTXIDsFromShortIDs` appends the found ids in order. -/
theorem wtxids_loop (m : List (Nat × Nat)) (ids : List Nat) :
    ∀ acc : List Nat,
      ids.foldl (fun remote_missing missing_short_id =>
        match mapFind missing_short_id m with
        | some wtxid => remote_missing ++ [wtxid]
        | none => remote_missing) acc
      = acc ++ ids.filterMap (fun id => mapFind id m) := by
  induction ids with
  | nil => intro acc; simp
  | cons a rest ih =>
    intro acc
    simp only [List.foldl_cons, ih, List.filterMap_cons]
    cases mapFind a m <;> simp

/-- The loop of `GetRelevantIDsFromShortIDs` appends to one list or the other, in order. -/
theorem relevant_loop (m : List (Nat × Nat)) (diff : List Nat) :
    ∀ acc : List Nat × List Nat,
      diff.foldl (fun (acc : List Nat × List Nat) diff_short_id =>
        match mapFind (diff_short_id % 2 ^ 32) m with
        | some wtxid => (acc.1, acc.2 ++ [wtxid])
        | none => (acc.1 ++ [diff_short_id % 2 ^ 32], acc.2)) acc
      = (acc.1 ++ (diff.filter (fun d => (mapFind (d % 2 ^ 32) m).isNone)).map
            (fun d => d % 2 ^ 32),
         acc.2 ++ diff.filterMap (fun d => mapFind (d % 2 ^ 32) m)) := by
  induction diff with
  | nil => intro acc; simp
  | cons a rest ih =>
    intro acc
    simp only [List.foldl_cons, ih, List.filterMap_cons, List.filter_cons]
    cases mapFind (a % 2 ^ 32) m <;> simp

/-- The two parts of a split by `mapFind` have the length of the whole. -/
theorem split_length (g : Nat → Option Nat) (diff : List Nat) :
    ((diff.filter (fun d => (g d).isNone)).map (fun d => d % 2 ^ 32)).length
      + (diff.filterMap g).length = diff.length := by
  induction diff with
  | nil => simp
  | cons a rest ih =>
    simp only [List.filter_cons, List.filterMap_cons]
    cases g a <;> simp at ih ⊢ <;> omega

/-- The loop of `GetRelevantIDsFromShortIDs` splits `diff` by the `uint32_t` value of each
element, which is the key looked up and the value pushed to `local_missing`; for elements
below `2 ^ 32` that is the element itself. -/
theorem relevant_split (self : ReconciliationState) (diff : List Nat) :
    (self.GetRelevantIDsFromShortIDs diff).2
      = diff.filterMap (fun d => mapFind (d % 2 ^ 32) self.m_local_short_id_mapping) ∧
    (self.GetRelevantIDsFromShortIDs diff).1
      = (diff.filter (fun d => (mapFind (d % 2 ^ 32) self.m_local_short_id_mapping).isNone)).map
          (fun d => d % 2 ^ 32) ∧
    (self.GetRelevantIDsFromShortIDs diff).1.length
      + (self.GetRelevantIDsFromShortIDs diff).2.length = diff.length ∧
    ((∀ d ∈ diff, d < 2 ^ 32) →
      (self.GetRelevantIDsFromShortIDs diff).2
        = diff.filterMap (fun d => mapFind d self.m_local_short_id_mapping) ∧
      (self.GetRelevantIDsFromShortIDs diff).1
        = diff.filter (fun d => (mapFind d self.m_local_short_id_mapping).isNone)) := by
  have h : self.GetRelevantIDsFromShortIDs diff
      = ((diff.filter (fun d =>
            (mapFind (d % 2 ^ 32) self.m_local_short_id_mapping).isNone)).map
            (fun d => d % 2 ^ 32),
         diff.filterMap (fun d => mapFind (d % 2 ^ 32) self.m_local_short_id_mapping)) := by
    simp only [ReconciliationState.GetRelevantIDsFromShortIDs, relevant_loop, List.nil_append]
  rw [h]
  refine ⟨rfl, rfl, split_length _ diff, ?_⟩
  intro hsmall
  constructor
  · apply List.filterMap_congr
    intro d hd
    rw [Nat.mod_eq_of_lt (hsmall d hd)]
  · have hf : diff.filter (fun d =>
          (mapFind (d % 2 ^ 32) self.m_local_short_id_mapping).isNone)
        = diff.filter (fun d => (mapFind d self.m_local_short_id_mapping).isNone) := by
      apply List.filter_congr
      intro d hd
      rw [Nat.mod_eq_of_lt (hsmall d hd)]
    simp only
    rw [hf]
    conv_rhs => rw [← List.map_id (diff.filter
      (fun d => (mapFind d self.m_local_short_id_mapping).isNone))]
    apply List.map_congr_left
    intro d hd
    have := hsmall d (List.mem_of_mem_filter hd)
    simp only [id]
    exact Nat.mod_eq_of_lt this

/-- The short id depends on the state through the salt only. -/
theorem computeShortID_salt (sip : Nat → Nat → Nat → Nat) (st₁ st₂ : ReconciliationState)
    (hk0 : st₁.m_k0 = st₂.m_k0) (hk1 : st₁.m_k1 = st₂.m_k1) :
    st₁.ComputeShortID sip = st₂.ComputeShortID sip := by
  funext wtxid
  simp only [ReconciliationState.ComputeShortID, hk0, hk1]

/-- Two sketches fed the same elements decode to an empty difference. -/
theorem mergeDecode_same (sk₁ sk₂ : SketchData) (h : sk₁.added = sk₂.added) :
    Minisketch.MergeDecode sk₁ sk₂ = some [] := by
  have hnil : ∀ l : List Nat, l.filter (fun e => !l.contains e) = [] := by
    intro l
    rw [List.filter_eq_nil_iff]
    intro a ha
    simp [ha]
  simp only [Minisketch.MergeDecode, h, hnil]
  simp

/-! ### Calls on a state -/

/-- `ComputeSketch` changes no member other than the short-id mapping. -/
theorem computeSketch_frame (sip : Nat → Nat → Nat → Nat) (created : Nat → Nat → Nat → Bool)
    (self : ReconciliationState) (capacity : Nat) :
    (self.ComputeSketch sip created capacity).2
      = { self with
          m_local_short_id_mapping :=
            (self.ComputeSketch sip created capacity).2.m_local_short_id_mapping } := by
  by_cases hearly : self.m_local_set.length = 0 ∨ capacity = 0
  · rw [computeSketch_early sip created self capacity hearly]
  · have hne : self.m_local_set ≠ [] := by
      intro e
      exact hearly (Or.inl (by simp [e]))
    have hcap : capacity ≠ 0 := fun e => hearly (Or.inr e)
    rw [computeSketch_eq sip created self capacity hne hcap]

/-- A call that returns keeps the roles, changes the incoming phase only if it is
`UpdateIncomingPhase` on a requestor, and the outgoing phase only if it is
`UpdateOutgoingPhase` on a responder. -/
theorem applyStateOp_effect (sip : Nat → Nat → Nat → Nat) (created : Nat → Nat → Nat → Bool)
    (unwritten_q : ℚ) (st st' : ReconciliationState) (op : StateOp)
    (h : applyStateOp sip created unwritten_q st op = Except.ok st') :
    st'.m_requestor = st.m_requestor ∧ st'.m_responder = st.m_responder ∧
    (st.m_requestor = false → st'.m_incoming_recon = st.m_incoming_recon) ∧
    (st.m_responder = false → st'.m_outgoing_recon = st.m_outgoing_recon) ∧
    ((∀ p, op ≠ StateOp.updateIncomingPhase p) → st'.m_incoming_recon = st.m_incoming_recon) ∧
    ((∀ p, op ≠ StateOp.updateOutgoingPhase p) → st'.m_outgoing_recon = st.m_outgoing_recon) := by
  cases op with
  | addToReconSet txs =>
    simp only [applyStateOp, Except.ok.injEq] at h
    subst h
    simp [ReconciliationState.AddToReconSet]
  | computeSketch capacity =>
    simp only [applyStateOp, Except.ok.injEq] at h
    subst h
    rw [computeSketch_frame]
    simp
  | prepareIncoming n q t =>
    simp only [applyStateOp, ReconciliationState.PrepareIncoming] at h
    split_ifs at h
    simp only [Except.ok.injEq] at h
    subst h
    simp
  | updateIncomingPhase p =>
    simp only [applyStateOp, ReconciliationState.UpdateIncomingPhase] at h
    split_ifs at h with hr
    simp only [Except.ok.injEq] at h
    subst h
    simp at hr
    simp [hr]
  | updateOutgoingPhase p =>
    simp only [applyStateOp, ReconciliationState.UpdateOutgoingPhase] at h
    split_ifs at h with hr
    simp only [Except.ok.injEq] at h
    subst h
    simp at hr
    simp [hr]
  | finalizeIncoming =>
    simp only [applyStateOp, ReconciliationState.FinalizeIncomingReconciliation] at h
    split_ifs at h
    simp only [Except.ok.injEq] at h
    subst h
    simp [ReconciliationState.ClearState]
  | finalizeOutgoing clear q =>
    simp only [applyStateOp, ReconciliationState.FinalizeOutgoingReconciliation] at h
    split_ifs at h <;>
    · simp only [Except.ok.injEq] at h
      subst h
      simp [ReconciliationState.ClearState]

/-- A sequence of calls that returns keeps the roles and the phase of a direction whose
role the state does not have. -/
theorem runStateOps_unowned (sip : Nat → Nat → Nat → Nat) (created : Nat → Nat → Nat → Bool)
    (unwritten_q : ℚ) (ops : List StateOp) :
    ∀ st st' : ReconciliationState,
      runStateOps sip created unwritten_q ops st = Except.ok st' →
      st'.m_requestor = st.m_requestor ∧ st'.m_responder = st.m_responder ∧
      (st.m_requestor = false → st'.m_incoming_recon = st.m_incoming_recon) ∧
      (st.m_responder = false → st'.m_outgoing_recon = st.m_outgoing_recon) := by
  induction ops with
  | nil =>
    intro st st' h
    simp only [runStateOps, Except.ok.injEq] at h
    subst h
    simp
  | cons op rest ih =>
    intro st st' h
    simp only [runStateOps] at h
    cases hop : applyStateOp sip created unwritten_q st op with
    | error fault => simp [hop] at h
    | ok next =>
      rw [hop] at h
      simp only at h
      obtain ⟨h1, h2, h3, h4, _, _⟩ := applyStateOp_effect sip created unwritten_q st next op hop
      obtain ⟨g1, g2, g3, g4⟩ := ih next st' h
      refine ⟨g1.trans h1, g2.trans h2, ?_, ?_⟩
      · intro hr
        rw [g3 (h1.trans hr), h3 hr]
      · intro hr
        rw [g4 (h2.trans hr), h4 hr]

/-- The capacity estimate of an example state under the identity normalisation. -/
theorem estimate_exampleState (round_double : ℚ → ℚ) (local_set : List Nat)
    (remote_set_size : Nat) (remote_q : ℚ) :
    (exampleState local_set remote_set_size remote_q).EstimateSketchCapacity round_double
        exampleCapacity
      = some (ReconciliationState.estimated_diff round_double local_set.length remote_set_size
          remote_q % 2 ^ 16) := by
  rfl

/-- The local set of an example state, as `GetLocalSet` lists it. -/
theorem exampleState_GetLocalSet (local_set : List Nat) (remote_set_size : Nat)
    (remote_q : ℚ) :
    (exampleState local_set remote_set_size remote_q).GetLocalSet = local_set := by
  rfl

/-- The reported size of the local set of an example state. -/
theorem exampleState_GetLocalSetSize (local_set : List Nat) (remote_set_size : Nat)
    (remote_q : ℚ) :
    (exampleState local_set remote_set_size remote_q).GetLocalSetSize
      = local_set.length % 2 ^ 16 := by
  rfl

/-! ### Scheduling -/

/-- Calls of `NextReconRespond` at clock times not after the stored deadline return that
deadline and leave the tracker as it is. -/
theorem respondAtTimes_within (later : List Int) :
    ∀ self : TxReconciliationTracker, (∀ t ∈ later, t ≤ self.m_next_recon_respond) →
      self.respondAtTimes later
        = (List.replicate later.length self.m_next_recon_respond, self) := by
  induction later with
  | nil => intro self _; rfl
  | cons t rest ih =>
    intro self h
    have ht : ¬ self.m_next_recon_respond < t := not_lt.mpr (h t (List.mem_cons_self t rest))
    have hfirst : self.NextReconRespond t = (self.m_next_recon_respond, self) := by
      simp [NextReconRespond, ht]
    simp only [respondAtTimes, hfirst,
      ih self (fun u hu => h u (List.mem_cons_of_mem t hu)), List.length_cons,
      List.replicate_succ]

/-! ### Soundness of the short-id mapping -/

/-- A call that returns keeps the salt. -/
theorem applyStateOp_salt (sip : Nat → Nat → Nat → Nat) (created : Nat → Nat → Nat → Bool)
    (unwritten_q : ℚ) (st st' : ReconciliationState) (op : StateOp)
    (h : applyStateOp sip created unwritten_q st op = Except.ok st') :
    st'.m_k0 = st.m_k0 ∧ st'.m_k1 = st.m_k1 := by
  cases op with
  | addToReconSet txs =>
    simp only [applyStateOp, Except.ok.injEq] at h
    subst h
    simp [ReconciliationState.AddToReconSet]
  | computeSketch capacity =>
    simp only [applyStateOp, Except.ok.injEq] at h
    subst h
    rw [computeSketch_frame]
    simp
  | prepareIncoming n q t =>
    simp only [applyStateOp, ReconciliationState.PrepareIncoming] at h
    split_ifs at h
    simp only [Except.ok.injEq] at h
    subst h
    simp
  | updateIncomingPhase p =>
    simp only [applyStateOp, ReconciliationState.UpdateIncomingPhase] at h
    split_ifs at h
    simp only [Except.ok.injEq] at h
    subst h
    simp
  | updateOutgoingPhase p =>
    simp only [applyStateOp, ReconciliationState.UpdateOutgoingPhase] at h
    split_ifs at h
    simp only [Except.ok.injEq] at h
    subst h
    simp
  | finalizeIncoming =>
    simp only [applyStateOp, ReconciliationState.FinalizeIncomingReconciliation] at h
    split_ifs at h
    simp only [Except.ok.injEq] at h
    subst h
    simp [ReconciliationState.ClearState]
  | finalizeOutgoing clear q =>
    simp only [applyStateOp, ReconciliationState.FinalizeOutgoingReconciliation] at h
    split_ifs at h <;>
    · simp only [Except.ok.injEq] at h
      subst h
      simp [ReconciliationState.ClearState]

/-- `ComputeSketch` keeps the mapping sound: every entry maps the short id of a local id to
that id. -/
theorem computeSketch_sound (sip : Nat → Nat → Nat → Nat) (created : Nat → Nat → Nat → Bool)
    (self : ReconciliationState) (capacity : Nat)
    (hinv : ∀ e ∈ self.m_local_short_id_mapping,
      e.2 ∈ self.m_local_set ∧ self.ComputeShortID sip e.2 = e.1) :
    ∀ e ∈ (self.ComputeSketch sip created capacity).2.m_local_short_id_mapping,
      e.2 ∈ self.m_local_set ∧ self.ComputeShortID sip e.2 = e.1 := by
  by_cases hearly : self.m_local_set.length = 0 ∨ capacity = 0
  · rw [computeSketch_early sip created self capacity hearly]
    exact hinv
  · have hne : self.m_local_set ≠ [] := by
      intro e
      exact hearly (Or.inl (by simp [e]))
    have hcap : capacity ≠ 0 := fun e => hearly (Or.inr e)
    rw [computeSketch_eq sip created self capacity hne hcap]
    intro e he
    rcases mem_foldl_mapEmplace (self.ComputeShortID sip) self.m_local_set
      self.m_local_short_id_mapping e he with h | ⟨x, hx, hex⟩
    · exact hinv e h
    · rw [hex]
      exact ⟨hx, rfl⟩

/-- A call that returns keeps the mapping sound. -/
theorem applyStateOp_sound (sip : Nat → Nat → Nat → Nat) (created : Nat → Nat → Nat → Bool)
    (unwritten_q : ℚ) (st st' : ReconciliationState) (op : StateOp)
    (h : applyStateOp sip created unwritten_q st op = Except.ok st')
    (hinv : ∀ e ∈ st.m_local_short_id_mapping,
      e.2 ∈ st.m_local_set ∧ st.ComputeShortID sip e.2 = e.1) :
    ∀ e ∈ st'.m_local_short_id_mapping,
      e.2 ∈ st'.m_local_set ∧ st'.ComputeShortID sip e.2 = e.1 := by
  obtain ⟨hk0, hk1⟩ := applyStateOp_salt sip created unwritten_q st st' op h
  rw [computeShortID_salt sip st' st hk0 hk1]
  cases op with
  | addToReconSet txs =>
    simp only [applyStateOp, Except.ok.injEq] at h
    subst h
    intro e he
    have := hinv e he
    exact ⟨(mem_foldl_setInsert txs st.m_local_set e.2).mpr (Or.inl this.1), this.2⟩
  | computeSketch capacity =>
    simp only [applyStateOp, Except.ok.injEq] at h
    subst h
    have hset : (st.ComputeSketch sip created capacity).2.m_local_set = st.m_local_set := by
      rw [computeSketch_frame]
    rw [hset]
    exact computeSketch_sound sip created st capacity hinv
  | prepareIncoming n q t =>
    simp only [applyStateOp, ReconciliationState.PrepareIncoming] at h
    split_ifs at h
    simp only [Except.ok.injEq] at h
    subst h
    exact hinv
  | updateIncomingPhase p =>
    simp only [applyStateOp, ReconciliationState.UpdateIncomingPhase] at h
    split_ifs at h
    simp only [Except.ok.injEq] at h
    subst h
    exact hinv
  | updateOutgoingPhase p =>
    simp only [applyStateOp, ReconciliationState.UpdateOutgoingPhase] at h
    split_ifs at h
    simp only [Except.ok.injEq] at h
    subst h
    exact hinv
  | finalizeIncoming =>
    simp only [applyStateOp, ReconciliationState.FinalizeIncomingReconciliation] at h
    split_ifs at h
    simp only [Except.ok.injEq] at h
    subst h
    simp [ReconciliationState.ClearState]
  | finalizeOutgoing clear q =>
    simp only [applyStateOp, ReconciliationState.FinalizeOutgoingReconciliation] at h
    split_ifs at h <;>
    · simp only [Except.ok.injEq] at h
      subst h
      simp [ReconciliationState.ClearState]

/-- A sequence of calls that returns keeps the mapping sound. -/
theorem runStateOps_sound (sip : Nat → Nat → Nat → Nat) (created : Nat → Nat → Nat → Bool)
    (unwritten_q : ℚ) (ops : List StateOp) :
    ∀ st st' : ReconciliationState,
      runStateOps sip created unwritten_q ops st = Except.ok st' →
      (∀ e ∈ st.m_local_short_id_mapping,
        e.2 ∈ st.m_local_set ∧ st.ComputeShortID sip e.2 = e.1) →
      ∀ e ∈ st'.m_local_short_id_mapping,
        e.2 ∈ st'.m_local_set ∧ st'.ComputeShortID sip e.2 = e.1 := by
  induction ops with
  | nil =>
    intro st st' h hinv
    simp only [runStateOps, Except.ok.injEq] at h
    subst h
    exact hinv
  | cons op rest ih =>
    intro st st' h hinv
    simp only [runStateOps] at h
    cases hop : applyStateOp sip created unwritten_q st op with
    | error fault => simp [hop] at h
    | ok next =>
      rw [hop] at h
      simp only at h
      exact ih next st' h (applyStateOp_sound sip created unwritten_q st next op hop hinv)

/-- Every id returned by `GetWTXIDsFromShortIDs` is the value of an entry of the mapping. -/
theorem wtxids_from_mapping (self : ReconciliationState) (short_ids : List Nat) (x : Nat)
    (h : x ∈ self.GetWTXIDsFromShortIDs short_ids) :
    ∃ k, (k, x) ∈ self.m_local_short_id_mapping := by
  simp only [ReconciliationState.GetWTXIDsFromShortIDs, wtxids_loop, List.nil_append,
    List.mem_filterMap] at h
  obtain ⟨id, _, hid⟩ := h
  exact ⟨id, mapFind_mem id x _ hid⟩

/-- Every full id returned by `GetRelevantIDsFromShortIDs` is the value of an entry of the
mapping. -/
theorem relevant_from_mapping (self : ReconciliationState) (diff : List Nat) (x : Nat)
    (h : x ∈ (self.GetRelevantIDsFromShortIDs diff).2) :
    ∃ k, (k, x) ∈ self.m_local_short_id_mapping := by
  simp only [ReconciliationState.GetRelevantIDsFromShortIDs, relevant_loop, List.nil_append,
    List.mem_filterMap] at h
  obtain ⟨d, _, hd⟩ := h
  exact ⟨d % 2 ^ 32, mapFind_mem _ x _ hd⟩

/-! ### Lookups after emplacing -/

/-- An emplaced key that was absent is found with the emplaced value. -/
theorem mapFind_mapEmplace_absent (k v : Nat) (m : List (Nat × Nat))
    (h : mapFind k m = none) : mapFind k (mapEmplace k v m) = some v := by
  induction m with
  | nil => simp [mapEmplace, mapFind]
  | cons e es ih =>
    unfold mapFind at h
    by_cases hk : e.1 = k
    · simp [hk] at h
    · simp only [hk, if_false] at h
      unfold mapEmplace
      split_ifs with h1 h2
      · simp [mapFind]
      · exact absurd h2.symm hk
      · simp only [mapFind, hk, if_false]
        exact ih h

/-- Emplacing a key does not change what is found for another key. -/
theorem mapFind_mapEmplace_ne (k k' v : Nat) (m : List (Nat × Nat)) (hne : k' ≠ k) :
    mapFind k' (mapEmplace k v m) = mapFind k' m := by
  induction m with
  | nil =>
    have : ¬ k = k' := fun e => hne e.symm
    simp [mapEmplace, mapFind, this]
  | cons e es ih =>
    unfold mapEmplace
    split_ifs with h1 h2
    · have : ¬ k = k' := fun e => hne e.symm
      simp [mapFind, this]
    · rfl
    · by_cases hk : e.1 = k'
      · simp [mapFind, hk]
      · simp only [mapFind, hk, if_false]
        exact ih

/-- A key smaller than every key of the mapping is not found. -/
theorem mapFind_none_of_lt (k : Nat) (m : List (Nat × Nat)) (h : ∀ e ∈ m, k < e.1) :
    mapFind k m = none := by
  induction m with
  | nil => rfl
  | cons e es ih =>
    have he : e.1 ≠ k := by
      have := h e (List.mem_cons_self e es)
      omega
    simp only [mapFind, he, if_false]
    exact ih (fun a ha => h a (List.mem_cons_of_mem e ha))

/-- In a mapping ascending by key, emplacing a present key changes nothing. -/
theorem mapEmplace_present (k v w : Nat) (m : List (Nat × Nat))
    (hs : m.Sorted (fun a b => a.1 < b.1)) (h : mapFind k m = some w) :
    mapEmplace k v m = m := by
  induction m with
  | nil => simp [mapFind] at h
  | cons e es ih =>
    have hz := List.sorted_cons.mp hs
    unfold mapEmplace
    split_ifs with h1 h2
    · exfalso
      have hnone : mapFind k (e :: es) = none := by
        apply mapFind_none_of_lt
        intro a ha
        rcases List.mem_cons.mp ha with ha | ha
        · rw [ha]
          exact h1
        · have := hz.1 a ha
          omega
      rw [hnone] at h
      simp at h
    · rfl
    · have hk : e.1 ≠ k := fun e' => h2 e'.symm
      simp only [mapFind, hk, if_false] at h
      rw [ih hz.2 h]

/-- A mapping ascending by key stays so under `mapEmplace`. -/
theorem sorted_mapEmplace (k v : Nat) (m : List (Nat × Nat))
    (hs : m.Sorted (fun a b => a.1 < b.1)) :
    (mapEmplace k v m).Sorted (fun a b => a.1 < b.1) := by
  induction m with
  | nil => simp [mapEmplace]
  | cons e es ih =>
    have hz := List.sorted_cons.mp hs
    unfold mapEmplace
    split_ifs with h1 h2
    · refine List.sorted_cons.mpr ⟨?_, hs⟩
      intro b hb
      rcases List.mem_cons.mp hb with hb | hb
      · rw [hb]
        exact h1
      · have := hz.1 b hb
        simp only
        omega
    · exact hs
    · refine List.sorted_cons.mpr ⟨?_, ih hz.2⟩
      intro b hb
      rcases mem_mapEmplace k v b es hb with hb | hb
      · exact hz.1 b hb
      · rw [hb]
        simp only
        omega

/-- What is found after emplacing a list of ids into a mapping ascending by key: the entry
that was there, or else the first listed id with that short id. -/
theorem mapFind_foldl_mapEmplace (sid : Nat → Nat) (k : Nat) (l : List Nat) :
    ∀ m : List (Nat × Nat), m.Sorted (fun a b => a.1 < b.1) →
      mapFind k (l.foldl (fun m wtxid => mapEmplace (sid wtxid) wtxid m) m)
        = match mapFind k m with
          | some w => some w
          | none => l.find? (fun x => decide (sid x = k)) := by
  induction l with
  | nil =>
    intro m _
    simp only [List.foldl_nil, List.find?_nil]
    cases mapFind k m <;> rfl
  | cons a rest ih =>
    intro m hs
    simp only [List.foldl_cons]
    rw [ih (mapEmplace (sid a) a m) (sorted_mapEmplace (sid a) a m hs)]
    by_cases hk : sid a = k
    · cases hm : mapFind k m with
      | none =>
        rw [hk, mapFind_mapEmplace_absent k a m hm]
        simp [List.find?_cons, hk]
      | some w =>
        rw [hk, mapEmplace_present k a w m hs hm, hm]
    · have hne : k ≠ sid a := fun e => hk e.symm
      rw [mapFind_mapEmplace_ne (sid a) k a m hne]
      cases hm : mapFind k m with
      | none => simp [List.find?_cons, hk]
      | some w => rfl

/-- In an ascending list the first element with a property is the smallest one with it. -/
theorem find_least (p : Nat → Bool) (l : List Nat) (hs : l.Sorted (fun a b => a < b))
    (z : Nat) (h : l.find? p = some z) :
    z ∈ l ∧ p z = true ∧ ∀ y ∈ l, p y = true → z ≤ y := by
  induction l with
  | nil => simp at h
  | cons a rest ih =>
    have hz := List.sorted_cons.mp hs
    by_cases hp : p a = true
    · simp only [List.find?_cons, hp, Option.some.injEq] at h
      subst h
      refine ⟨List.mem_cons_self _ _, hp, ?_⟩
      intro y hy _
      rcases List.mem_cons.mp hy with hy | hy
      · omega
      · have := hz.1 y hy
        omega
    · have hp' : p a = false := by simpa using hp
      simp only [List.find?_cons, hp'] at h
      obtain ⟨h1, h2, h3⟩ := ih hz.2 h
      refine ⟨List.mem_cons_of_mem _ h1, h2, ?_⟩
      intro y hy hpy
      rcases List.mem_cons.mp hy with hy | hy
      · rw [hy, hp'] at hpy
        simp at hpy
      · exact h3 y hy hpy

/-- A list with an element having a property has a first such element. -/
theorem find_exists (p : Nat → Bool) (l : List Nat) (x : Nat) (hx : x ∈ l) (hp : p x = true) :
    ∃ z, l.find? p = some z := by
  cases h : l.find? p with
  | some z => exact ⟨z, rfl⟩
  | none =>
    rw [List.find?_eq_none] at h
    exact absurd hp (h x hx)

end Lemmas

section Claims

open TxReconciliationTracker

/-- C1: for all salts `a` and `b`, `ComputeSalt(a, b)` equals `ComputeSalt(b, a)`, the tagged
hash being an arbitrary fixed function of the ordered pair it is fed. -/
theorem ComputeSalt_symmetric (saltHash : Nat → Nat → Nat) (a b : Nat) :
    ComputeSalt saltHash a b = ComputeSalt saltHash b a := by
  unfold ComputeSalt
  rcases Nat.lt_trichotomy a b with h | h | h
  · have h1 : ¬ a > b := by omega
    simp [h1, h]
  · subst h
    rfl
  · have h1 : ¬ b > a := by omega
    simp [h1, h]

/-- C2: `ComputeShortID` does return 0. When the keyed hash of the input is
`0x3e87b403ffffffff` (the SipHash-2-4 value of key (0, 0) and id 597626088), whose low
32 bits are all ones, the sum `1 + 0xFFFFFFFF` is narrowed to 32 bits and the short id is 0. -/
theorem ComputeShortID_returns_zero (self : ReconciliationState) (wtxid : Nat) :
    self.ComputeShortID (fun _ _ _ => 0x3e87b403ffffffff) wtxid = 0 := by
  show ((1 + ((4505767881480339455 % 2 ^ 64) &&& 0xFFFFFFFF)) % 2 ^ 64) % 2 ^ 32 = 0
  decide

/-- C3: when a local salt is stored for the peer, `EnableReconciliationSupport` returns a
boolean, and it returns `true` if and only if the peer has no state, the version is 1 and
(requestor, responder) is (true, false) for an inbound and (false, true) for an outbound
peer. -/
theorem EnableReconciliationSupport_true_iff (saltHash : Nat → Nat → Nat)
    (self : TxReconciliationTracker) (peer_id : NodeId)
    (inbound recon_requestor recon_responder : Bool)
    (recon_version remote_salt flooders s : Nat)
    (hsalt : self.m_local_salts peer_id = some s) :
    (∃ b, (EnableReconciliationSupport saltHash self peer_id inbound recon_requestor
        recon_responder recon_version remote_salt flooders).1 = Except.ok b) ∧
    ((EnableReconciliationSupport saltHash self peer_id inbound recon_requestor
        recon_responder recon_version remote_salt flooders).1 = Except.ok true ↔
      (self.m_states peer_id = none ∧ recon_version = 1 ∧
        (recon_requestor, recon_responder) =
          (if inbound then (true, false) else (false, true)))) := by
  rcases enable_cases self peer_id inbound recon_requestor recon_responder recon_version
    with h | ⟨h1, h2, h3, h4⟩
  · rw [enable_reject saltHash self peer_id inbound recon_requestor recon_responder
      recon_version remote_salt flooders h]
    refine ⟨⟨false, rfl⟩, ?_⟩
    constructor
    · intro hc
      simp at hc
    · rintro ⟨h1, h2, h3⟩
      exfalso
      rcases h with h | h | h | h
      · simp [h1] at h
      · exact h h2
      · cases inbound <;> simp_all
      · cases inbound <;> simp_all
  · subst h2 h3 h4
    rw [enable_accept saltHash self peer_id recon_requestor remote_salt flooders s h1 hsalt]
    refine ⟨⟨true, rfl⟩, ?_⟩
    cases recon_requestor <;> simp [h1]

/-- C3, at a concrete input: an inbound peer with a stored salt and no state. -/
theorem EnableReconciliationSupport_true_iff_witness :
    (suggested true).m_local_salts 1 = some 5 ∧
    ((∃ b, (EnableReconciliationSupport exampleHash (suggested true) 1 true true false 1 9
        0).1 = Except.ok b) ∧
     ((EnableReconciliationSupport exampleHash (suggested true) 1 true true false 1 9
        0).1 = Except.ok true ↔
      ((suggested true).m_states 1 = none ∧ 1 = 1 ∧
        (true, false) = (if true then (true, false) else (false, true))))) :=
  ⟨rfl, EnableReconciliationSupport_true_iff exampleHash (suggested true) 1 true true false
    1 9 0 5 rfl⟩

/-- C4, as stated, fails: an inbound peer declaring responder=false (with requestor=true,
version 1, a stored salt and no state) is accepted. -/
theorem inbound_responder_false_accepted :
    (EnableReconciliationSupport exampleHash (suggested true) 1 true true false 1 9 0).1
      = Except.ok true := by
  rfl

/-- C4, amended: `EnableReconciliationSupport` returns `false`, whatever the other
arguments and the tracker, for an inbound peer declaring requestor=false, an inbound peer
declaring responder=true, an outbound peer declaring requestor=true, an outbound peer
declaring responder=false, a version other than 1, and a peer that already has a state. -/
theorem EnableReconciliationSupport_rejects (saltHash : Nat → Nat → Nat)
    (self : TxReconciliationTracker) (peer_id : NodeId)
    (inbound recon_requestor recon_responder : Bool)
    (recon_version remote_salt flooders : Nat)
    (h : (inbound = true ∧ recon_requestor = false) ∨
      (inbound = true ∧ recon_responder = true) ∨
      (inbound = false ∧ recon_requestor = true) ∨
      (inbound = false ∧ recon_responder = false) ∨
      recon_version ≠ 1 ∨
      (∃ st, self.GetPeerState peer_id = some st)) :
    (EnableReconciliationSupport saltHash self peer_id inbound recon_requestor
      recon_responder recon_version remote_salt flooders).1 = Except.ok false := by
  rw [enable_reject]
  rcases h with ⟨h1, h2⟩ | ⟨h1, h2⟩ | ⟨h1, h2⟩ | ⟨h1, h2⟩ | h | ⟨st, h⟩
  · subst h1 h2; simp
  · subst h1 h2; simp
  · subst h1 h2; simp
  · subst h1 h2; simp
  · exact Or.inr (Or.inl h)
  · left
    simp only [GetPeerState] at h
    simp [h]

/-- C4, amended, at a concrete input: the second call for a peer that was just accepted. -/
theorem EnableReconciliationSupport_rejects_witness :
    (EnableReconciliationSupport exampleHash
      (EnableReconciliationSupport exampleHash (suggested false) 1 false false true 1 9 0).2
      1 false false true 1 9 0).1 = Except.ok false :=
  EnableReconciliationSupport_rejects exampleHash
    (EnableReconciliationSupport exampleHash (suggested false) 1 false false true 1 9 0).2
    1 false false true 1 9 0
    (Or.inr (Or.inr (Or.inr (Or.inr (Or.inr ⟨_, rfl⟩)))))

/-- C5: whenever `EnableReconciliationSupport` returns `false`, the local salts, the states
and the queue of the tracker are exactly as before the call. -/
theorem EnableReconciliationSupport_false_no_mutation (saltHash : Nat → Nat → Nat)
    (self : TxReconciliationTracker) (peer_id : NodeId)
    (inbound recon_requestor recon_responder : Bool)
    (recon_version remote_salt flooders : Nat)
    (h : (EnableReconciliationSupport saltHash self peer_id inbound recon_requestor
      recon_responder recon_version remote_salt flooders).1 = Except.ok false) :
    (EnableReconciliationSupport saltHash self peer_id inbound recon_requestor
      recon_responder recon_version remote_salt flooders).2.m_local_salts = self.m_local_salts ∧
    (EnableReconciliationSupport saltHash self peer_id inbound recon_requestor
      recon_responder recon_version remote_salt flooders).2.m_states = self.m_states ∧
    (EnableReconciliationSupport saltHash self peer_id inbound recon_requestor
      recon_responder recon_version remote_salt flooders).2.m_queue = self.m_queue := by
  rcases enable_cases self peer_id inbound recon_requestor recon_responder recon_version
    with hr | ⟨h1, h2, h3, h4⟩
  · rw [enable_reject saltHash self peer_id inbound recon_requestor recon_responder
      recon_version remote_salt flooders hr]
    exact ⟨rfl, rfl, rfl⟩
  · subst h2 h3 h4
    exfalso
    cases hs : self.m_local_salts peer_id with
    | none =>
      rw [enable_throw saltHash self peer_id recon_requestor remote_salt flooders h1 hs] at h
      simp at h
    | some s =>
      rw [enable_accept saltHash self peer_id recon_requestor remote_salt flooders s h1 hs] at h
      simp at h

/-- C5, at a concrete input: version 2 offered by an outbound peer with a pending salt. -/
theorem EnableReconciliationSupport_false_no_mutation_witness :
    (EnableReconciliationSupport exampleHash (suggested false) 1 false false true 2 9
      0).2.m_local_salts = (suggested false).m_local_salts ∧
    (EnableReconciliationSupport exampleHash (suggested false) 1 false false true 2 9
      0).2.m_states = (suggested false).m_states ∧
    (EnableReconciliationSupport exampleHash (suggested false) 1 false false true 2 9
      0).2.m_queue = (suggested false).m_queue :=
  EnableReconciliationSupport_false_no_mutation exampleHash (suggested false) 1 false false
    true 2 9 0 rfl

/-- C6, as stated, fails: after `SuggestReconciling(1, inbound=false)` returned
(true, false, 1, 5), the call `EnableReconciliationSupport(1, false, true, false, 1, 9, 0)`
returns `false` and creates no state. -/
theorem outbound_scenario_rejected :
    (TxReconciliationTracker.empty.SuggestReconciling 1 false 5).1 = (true, false, 1, 5) ∧
    (EnableReconciliationSupport exampleHash
      (TxReconciliationTracker.empty.SuggestReconciling 1 false 5).2
      1 false true false 1 9 0).1 = Except.ok false ∧
    (EnableReconciliationSupport exampleHash
      (TxReconciliationTracker.empty.SuggestReconciling 1 false 5).2
      1 false true false 1 9 0).2.GetPeerState 1 = none := by
  refine ⟨rfl, rfl, rfl⟩

/-- C6, amended: for an outbound peer P with no state and no pending salt,
`SuggestReconciling(P, inbound=false)` returns (true, false, 1, salt_L); then
`EnableReconciliationSupport(P, false, false, true, 1, salt_R, budget)` returns `true` and
the state created for P has (k0, k1) equal to the first two 64-bit words of
`ComputeSalt(salt_L, salt_R)`. -/
theorem outbound_scenario (saltHash : Nat → Nat → Nat) (self : TxReconciliationTracker)
    (P : NodeId) (salt_L salt_R budget : Nat)
    (hstate : self.m_states P = none) (hsalt : self.m_local_salts P = none) :
    (self.SuggestReconciling P false salt_L).1 = (true, false, 1, salt_L) ∧
    (EnableReconciliationSupport saltHash (self.SuggestReconciling P false salt_L).2
      P false false true 1 salt_R budget).1 = Except.ok true ∧
    ∃ st, (EnableReconciliationSupport saltHash (self.SuggestReconciling P false salt_L).2
        P false false true 1 salt_R budget).2.GetPeerState P = some st ∧
      st.m_k0 = GetUint64 (ComputeSalt saltHash salt_L salt_R) 0 ∧
      st.m_k1 = GetUint64 (ComputeSalt saltHash salt_L salt_R) 1 := by
  have h1 : (self.SuggestReconciling P false salt_L).2.m_states P = none := hstate
  have h2 : (self.SuggestReconciling P false salt_L).2.m_local_salts P = some salt_L := by
    simp [SuggestReconciling, hsalt]
  have h3 := enable_accept saltHash (self.SuggestReconciling P false salt_L).2 P false
    salt_R budget salt_L h1 h2
  simp only [Bool.not_false] at h3
  rw [h3]
  refine ⟨rfl, rfl, ?_⟩
  simp [GetPeerState, accepted, ReconciliationState.construct]

/-- C6, amended, at a concrete input: peer 1 on a fresh tracker. -/
theorem outbound_scenario_witness :
    (TxReconciliationTracker.empty.SuggestReconciling 1 false 5).1 = (true, false, 1, 5) ∧
    (EnableReconciliationSupport exampleHash
      (TxReconciliationTracker.empty.SuggestReconciling 1 false 5).2
      1 false false true 1 9 0).1 = Except.ok true ∧
    ∃ st, (EnableReconciliationSupport exampleHash
        (TxReconciliationTracker.empty.SuggestReconciling 1 false 5).2
        1 false false true 1 9 0).2.GetPeerState 1 = some st ∧
      st.m_k0 = GetUint64 (ComputeSalt exampleHash 5 9) 0 ∧
      st.m_k1 = GetUint64 (ComputeSalt exampleHash 5 9) 1 :=
  outbound_scenario exampleHash TxReconciliationTracker.empty 1 5 9 0 rfl rfl

/-- C7: when `EnableReconciliationSupport` succeeds for a peer, a local salt `s` was stored
for it and `GetPeerState` returns a state whose `IsRequestor`/`IsResponder` are the
requestor/responder arguments, whose k0 and k1 are the first and second 64-bit words of
`ComputeSalt(s, remote_salt)`, with an empty local set, both phases `RECON_NONE` and the
default local q; the states of all other peers are unchanged. -/
theorem EnableReconciliationSupport_creates_state (saltHash : Nat → Nat → Nat)
    (self : TxReconciliationTracker) (peer_id : NodeId)
    (inbound recon_requestor recon_responder : Bool)
    (recon_version remote_salt flooders : Nat)
    (h : (EnableReconciliationSupport saltHash self peer_id inbound recon_requestor
      recon_responder recon_version remote_salt flooders).1 = Except.ok true) :
    ∃ s st, self.m_local_salts peer_id = some s ∧
      (EnableReconciliationSupport saltHash self peer_id inbound recon_requestor
        recon_responder recon_version remote_salt flooders).2.GetPeerState peer_id = some st ∧
      st.IsRequestor = recon_requestor ∧ st.IsResponder = recon_responder ∧
      st.m_k0 = GetUint64 (ComputeSalt saltHash s remote_salt) 0 ∧
      st.m_k1 = GetUint64 (ComputeSalt saltHash s remote_salt) 1 ∧
      st.GetLocalSet = [] ∧
      st.GetIncomingPhase = ReconciliationPhase.RECON_NONE ∧
      st.GetOutgoingPhase = ReconciliationPhase.RECON_NONE ∧
      st.m_local_q = DEFAULT_RECON_Q ∧
      ∀ other, other ≠ peer_id →
        (EnableReconciliationSupport saltHash self peer_id inbound recon_requestor
          recon_responder recon_version remote_salt flooders).2.GetPeerState other
          = self.GetPeerState other := by
  obtain ⟨s, hs, _, _, h3, h4, he⟩ := enable_true_inv saltHash self peer_id inbound
    recon_requestor recon_responder recon_version remote_salt flooders h
  rw [he]
  refine ⟨s, ReconciliationState.construct inbound (!inbound) (!inbound)
    (GetUint64 (ComputeSalt saltHash s remote_salt) 0)
    (GetUint64 (ComputeSalt saltHash s remote_salt) 1),
    hs, ?_, ?_, ?_, rfl, rfl, rfl, rfl, rfl, rfl, ?_⟩
  · simp only [GetPeerState, accepted, if_true]
  · simp [ReconciliationState.IsRequestor, ReconciliationState.construct, h3]
  · simp [ReconciliationState.IsResponder, ReconciliationState.construct, h4]
  · intro other hne
    simp [GetPeerState, accepted, hne]

/-- C7, at a concrete input: an inbound peer accepted after `SuggestReconciling`. -/
theorem EnableReconciliationSupport_creates_state_witness :
    ∃ s st, (suggested true).m_local_salts 1 = some s ∧
      (EnableReconciliationSupport exampleHash (suggested true) 1 true true false 1 9
        0).2.GetPeerState 1 = some st ∧
      st.IsRequestor = true ∧ st.IsResponder = false ∧
      st.m_k0 = GetUint64 (ComputeSalt exampleHash s 9) 0 ∧
      st.m_k1 = GetUint64 (ComputeSalt exampleHash s 9) 1 ∧
      st.GetLocalSet = [] ∧
      st.GetIncomingPhase = ReconciliationPhase.RECON_NONE ∧
      st.GetOutgoingPhase = ReconciliationPhase.RECON_NONE ∧
      st.m_local_q = DEFAULT_RECON_Q ∧
      ∀ other, other ≠ 1 →
        (EnableReconciliationSupport exampleHash (suggested true) 1 true true false 1 9
          0).2.GetPeerState other = (suggested true).GetPeerState other :=
  EnableReconciliationSupport_creates_state exampleHash (suggested true) 1 true true false
    1 9 0 rfl

/-- C8: for every tracker, peer and random draw, `SuggestReconciling(peer, inbound)` returns
(is_requestor, is_responder) = (false, true) when inbound and (true, false) when outbound,
with version exactly 1. -/
theorem SuggestReconciling_roles (self : TxReconciliationTracker) (peer_id : NodeId)
    (inbound : Bool) (rand : Nat) :
    ((self.SuggestReconciling peer_id inbound rand).1.1,
      (self.SuggestReconciling peer_id inbound rand).1.2.1)
      = (if inbound then (false, true) else (true, false)) ∧
    (self.SuggestReconciling peer_id inbound rand).1.2.2.1 = 1 := by
  cases inbound <;> simp [SuggestReconciling]

/-- C9: the stored salt can differ from the returned one. With salt 5 pending for peer 1,
`SuggestReconciling(1, false)` drawing 7 returns salt 7 while `m_local_salts` keeps 5, and
the state then created by `EnableReconciliationSupport` is keyed by the salt of 5, not of 7. -/
theorem SuggestReconciling_keeps_pending_salt :
    ((suggested false).SuggestReconciling 1 false 7).1.2.2.2 = 7 ∧
    ((suggested false).SuggestReconciling 1 false 7).2.m_local_salts 1 = some 5 ∧
    ((EnableReconciliationSupport exampleHash ((suggested false).SuggestReconciling 1 false 7).2
      1 false false true 1 9 0).2.GetPeerState 1).map ReconciliationState.m_k0
      = some (GetUint64 (ComputeSalt exampleHash 5 9) 0) ∧
    GetUint64 (ComputeSalt exampleHash 5 9) 0 ≠ GetUint64 (ComputeSalt exampleHash 7 9) 0 := by
  refine ⟨rfl, rfl, rfl, by decide⟩

/-- C10, as stated, fails: after `EnableReconciliationSupport` succeeded for peer 1, peer 1
is still a key of `m_local_salts`. -/
theorem local_salt_not_consumed :
    (EnableReconciliationSupport exampleHash (suggested false) 1 false false true 1 9 0).1
      = Except.ok true ∧
    (EnableReconciliationSupport exampleHash (suggested false) 1 false false true 1 9
      0).2.m_local_salts 1 = some 5 := by
  refine ⟨rfl, rfl⟩

/-- C10, amended: a successful `EnableReconciliationSupport(peer, ...)` leaves
`m_local_salts` unchanged; the local salt of the peer is still stored afterwards. -/
theorem EnableReconciliationSupport_keeps_local_salts (saltHash : Nat → Nat → Nat)
    (self : TxReconciliationTracker) (peer_id : NodeId)
    (inbound recon_requestor recon_responder : Bool)
    (recon_version remote_salt flooders : Nat)
    (h : (EnableReconciliationSupport saltHash self peer_id inbound recon_requestor
      recon_responder recon_version remote_salt flooders).1 = Except.ok true) :
    (EnableReconciliationSupport saltHash self peer_id inbound recon_requestor
      recon_responder recon_version remote_salt flooders).2.m_local_salts
      = self.m_local_salts ∧
    ∃ s, (EnableReconciliationSupport saltHash self peer_id inbound recon_requestor
      recon_responder recon_version remote_salt flooders).2.m_local_salts peer_id = some s := by
  obtain ⟨s, hs, _, _, _, _, he⟩ := enable_true_inv saltHash self peer_id inbound
    recon_requestor recon_responder recon_version remote_salt flooders h
  rw [he]
  exact ⟨rfl, s, hs⟩

/-- C10, amended, at a concrete input: an inbound peer accepted after `SuggestReconciling`. -/
theorem EnableReconciliationSupport_keeps_local_salts_witness :
    (EnableReconciliationSupport exampleHash (suggested true) 1 true true false 1 9
      0).2.m_local_salts = (suggested true).m_local_salts ∧
    ∃ s, (EnableReconciliationSupport exampleHash (suggested true) 1 true true false 1 9
      0).2.m_local_salts 1 = some s :=
  EnableReconciliationSupport_keeps_local_salts exampleHash (suggested true) 1 true true
    false 1 9 0 rfl

/-- C11: in every tracker reached from the empty tracker by calls of `SuggestReconciling`,
`EnableReconciliationSupport`, `StoreTxsToAnnounce` and `RemovePeer`, no peer state has
`IsRequestor` and `IsResponder` both true, and none has both false. -/
theorem roles_exclusive_reachable (saltHash : Nat → Nat → Nat) (ops : List TrackerOp)
    (peer_id : NodeId) (st : ReconciliationState)
    (h : (runOps saltHash ops).GetPeerState peer_id = some st) :
    ¬ (st.IsRequestor = true ∧ st.IsResponder = true) ∧
    ¬ (st.IsRequestor = false ∧ st.IsResponder = false) := by
  have hinv := foldl_roles saltHash ops TxReconciliationTracker.empty
    (by intro p st hp; simp [TxReconciliationTracker.empty] at hp) peer_id st h
  simp only [ReconciliationState.IsRequestor, ReconciliationState.IsResponder]
  cases hr : st.m_requestor <;> cases hs : st.m_responder <;> simp_all

/-- C11, at a concrete input: an outbound peer negotiated, given a transaction, and another
peer removed. -/
theorem roles_exclusive_reachable_witness :
    (runOps exampleHash
      [TrackerOp.suggest 1 false 5, TrackerOp.enable 1 false false true 1 9 0,
        TrackerOp.store 1 [3], TrackerOp.remove 2]).GetPeerState 1
      = some ((ReconciliationState.construct false true true 5 9).AddToReconSet [3]) ∧
    (¬ (((ReconciliationState.construct false true true 5 9).AddToReconSet [3]).IsRequestor
          = true ∧
        ((ReconciliationState.construct false true true 5 9).AddToReconSet [3]).IsResponder
          = true) ∧
     ¬ (((ReconciliationState.construct false true true 5 9).AddToReconSet [3]).IsRequestor
          = false ∧
        ((ReconciliationState.construct false true true 5 9).AddToReconSet [3]).IsResponder
          = false)) :=
  ⟨rfl, roles_exclusive_reachable exampleHash
    [TrackerOp.suggest 1 false 5, TrackerOp.enable 1 false false true 1 9 0,
      TrackerOp.store 1 [3], TrackerOp.remove 2] 1 _ rfl⟩

/-- C12: after `RemovePeer(peer)` the peer is absent from the local salts, from the states
and from the queue; `RemovePeer` of a peer known to none of the three leaves the tracker
unchanged; and `RemovePeer(peer)` twice equals `RemovePeer(peer)` once. -/
theorem RemovePeer_absent_idempotent (self : TxReconciliationTracker) (peer_id : NodeId) :
    (self.RemovePeer peer_id).m_local_salts peer_id = none ∧
    (self.RemovePeer peer_id).GetPeerState peer_id = none ∧
    peer_id ∉ (self.RemovePeer peer_id).m_queue ∧
    (self.m_local_salts peer_id = none → self.m_states peer_id = none →
      peer_id ∉ self.m_queue → self.RemovePeer peer_id = self) ∧
    (self.RemovePeer peer_id).RemovePeer peer_id = self.RemovePeer peer_id := by
  have hnoop : ∀ t : TxReconciliationTracker, t.m_local_salts peer_id = none →
      t.m_states peer_id = none → peer_id ∉ t.m_queue → t.RemovePeer peer_id = t := by
    intro t h1 h2 h3
    cases t with
    | mk salts states queue req resp =>
      simp only [RemovePeer, TxReconciliationTracker.mk.injEq, and_true]
      simp only at h1 h2 h3
      refine ⟨?_, ?_, ?_⟩
      · funext p
        by_cases hp : p = peer_id
        · rw [if_pos hp, hp, h1]
        · rw [if_neg hp]
      · funext p
        by_cases hp : p = peer_id
        · rw [if_pos hp, hp, h2]
        · rw [if_neg hp]
      · rw [List.filter_eq_self]
        intro a ha
        have : a ≠ peer_id := fun e => h3 (e ▸ ha)
        simpa using this
  have h1 : (self.RemovePeer peer_id).m_local_salts peer_id = none := by simp [RemovePeer]
  have h2 : (self.RemovePeer peer_id).m_states peer_id = none := by simp [RemovePeer]
  have h3 : peer_id ∉ (self.RemovePeer peer_id).m_queue := by simp [RemovePeer]
  exact ⟨h1, h2, h3, hnoop self, hnoop _ h1 h2 h3⟩

/-- C12, at a concrete input: removing the unknown peer 2 from a tracker that knows peer 1. -/
theorem RemovePeer_absent_idempotent_witness :
    (suggested false).RemovePeer 2 = suggested false :=
  (RemovePeer_absent_idempotent (suggested false) 2).2.2.2.1 rfl rfl (by simp [suggested,
    SuggestReconciling, TxReconciliationTracker.empty])

/-- C13: `StoreTxsToAnnounce(peer, ids)` aborts on its assertion if and only if the peer has
no state; otherwise it returns, the local set of the peer becomes the union of its previous
local set and `ids`, and every other field of that state, the states of the other peers, the
local salts and the queue are unchanged. -/
theorem StoreTxsToAnnounce_union (self : TxReconciliationTracker) (peer_id : NodeId)
    (ids : List Nat) :
    ((self.StoreTxsToAnnounce peer_id ids).1 = Except.error Fault.assertion ↔
      self.GetPeerState peer_id = none) ∧
    (∀ st, self.GetPeerState peer_id = some st →
      (self.StoreTxsToAnnounce peer_id ids).1 = Except.ok () ∧
      (∃ st', (self.StoreTxsToAnnounce peer_id ids).2.GetPeerState peer_id = some st' ∧
        (∀ x, x ∈ st'.GetLocalSet ↔ x ∈ st.GetLocalSet ∨ x ∈ ids) ∧
        st' = { st with m_local_set := st'.m_local_set }) ∧
      (∀ other, other ≠ peer_id →
        (self.StoreTxsToAnnounce peer_id ids).2.GetPeerState other
          = self.GetPeerState other) ∧
      (self.StoreTxsToAnnounce peer_id ids).2.m_local_salts = self.m_local_salts ∧
      (self.StoreTxsToAnnounce peer_id ids).2.m_queue = self.m_queue) := by
  simp only [GetPeerState]
  cases hs : self.m_states peer_id with
  | none => simp [StoreTxsToAnnounce, hs]
  | some old =>
    refine ⟨by simp [StoreTxsToAnnounce, hs], ?_⟩
    intro st hst
    cases hst
    have he : self.StoreTxsToAnnounce peer_id ids = (Except.ok (),
        { self with
          m_states := fun p =>
            if p = peer_id then some (old.AddToReconSet ids) else self.m_states p }) := by
      simp [StoreTxsToAnnounce, hs]
    rw [he]
    refine ⟨rfl, ⟨old.AddToReconSet ids, by simp, ?_, rfl⟩, ?_, rfl, rfl⟩
    · intro x
      exact mem_foldl_setInsert ids old.m_local_set x
    · intro other hne
      simp [hne]

/-- C13, at a concrete input: ids stored for a negotiated outbound peer. -/
theorem StoreTxsToAnnounce_union_witness :
    ∃ st', ((EnableReconciliationSupport exampleHash (suggested false) 1 false false true 1 9
        0).2.StoreTxsToAnnounce 1 [7, 3, 7]).2.GetPeerState 1 = some st' ∧
      (∀ x, x ∈ st'.GetLocalSet ↔
        x ∈ (ReconciliationState.construct false true true 5 9).GetLocalSet ∨ x ∈ [7, 3, 7]) ∧
      st' = { ReconciliationState.construct false true true 5 9 with
        m_local_set := st'.m_local_set } :=
  ((StoreTxsToAnnounce_union
    (EnableReconciliationSupport exampleHash (suggested false) 1 false false true 1 9 0).2
    1 [7, 3, 7]).2 (ReconciliationState.construct false true true 5 9) rfl).2.1

/-- C14: on a state whose local set is a set (ascending, as `std::set` keeps it),
`AddToReconSet(ids)` leaves in `GetLocalSet` exactly the ids present before and the ids of
the list, each once; a second `AddToReconSet(ids)` changes nothing; and two calls commute. -/
theorem AddToReconSet_idempotent_union (self : ReconciliationState) (ids more : List Nat)
    (hset : self.m_local_set.Sorted (fun a b => a < b)) :
    (∀ x, x ∈ (self.AddToReconSet ids).GetLocalSet ↔ x ∈ self.GetLocalSet ∨ x ∈ ids) ∧
    (self.AddToReconSet ids).GetLocalSet.Nodup ∧
    (self.AddToReconSet ids).m_local_set.Sorted (fun a b => a < b) ∧
    (self.AddToReconSet ids).AddToReconSet ids = self.AddToReconSet ids ∧
    (self.AddToReconSet ids).AddToReconSet more = (self.AddToReconSet more).AddToReconSet ids := by
  have hsorted : ∀ l : List Nat, (self.AddToReconSet l).m_local_set.Sorted (fun a b => a < b) :=
    fun l => sorted_foldl_setInsert l self.m_local_set hset
  refine ⟨fun x => mem_foldl_setInsert ids self.m_local_set x, (hsorted ids).nodup, hsorted ids,
    ?_, ?_⟩
  · have h := foldl_setInsert_of_subset ids (self.AddToReconSet ids).m_local_set (hsorted ids)
      (fun x hx => (mem_foldl_setInsert ids self.m_local_set x).mpr (Or.inr hx))
    simp only [ReconciliationState.AddToReconSet] at h ⊢
    rw [h]
  · have h : more.foldl (fun set wtxid => setInsert wtxid set)
          (ids.foldl (fun set wtxid => setInsert wtxid set) self.m_local_set)
        = ids.foldl (fun set wtxid => setInsert wtxid set)
          (more.foldl (fun set wtxid => setInsert wtxid set) self.m_local_set) := by
      apply sorted_ext
      · exact sorted_foldl_setInsert more _ (hsorted ids)
      · exact sorted_foldl_setInsert ids _ (hsorted more)
      · intro x
        simp only [mem_foldl_setInsert]
        tauto
    simp only [ReconciliationState.AddToReconSet]
    rw [h]

/-- C14, at a concrete input: the local set {2, 4}, the list [7, 3, 7] and the list [3, 1]. -/
theorem AddToReconSet_idempotent_union_witness :
    ((exampleState [2, 4] 0 0).AddToReconSet [7, 3, 7]).GetLocalSet = [2, 3, 4, 7] ∧
    ((exampleState [2, 4] 0 0).AddToReconSet [7, 3, 7]).AddToReconSet [7, 3, 7]
      = (exampleState [2, 4] 0 0).AddToReconSet [7, 3, 7] ∧
    ((exampleState [2, 4] 0 0).AddToReconSet [7, 3, 7]).AddToReconSet [3, 1]
      = ((exampleState [2, 4] 0 0).AddToReconSet [3, 1]).AddToReconSet [7, 3, 7] :=
  ⟨rfl,
   (AddToReconSet_idempotent_union (exampleState [2, 4] 0 0) [7, 3, 7] [3, 1]
     (by simp [exampleState])).2.2.2.1,
   (AddToReconSet_idempotent_union (exampleState [2, 4] 0 0) [7, 3, 7] [3, 1]
     (by simp [exampleState])).2.2.2.2⟩

/-- C15, as stated, fails: for an empty local set, `remote_set_size` 65535 and `remote_q` 0
the formula gives 65536, while the `uint16_t` estimate handed to the library is 0; and for
a local set of 65536 ids, `remote_set_size` 0 and `remote_q` 0 the formula gives 65537,
while the estimate handed to the library is 1. The product is the double 0 in both cases,
which every rounding that leaves doubles unchanged returns. Read with the exact product
in place of the double product, the formula fails within 16 bits as well: for the double
0.03 and both sizes 100 the exact product is below 3 and the formula gives 3, while the
double product is 3 under rounding to a nearest double and the estimate is 4. -/
theorem estimated_diff_wraps :
    IsDouble 0 ∧
    (∀ round_double : ℚ → ℚ, (∀ x : ℚ, IsDouble x → round_double x = x) →
      spec_estimated_diff round_double 0 65535 0 = 65536 ∧
      ReconciliationState.estimated_diff round_double 0 65535 0 = 0 ∧
      (exampleState [] 65535 0).EstimateSketchCapacity round_double exampleCapacity = some 0 ∧
      spec_estimated_diff round_double 65536 0 0 = 65537 ∧
      ReconciliationState.estimated_diff round_double 65536 0 0 = 1) ∧
    (∀ round_double : ℚ → ℚ, IsDouble (round_double (double_0_03 * 100)) →
      (∀ d : ℚ, IsDouble d →
        |round_double (double_0_03 * 100) - double_0_03 * 100| ≤ |d - double_0_03 * 100|) →
      1 + Int.toNat ⌊double_0_03 * ((min 100 100 : Nat) : ℚ)⌋
        + Int.natAbs ((100 : Int) - (100 : Int)) = 3 ∧
      ReconciliationState.estimated_diff round_double 100 100 double_0_03 = 4) := by
  refine ⟨by simpa using isDouble_natCast 0 (by norm_num), ?_, ?_⟩
  · intro round_double hexact
    have h1 : ReconciliationState.estimated_diff round_double 0 65535 0 = 0 := by
      rw [estimated_diff_zero_q round_double hexact]
      decide
    refine ⟨?_, h1, ?_, ?_, ?_⟩
    · rw [spec_estimated_diff_zero_q round_double hexact]
      decide
    · rw [estimate_exampleState, List.length_nil, h1]
      rfl
    · rw [spec_estimated_diff_zero_q round_double hexact]
      decide
    · rw [estimated_diff_zero_q round_double hexact]
      decide
  · intro round_double hdouble hnearest
    have h3 := round_product_0_03 round_double hdouble hnearest
    constructor
    · have hfloor : ⌊double_0_03 * ((min 100 100 : Nat) : ℚ)⌋ = 2 := by
        rw [Int.floor_eq_iff, double_0_03]
        norm_num
      rw [hfloor]
      decide
    · have hmin : ((min (100 % 2 ^ 16) 100 : Nat) : ℚ) = 100 := by norm_num
      have hfloor : ⌊(3 : ℚ)⌋ = 3 := by
        rw [Int.floor_eq_iff]
        norm_num
      simp only [ReconciliationState.estimated_diff, hmin, h3, hfloor]
      decide

/-- C15, amended: for a local set of fewer than 65536 ids, a `remote_set_size` (u16) and a
`remote_q` in [0, 2] such that
1 + floor(remote_q * min(local size, remote_set_size)) + |local size - remote_set_size|
is below 65536, that value is the difference estimate `EstimateSketchCapacity` hands to the
capacity normalisation with field size 32 and false-positive exponent 16. The product
`remote_q * min(..)` is the double product of the source, whatever its rounding (the last
part spells the formula `spec_estimated_diff` out). -/
theorem EstimateSketchCapacity_estimate (round_double : ℚ → ℚ)
    (capacity_fn : Nat → Nat → Nat → Nat)
    (self : ReconciliationState) (remote_set_size : Nat) (remote_q : ℚ)
    (hsize : self.m_remote_set_size = some remote_set_size)
    (hq : self.m_remote_q = some remote_q)
    (_hr : remote_set_size < 2 ^ 16) (_hq0 : 0 ≤ remote_q) (_hq2 : remote_q ≤ 2)
    (hl : self.m_local_set.length < 2 ^ 16)
    (h : spec_estimated_diff round_double self.m_local_set.length remote_set_size remote_q
      < 2 ^ 16) :
    self.EstimateSketchCapacity round_double capacity_fn
      = some (capacity_fn 32
          (spec_estimated_diff round_double self.m_local_set.length remote_set_size remote_q)
          16 % 2 ^ 16) ∧
    ReconciliationState.estimated_diff round_double self.m_local_set.length remote_set_size
        remote_q
      = spec_estimated_diff round_double self.m_local_set.length remote_set_size remote_q ∧
    spec_estimated_diff round_double self.m_local_set.length remote_set_size remote_q
      = 1 + Int.toNat
          ⌊round_double (remote_q * ((min self.m_local_set.length remote_set_size : Nat) : ℚ))⌋
        + Int.natAbs ((self.m_local_set.length : Int) - (remote_set_size : Int)) := by
  have he := estimated_diff_eq_spec round_double self.m_local_set.length remote_set_size
    remote_q hl h
  refine ⟨?_, he, rfl⟩
  simp only [ReconciliationState.EstimateSketchCapacity, hsize, hq, he, RECON_FIELD_SIZE,
    RECON_FALSE_POSITIVE_COEF]

/-- C15, amended, at the input of the specification: local size 3, `remote_set_size` 2 and
`remote_q` 0.1 give the estimate 2 (twice the double 0.1 is a double, and its floor is 0). -/
theorem EstimateSketchCapacity_estimate_witness :
    (exampleState [1, 2, 3] 2 double_0_1).EstimateSketchCapacity exampleRound exampleCapacity
      = some 2 ∧
    ReconciliationState.estimated_diff exampleRound 3 2 double_0_1 = 2 ∧
    (∀ round_double : ℚ → ℚ, (∀ x : ℚ, IsDouble x → round_double x = x) →
      ReconciliationState.estimated_diff round_double 3 2 double_0_1 = 2) := by
  have hall : ∀ round_double : ℚ → ℚ, (∀ x : ℚ, IsDouble x → round_double x = x) →
      ReconciliationState.estimated_diff round_double 3 2 double_0_1 = 2 := by
    intro round_double hexact
    have hex := spec_estimated_diff_example round_double hexact
    rw [estimated_diff_eq_spec round_double 3 2 double_0_1 (by norm_num)
      (by rw [hex]; norm_num), hex]
  have hex : spec_estimated_diff exampleRound 3 2 double_0_1 = 2 :=
    spec_estimated_diff_example exampleRound (fun _ _ => rfl)
  have hlen : (exampleState [1, 2, 3] 2 double_0_1).m_local_set.length = 3 := rfl
  have h := EstimateSketchCapacity_estimate exampleRound exampleCapacity
    (exampleState [1, 2, 3] 2 double_0_1) 2 double_0_1 rfl rfl (by norm_num)
    (by rw [double_0_1]; norm_num) (by rw [double_0_1]; norm_num)
    (by simp [exampleState])
    (by
      rw [hlen, hex]
      norm_num)
  rw [hlen, hex] at h
  exact ⟨h.1, h.2.1, hall⟩

/-- C16, as stated, fails: with the same coefficient 0 and the same smaller size 0, the
state with size difference 65535 gets estimate 0 while the state with size difference 65534
gets 65535, under a monotone (identity) normalisation. The product is the double 0, which
every rounding that leaves doubles unchanged returns. -/
theorem estimate_not_monotone :
    (∀ a b : Nat, a ≤ b → exampleCapacity 32 a 16 ≤ exampleCapacity 32 b 16) ∧
    (∀ round_double : ℚ → ℚ, (∀ x : ℚ, IsDouble x → round_double x = x) →
      (exampleState [] 65534 0).EstimateSketchCapacity round_double exampleCapacity
        = some 65535 ∧
      (exampleState [] 65535 0).EstimateSketchCapacity round_double exampleCapacity
        = some 0) := by
  refine ⟨fun a b h => h, ?_⟩
  intro round_double hexact
  constructor
  · rw [estimate_exampleState, List.length_nil, estimated_diff_zero_q round_double hexact]
    rfl
  · rw [estimate_exampleState, List.length_nil, estimated_diff_zero_q round_double hexact]
    rfl

/-- C16, amended: for two states with the same `remote_q` and the same
min(local size, remote_set_size), all sizes below 65536, the state with the larger absolute
size difference gets an estimate at least as large, provided the normalisation is monotone
and the larger state's 1 + floor(remote_q * min) + |difference| and its normalised capacity
are below 65536. The product `remote_q * min` is the double product of the source, whatever
its rounding. -/
theorem EstimateSketchCapacity_monotone (round_double : ℚ → ℚ)
    (capacity_fn : Nat → Nat → Nat → Nat)
    (st₁ st₂ : ReconciliationState) (r₁ r₂ : Nat) (remote_q : ℚ)
    (hr₁ : st₁.m_remote_set_size = some r₁) (hr₂ : st₂.m_remote_set_size = some r₂)
    (hq₁ : st₁.m_remote_q = some remote_q) (hq₂ : st₂.m_remote_q = some remote_q)
    (hmono : ∀ a b : Nat, a ≤ b → capacity_fn 32 a 16 ≤ capacity_fn 32 b 16)
    (hl₁ : st₁.m_local_set.length < 2 ^ 16) (hl₂ : st₂.m_local_set.length < 2 ^ 16)
    (hmin : min st₁.m_local_set.length r₁ = min st₂.m_local_set.length r₂)
    (hdiff : Int.natAbs ((st₁.m_local_set.length : Int) - (r₁ : Int))
      ≤ Int.natAbs ((st₂.m_local_set.length : Int) - (r₂ : Int)))
    (hfit : spec_estimated_diff round_double st₂.m_local_set.length r₂ remote_q < 2 ^ 16)
    (hcap : capacity_fn 32
        (spec_estimated_diff round_double st₂.m_local_set.length r₂ remote_q) 16 < 2 ^ 16) :
    ∃ c₁ c₂, st₁.EstimateSketchCapacity round_double capacity_fn = some c₁ ∧
      st₂.EstimateSketchCapacity round_double capacity_fn = some c₂ ∧ c₁ ≤ c₂ := by
  have hle := spec_estimated_diff_mono round_double st₁.m_local_set.length r₁
    st₂.m_local_set.length r₂ remote_q hmin hdiff
  have he₁ := estimated_diff_eq_spec round_double st₁.m_local_set.length r₁ remote_q hl₁
    (lt_of_le_of_lt hle hfit)
  have he₂ := estimated_diff_eq_spec round_double st₂.m_local_set.length r₂ remote_q hl₂ hfit
  have hc := hmono _ _ hle
  refine ⟨capacity_fn 32
      (spec_estimated_diff round_double st₁.m_local_set.length r₁ remote_q) 16 % 2 ^ 16,
    capacity_fn 32
      (spec_estimated_diff round_double st₂.m_local_set.length r₂ remote_q) 16 % 2 ^ 16,
    ?_, ?_, ?_⟩
  · simp only [ReconciliationState.EstimateSketchCapacity, hr₁, hq₁, he₁, RECON_FIELD_SIZE,
      RECON_FALSE_POSITIVE_COEF]
  · simp only [ReconciliationState.EstimateSketchCapacity, hr₂, hq₂, he₂, RECON_FIELD_SIZE,
      RECON_FALSE_POSITIVE_COEF]
  · rw [Nat.mod_eq_of_lt hcap, Nat.mod_eq_of_lt (lt_of_le_of_lt hc hcap)]
    exact hc

/-- C16, amended, at a concrete input: empty local sets, coefficient 0, remote sizes 2 and 3. -/
theorem EstimateSketchCapacity_monotone_witness :
    ∃ c₁ c₂, (exampleState [] 2 0).EstimateSketchCapacity exampleRound exampleCapacity
        = some c₁ ∧
      (exampleState [] 3 0).EstimateSketchCapacity exampleRound exampleCapacity = some c₂ ∧
      c₁ ≤ c₂ :=
  EstimateSketchCapacity_monotone exampleRound exampleCapacity (exampleState [] 2 0)
    (exampleState [] 3 0) 2 3 0 rfl rfl rfl rfl (fun a b h => h)
    (by simp [exampleState]) (by simp [exampleState])
    (by simp [exampleState]) (by simp [exampleState])
    (by simp [exampleState, exampleRound, spec_estimated_diff])
    (by simp [exampleState, exampleRound, spec_estimated_diff, exampleCapacity])

/-- C17: the sketch that `ComputeSketch(capacity)` creates has capacity min(capacity, 8192),
so never a capacity above `MAX_SKETCH_CAPACITY` = 8192. -/
theorem ComputeSketch_capacity_clamped (sip : Nat → Nat → Nat → Nat)
    (created : Nat → Nat → Nat → Bool) (self : ReconciliationState) (capacity : Nat)
    (sketch : SketchData) (h : (self.ComputeSketch sip created capacity).1 = some sketch) :
    sketch.capacity = min capacity 8192 ∧ sketch.capacity ≤ MAX_SKETCH_CAPACITY ∧
    MAX_SKETCH_CAPACITY = 8192 := by
  have hmax : MAX_SKETCH_CAPACITY = 8192 := by decide
  by_cases hearly : self.m_local_set.length = 0 ∨ capacity = 0
  · rw [computeSketch_early sip created self capacity hearly] at h
    simp at h
  · have hne : self.m_local_set ≠ [] := by
      intro e
      exact hearly (Or.inl (by simp [e]))
    have hcap : capacity ≠ 0 := fun e => hearly (Or.inr e)
    rw [computeSketch_eq sip created self capacity hne hcap] at h
    simp only at h
    split_ifs at h
    cases h
    exact ⟨by rw [hmax], Nat.min_le_right _ _, hmax⟩

/-- C17, at a concrete input: capacity 60000 asked for a local set of one id. -/
theorem ComputeSketch_capacity_clamped_witness :
    ((exampleState [4] 0 0).ComputeSketch exampleSip exampleCreated 60000).1
      = some { bits := 32, implementation := 0, capacity := 8192, added := [1] } ∧
    ((8192 : Nat) = min 60000 8192 ∧ (8192 : Nat) ≤ MAX_SKETCH_CAPACITY ∧
      MAX_SKETCH_CAPACITY = 8192) :=
  ⟨rfl, ComputeSketch_capacity_clamped exampleSip exampleCreated (exampleState [4] 0 0) 60000
    { bits := 32, implementation := 0, capacity := 8192, added := [1] } rfl⟩

/-- C18: `ComputeSketch(capacity)` returns the empty sketch whenever the local set is empty
or the capacity is 0; nothing is added to any sketch and the state is as before. -/
theorem ComputeSketch_empty (sip : Nat → Nat → Nat → Nat) (created : Nat → Nat → Nat → Bool)
    (self : ReconciliationState) (capacity : Nat)
    (h : self.GetLocalSet = [] ∨ capacity = 0) :
    self.ComputeSketch sip created capacity = (none, self) := by
  have hearly : self.m_local_set.length = 0 ∨ capacity = 0 := by
    rcases h with h | h
    · left
      simp only [ReconciliationState.GetLocalSet] at h
      simp [h]
    · exact Or.inr h
  exact computeSketch_early sip created self capacity hearly

/-- C18, at a concrete input: capacity 0 asked for a local set of two ids. -/
theorem ComputeSketch_empty_witness :
    (exampleState [4, 6] 0 0).ComputeSketch exampleSip exampleCreated 0
      = (none, exampleState [4, 6] 0 0) :=
  ComputeSketch_empty exampleSip exampleCreated (exampleState [4, 6] 0 0) 0 (Or.inr rfl)

/-- C19: when `ComputeSketch(capacity)` is called with a non-empty local set and a positive
capacity and the sketch is created, the elements added to the sketch are the values
`ComputeShortID(x)` for the ids x of the local set, one `Add` per id in the order of
`GetLocalSet`. -/
theorem ComputeSketch_adds_short_ids (sip : Nat → Nat → Nat → Nat)
    (created : Nat → Nat → Nat → Bool) (self : ReconciliationState) (capacity : Nat)
    (sketch : SketchData)
    (hne : self.GetLocalSet ≠ []) (hcap : 0 < capacity)
    (h : (self.ComputeSketch sip created capacity).1 = some sketch) :
    sketch.added = self.GetLocalSet.map (self.ComputeShortID sip) ∧
    sketch.added.length = self.GetLocalSet.length := by
  rw [computeSketch_eq sip created self capacity hne (by omega)] at h
  simp only at h
  split_ifs at h
  cases h
  simp [ReconciliationState.GetLocalSet]

/-- C19, at a concrete input: the local set {4, 7} under the parity hash. -/
theorem ComputeSketch_adds_short_ids_witness :
    ((exampleState [4, 7] 0 0).ComputeSketch exampleSip exampleCreated 10).1
      = some { bits := 32, implementation := 0, capacity := 10, added := [1, 2] } ∧
    (([1, 2] : List Nat)
      = (exampleState [4, 7] 0 0).GetLocalSet.map
          ((exampleState [4, 7] 0 0).ComputeShortID exampleSip) ∧
     ([1, 2] : List Nat).length = (exampleState [4, 7] 0 0).GetLocalSet.length) :=
  ⟨rfl, ComputeSketch_adds_short_ids exampleSip exampleCreated (exampleState [4, 7] 0 0) 10
    { bits := 32, implementation := 0, capacity := 10, added := [1, 2] }
    (by simp [exampleState, ReconciliationState.GetLocalSet]) (by norm_num) rfl⟩

/-- C20, as stated, fails: on the state reached by `AddToReconSet({5})`, `ComputeSketch`,
`AddToReconSet({3})`, a further `ComputeSketch` produces a sketch and leaves the entry
(2, 5) of the earlier call in the cache, where building the cache from the local set {3, 5}
alone gives the entry (2, 3). -/
theorem cache_entry_survives :
    exampleSecondRound.GetLocalSet = [3, 5] ∧
    exampleSecondRound.m_local_short_id_mapping = [(2, 5)] ∧
    (exampleSecondRound.ComputeSketch exampleSip exampleCreated 10).1
      = some { bits := 32, implementation := 0, capacity := 10, added := [2, 2] } ∧
    (exampleSecondRound.ComputeSketch exampleSip exampleCreated 10).2.m_local_short_id_mapping
      = [(2, 5)] ∧
    ({ exampleSecondRound with m_local_short_id_mapping := [] }.ComputeSketch exampleSip
      exampleCreated 10).2.m_local_short_id_mapping = [(2, 3)] := by
  refine ⟨rfl, rfl, rfl, rfl, rfl⟩

/-- C20, amended: `ComputeSketch` adds to the short-id cache. After a call with a non-empty
local set and a non-zero capacity, every entry present before the call is still present, the
key set is the previous key set together with {ComputeShortID(x) | x in local_set}, and
every entry that was not present before has as value an id of the local set with that short
id. In particular, when the cache is empty before the call, its key set afterwards is
{ComputeShortID(x) | x in local_set} and every value is an id of the local set with that
short id. The local set itself is unchanged. -/
theorem ComputeSketch_extends_cache (sip : Nat → Nat → Nat → Nat)
    (created : Nat → Nat → Nat → Bool) (self : ReconciliationState) (capacity : Nat)
    (hne : self.m_local_set ≠ []) (hcap : capacity ≠ 0) :
    (∀ e ∈ self.m_local_short_id_mapping,
      e ∈ (self.ComputeSketch sip created capacity).2.m_local_short_id_mapping) ∧
    (∀ k, (∃ v, (k, v) ∈ (self.ComputeSketch sip created capacity).2.m_local_short_id_mapping) ↔
      ((∃ v, (k, v) ∈ self.m_local_short_id_mapping) ∨
        ∃ x ∈ self.m_local_set, self.ComputeShortID sip x = k)) ∧
    (∀ k v, (k, v) ∈ (self.ComputeSketch sip created capacity).2.m_local_short_id_mapping →
      (k, v) ∈ self.m_local_short_id_mapping ∨
        (v ∈ self.m_local_set ∧ self.ComputeShortID sip v = k)) ∧
    (self.m_local_short_id_mapping = [] →
      (∀ k, (∃ v, (k, v) ∈
          (self.ComputeSketch sip created capacity).2.m_local_short_id_mapping) ↔
        ∃ x ∈ self.m_local_set, self.ComputeShortID sip x = k) ∧
      (∀ k v, (k, v) ∈ (self.ComputeSketch sip created capacity).2.m_local_short_id_mapping →
        v ∈ self.m_local_set ∧ self.ComputeShortID sip v = k)) ∧
    (self.ComputeSketch sip created capacity).2.m_local_set = self.m_local_set := by
  rw [computeSketch_eq sip created self capacity hne hcap]
  simp only
  have hkeep := mem_foldl_mapEmplace_of_mem (self.ComputeShortID sip) self.m_local_set
    self.m_local_short_id_mapping
  have hfrom := mem_foldl_mapEmplace (self.ComputeShortID sip) self.m_local_set
    self.m_local_short_id_mapping
  have hkey := key_foldl_mapEmplace (self.ComputeShortID sip) self.m_local_set
    self.m_local_short_id_mapping
  have h2 : ∀ k, (∃ v, (k, v) ∈ self.m_local_set.foldl
        (fun m wtxid => mapEmplace (self.ComputeShortID sip wtxid) wtxid m)
        self.m_local_short_id_mapping) ↔
      ((∃ v, (k, v) ∈ self.m_local_short_id_mapping) ∨
        ∃ x ∈ self.m_local_set, self.ComputeShortID sip x = k) := by
    intro k
    constructor
    · rintro ⟨v, hv⟩
      rcases hfrom (k, v) hv with h | ⟨x, hx, hex⟩
      · exact Or.inl ⟨v, h⟩
      · exact Or.inr ⟨x, hx, (Prod.mk.inj hex).1.symm⟩
    · rintro (⟨v, hv⟩ | ⟨x, hx, hk⟩)
      · exact ⟨v, hkeep (k, v) hv⟩
      · rw [← hk]
        exact hkey x hx
  have h3 : ∀ k v, (k, v) ∈ self.m_local_set.foldl
        (fun m wtxid => mapEmplace (self.ComputeShortID sip wtxid) wtxid m)
        self.m_local_short_id_mapping →
      (k, v) ∈ self.m_local_short_id_mapping ∨
        (v ∈ self.m_local_set ∧ self.ComputeShortID sip v = k) := by
    intro k v hv
    rcases hfrom (k, v) hv with h | ⟨x, hx, hex⟩
    · exact Or.inl h
    · have h1 := (Prod.mk.inj hex).1
      have h2 := (Prod.mk.inj hex).2
      subst h2
      exact Or.inr ⟨hx, h1.symm⟩
  refine ⟨hkeep, h2, h3, ?_, trivial⟩
  intro hempty
  constructor
  · intro k
    rw [h2 k, hempty]
    simp
  · intro k v hv
    rcases h3 k v hv with h | h
    · rw [hempty] at h
      simp at h
    · exact h

/-- C20, amended, at a concrete input: the second `ComputeSketch` of the example keeps the
entry (2, 5) that was in the cache before the call. -/
theorem ComputeSketch_extends_cache_witness :
    (2, 5) ∈ (exampleSecondRound.ComputeSketch exampleSip exampleCreated
      10).2.m_local_short_id_mapping :=
  (ComputeSketch_extends_cache exampleSip exampleCreated exampleSecondRound 10
    (by decide) (by decide)).1 (2, 5) (by decide)

/-- C21: two states with the same salt (k0, k1) holding the same ids produce, for a capacity
of at least the number of ids, the same sketch; when the sketches are created, the same
elements were added to both, and combining and decoding them gives the empty difference. -/
theorem ComputeSketch_round_trip (sip : Nat → Nat → Nat → Nat)
    (created : Nat → Nat → Nat → Bool) (st₁ st₂ : ReconciliationState) (capacity : Nat)
    (hk0 : st₁.m_k0 = st₂.m_k0) (hk1 : st₁.m_k1 = st₂.m_k1)
    (hset : st₁.GetLocalSet = st₂.GetLocalSet)
    (_hcap : st₁.GetLocalSet.length ≤ capacity) :
    (st₁.ComputeSketch sip created capacity).1 = (st₂.ComputeSketch sip created capacity).1 ∧
    ∀ sk₁ sk₂, (st₁.ComputeSketch sip created capacity).1 = some sk₁ →
      (st₂.ComputeSketch sip created capacity).1 = some sk₂ →
      sk₁.added = sk₂.added ∧ Minisketch.MergeDecode sk₁ sk₂ = some [] := by
  simp only [ReconciliationState.GetLocalSet] at hset
  have hsame : (st₁.ComputeSketch sip created capacity).1
      = (st₂.ComputeSketch sip created capacity).1 := by
    by_cases hearly : st₁.m_local_set.length = 0 ∨ capacity = 0
    · have hearly₂ : st₂.m_local_set.length = 0 ∨ capacity = 0 := by rw [← hset]; exact hearly
      rw [computeSketch_early sip created st₁ capacity hearly,
        computeSketch_early sip created st₂ capacity hearly₂]
    · have hne : st₁.m_local_set ≠ [] := by
        intro e
        exact hearly (Or.inl (by simp [e]))
      have hcap : capacity ≠ 0 := fun e => hearly (Or.inr e)
      rw [computeSketch_eq sip created st₁ capacity hne hcap,
        computeSketch_eq sip created st₂ capacity (hset ▸ hne) hcap,
        computeShortID_salt sip st₁ st₂ hk0 hk1, hset]
  refine ⟨hsame, ?_⟩
  intro sk₁ sk₂ h₁ h₂
  rw [hsame, h₂] at h₁
  cases h₁
  exact ⟨rfl, mergeDecode_same _ _ rfl⟩

/-- C21, at a concrete input: a requestor and a responder state with salt (5, 9) holding the
ids {4, 7}, capacity 10. -/
theorem ComputeSketch_round_trip_witness :
    ((exampleState [4, 7] 0 0).ComputeSketch exampleSip exampleCreated 10).1
      = some { bits := 32, implementation := 0, capacity := 10, added := [1, 2] } ∧
    ((exampleState [4, 7] 0 0).ComputeSketch exampleSip exampleCreated 10).1
      = ((exampleResponder [4, 7]).ComputeSketch exampleSip exampleCreated 10).1 ∧
    Minisketch.MergeDecode
      { bits := 32, implementation := 0, capacity := 10, added := [1, 2] }
      { bits := 32, implementation := 0, capacity := 10, added := [1, 2] } = some [] :=
  ⟨rfl,
   (ComputeSketch_round_trip exampleSip exampleCreated (exampleState [4, 7] 0 0)
     (exampleResponder [4, 7]) 10 rfl rfl rfl (by decide)).1,
   ((ComputeSketch_round_trip exampleSip exampleCreated (exampleState [4, 7] 0 0)
     (exampleResponder [4, 7]) 10 rfl rfl rfl (by decide)).2 _ _ rfl rfl).2⟩

/-- C22: `GetWTXIDsFromShortIDs` returns, in input order, the cached full id of each listed
short id that is a key of the short-id mapping and drops the others; the result is never
longer than the input. The function is a `const` member: it returns the list only and the
state is not changed. -/
theorem GetWTXIDsFromShortIDs_lookup (self : ReconciliationState) (short_ids : List Nat) :
    self.GetWTXIDsFromShortIDs short_ids
      = short_ids.filterMap (fun id => mapFind id self.m_local_short_id_mapping) ∧
    (∀ id, (mapFind id self.m_local_short_id_mapping).isSome = true ↔
      ∃ wtxid, (id, wtxid) ∈ self.m_local_short_id_mapping) ∧
    (∀ id wtxid, mapFind id self.m_local_short_id_mapping = some wtxid →
      (id, wtxid) ∈ self.m_local_short_id_mapping) ∧
    (self.GetWTXIDsFromShortIDs short_ids).length ≤ short_ids.length := by
  have h : self.GetWTXIDsFromShortIDs short_ids
      = short_ids.filterMap (fun id => mapFind id self.m_local_short_id_mapping) := by
    simp only [ReconciliationState.GetWTXIDsFromShortIDs, wtxids_loop, List.nil_append]
  refine ⟨h, fun id => mapFind_isSome_iff id _, fun id wtxid => mapFind_mem id wtxid _, ?_⟩
  rw [h]
  exact List.length_filterMap_le _ _

/-- C23: for a `diff` of decoded elements, which a sketch over the field of
`RECON_FIELD_SIZE` = 32 bits hands out below `2 ^ 32`, `GetRelevantIDsFromShortIDs`
partitions `diff`: an element goes to `remote_missing` (as its cached full id) exactly when
its value is a key of the short-id mapping, otherwise it goes to `local_missing` with its
value unchanged; relative order is kept and the two lengths add up to the length of `diff`. -/
theorem GetRelevantIDsFromShortIDs_decoded (self : ReconciliationState) (diff : List Nat)
    (hdecoded : ∀ d ∈ diff, d < 2 ^ RECON_FIELD_SIZE) :
    (self.GetRelevantIDsFromShortIDs diff).2
      = diff.filterMap (fun d => mapFind d self.m_local_short_id_mapping) ∧
    (self.GetRelevantIDsFromShortIDs diff).1
      = diff.filter (fun d => (mapFind d self.m_local_short_id_mapping).isNone) ∧
    (∀ d, (mapFind d self.m_local_short_id_mapping).isSome = true ↔
      ∃ wtxid, (d, wtxid) ∈ self.m_local_short_id_mapping) ∧
    (∀ d wtxid, mapFind d self.m_local_short_id_mapping = some wtxid →
      (d, wtxid) ∈ self.m_local_short_id_mapping) ∧
    (self.GetRelevantIDsFromShortIDs diff).1.length
      + (self.GetRelevantIDsFromShortIDs diff).2.length = diff.length := by
  have hsmall : ∀ d ∈ diff, d < 2 ^ 32 := hdecoded
  have h := relevant_split self diff
  exact ⟨(h.2.2.2 hsmall).1, (h.2.2.2 hsmall).2, fun d => mapFind_isSome_iff d _,
    fun d wtxid => mapFind_mem d wtxid _, h.2.2.1⟩

/-- C23 at a concrete input: the cache entry (2, 5) and the decoded difference [2, 7, 2]
give `local_missing` = [7] and `remote_missing` = [5, 5]. -/
theorem GetRelevantIDsFromShortIDs_decoded_witness :
    exampleSecondRound.m_local_short_id_mapping = [(2, 5)] ∧
    exampleSecondRound.GetRelevantIDsFromShortIDs [2, 7, 2] = ([7], [5, 5]) ∧
    (exampleSecondRound.GetRelevantIDsFromShortIDs [2, 7, 2]).2
      = [2, 7, 2].filterMap (fun d => mapFind d exampleSecondRound.m_local_short_id_mapping) ∧
    (exampleSecondRound.GetRelevantIDsFromShortIDs [2, 7, 2]).1
      = [2, 7, 2].filter
          (fun d => (mapFind d exampleSecondRound.m_local_short_id_mapping).isNone) :=
  ⟨rfl, rfl,
    (GetRelevantIDsFromShortIDs_decoded exampleSecondRound [2, 7, 2] (by decide)).1,
    (GetRelevantIDsFromShortIDs_decoded exampleSecondRound [2, 7, 2] (by decide)).2.1⟩

/-- C24, as stated, fails: on a freshly constructed requestor state, whose incoming phase is
`RECON_NONE`, `UpdateIncomingPhase(RECON_INIT_RESPONDED)` returns and the phase is
`RECON_INIT_RESPONDED` (NONE -> RESPONDED); and `UpdateIncomingPhase(RECON_NONE)` on a
state in `RECON_INIT_REQUESTED` returns with phase `RECON_NONE` (REQUESTED -> NONE). -/
theorem phase_jumps_accepted :
    (ReconciliationState.construct true false false 5 9).GetIncomingPhase
      = ReconciliationPhase.RECON_NONE ∧
    ((ReconciliationState.construct true false false 5 9).UpdateIncomingPhase
      ReconciliationPhase.RECON_INIT_RESPONDED).map ReconciliationState.GetIncomingPhase
      = Except.ok ReconciliationPhase.RECON_INIT_RESPONDED ∧
    ({ ReconciliationState.construct true false false 5 9 with
        m_incoming_recon := ReconciliationPhase.RECON_INIT_REQUESTED }.UpdateIncomingPhase
      ReconciliationPhase.RECON_NONE).map ReconciliationState.GetIncomingPhase
      = Except.ok ReconciliationPhase.RECON_NONE := by
  refine ⟨rfl, rfl, rfl⟩

/-- C24, amended: a phase changes only through `UpdateIncomingPhase` and
`UpdateOutgoingPhase`, which set the named phase to the phase passed by the caller whatever
the current phase is, and leave the other phase as it was; every other operation
(`AddToReconSet`, `ComputeSketch`, `PrepareIncoming`, the two finalisations) that returns
leaves both phases unchanged. -/
theorem phases_change_only_by_update (sip : Nat → Nat → Nat → Nat)
    (created : Nat → Nat → Nat → Bool) (unwritten_q : ℚ) (st st' : ReconciliationState)
    (op : StateOp) (h : applyStateOp sip created unwritten_q st op = Except.ok st') :
    match op with
    | StateOp.updateIncomingPhase phase =>
      st'.GetIncomingPhase = phase ∧ st'.GetOutgoingPhase = st.GetOutgoingPhase
    | StateOp.updateOutgoingPhase phase =>
      st'.GetOutgoingPhase = phase ∧ st'.GetIncomingPhase = st.GetIncomingPhase
    | _ =>
      st'.GetIncomingPhase = st.GetIncomingPhase ∧
      st'.GetOutgoingPhase = st.GetOutgoingPhase := by
  obtain ⟨_, _, _, _, hin, hout⟩ := applyStateOp_effect sip created unwritten_q st st' op h
  simp only [ReconciliationState.GetIncomingPhase, ReconciliationState.GetOutgoingPhase]
  cases op with
  | updateIncomingPhase p =>
    refine ⟨?_, hout (by simp)⟩
    simp only [applyStateOp, ReconciliationState.UpdateIncomingPhase] at h
    split_ifs at h
    simp only [Except.ok.injEq] at h
    subst h
    rfl
  | updateOutgoingPhase p =>
    refine ⟨?_, hin (by simp)⟩
    simp only [applyStateOp, ReconciliationState.UpdateOutgoingPhase] at h
    split_ifs at h
    simp only [Except.ok.injEq] at h
    subst h
    rfl
  | addToReconSet txs => exact ⟨hin (by simp), hout (by simp)⟩
  | computeSketch capacity => exact ⟨hin (by simp), hout (by simp)⟩
  | prepareIncoming n q t => exact ⟨hin (by simp), hout (by simp)⟩
  | finalizeIncoming => exact ⟨hin (by simp), hout (by simp)⟩
  | finalizeOutgoing clear q => exact ⟨hin (by simp), hout (by simp)⟩

/-- C24, amended, at a concrete input: `FinalizeIncomingReconciliation` on a requestor state
in phase `RECON_INIT_RESPONDED` leaves the phases as they are. -/
theorem phases_change_only_by_update_witness :
    ({ exampleState [4] 0 0 with
        m_incoming_recon := ReconciliationPhase.RECON_INIT_RESPONDED,
        m_local_short_id_mapping := [] }).GetIncomingPhase
      = ({ exampleState [4] 0 0 with
        m_incoming_recon := ReconciliationPhase.RECON_INIT_RESPONDED }).GetIncomingPhase ∧
    ({ exampleState [4] 0 0 with
        m_incoming_recon := ReconciliationPhase.RECON_INIT_RESPONDED,
        m_local_short_id_mapping := [] }).GetOutgoingPhase
      = ({ exampleState [4] 0 0 with
        m_incoming_recon := ReconciliationPhase.RECON_INIT_RESPONDED }).GetOutgoingPhase :=
  phases_change_only_by_update exampleSip exampleCreated 0
    { exampleState [4] 0 0 with m_incoming_recon := ReconciliationPhase.RECON_INIT_RESPONDED }
    { exampleState [4] 0 0 with
      m_incoming_recon := ReconciliationPhase.RECON_INIT_RESPONDED,
      m_local_short_id_mapping := [] }
    StateOp.finalizeIncoming rfl

/-- C25: `UpdateIncomingPhase` aborts on its assertion exactly when the state is not a
requestor and `UpdateOutgoingPhase` exactly when it is not a responder; a successful update
changes no field other than the named phase; and for a state with exactly one role, the
phase of the direction that role does not own, when `RECON_NONE`, is still `RECON_NONE`
after every sequence of operations that does not abort. -/
theorem phase_updates_role_guarded (sip : Nat → Nat → Nat → Nat)
    (created : Nat → Nat → Nat → Bool) (unwritten_q : ℚ) (st st' : ReconciliationState)
    (phase : ReconciliationPhase) (ops : List StateOp)
    (hrun : runStateOps sip created unwritten_q ops st = Except.ok st') :
    (st.UpdateIncomingPhase phase = Except.error Fault.assertion ↔ st.IsRequestor = false) ∧
    (st.UpdateOutgoingPhase phase = Except.error Fault.assertion ↔ st.IsResponder = false) ∧
    (st.IsRequestor = true →
      st.UpdateIncomingPhase phase = Except.ok { st with m_incoming_recon := phase }) ∧
    (st.IsResponder = true →
      st.UpdateOutgoingPhase phase = Except.ok { st with m_outgoing_recon := phase }) ∧
    (st.IsRequestor = true → st.IsResponder = false →
      st.GetOutgoingPhase = ReconciliationPhase.RECON_NONE →
      st'.GetOutgoingPhase = ReconciliationPhase.RECON_NONE) ∧
    (st.IsResponder = true → st.IsRequestor = false →
      st.GetIncomingPhase = ReconciliationPhase.RECON_NONE →
      st'.GetIncomingPhase = ReconciliationPhase.RECON_NONE) := by
  obtain ⟨_, _, hin, hout⟩ := runStateOps_unowned sip created unwritten_q ops st st' hrun
  simp only [ReconciliationState.IsRequestor, ReconciliationState.IsResponder,
    ReconciliationState.GetIncomingPhase, ReconciliationState.GetOutgoingPhase]
  refine ⟨?_, ?_, ?_, ?_, ?_, ?_⟩
  · cases hr : st.m_requestor <;> simp [ReconciliationState.UpdateIncomingPhase, hr]
  · cases hr : st.m_responder <;> simp [ReconciliationState.UpdateOutgoingPhase, hr]
  · intro hr
    simp [ReconciliationState.UpdateIncomingPhase, hr]
  · intro hr
    simp [ReconciliationState.UpdateOutgoingPhase, hr]
  · intro _ hr hnone
    rw [hout hr, hnone]
  · intro _ hr hnone
    rw [hin hr, hnone]

/-- C25, at a concrete input: a requestor-only state taken through a full incoming round;
its outgoing phase is still `RECON_NONE`. -/
theorem phase_updates_role_guarded_witness :
    runStateOps exampleSip exampleCreated 0
      [StateOp.addToReconSet [4, 7],
        StateOp.updateIncomingPhase ReconciliationPhase.RECON_INIT_REQUESTED,
        StateOp.computeSketch 10,
        StateOp.updateIncomingPhase ReconciliationPhase.RECON_INIT_RESPONDED,
        StateOp.finalizeIncoming,
        StateOp.updateIncomingPhase ReconciliationPhase.RECON_NONE]
      (ReconciliationState.construct true false false 5 9)
      = Except.ok ((ReconciliationState.construct true false false 5 9).AddToReconSet [4, 7]) ∧
    ((ReconciliationState.construct true false false 5 9).AddToReconSet [4, 7]).GetOutgoingPhase
      = ReconciliationPhase.RECON_NONE :=
  ⟨rfl, (phase_updates_role_guarded exampleSip exampleCreated 0
    (ReconciliationState.construct true false false 5 9)
    ((ReconciliationState.construct true false false 5 9).AddToReconSet [4, 7])
    ReconciliationPhase.RECON_NONE
    [StateOp.addToReconSet [4, 7],
      StateOp.updateIncomingPhase ReconciliationPhase.RECON_INIT_REQUESTED,
      StateOp.computeSketch 10,
      StateOp.updateIncomingPhase ReconciliationPhase.RECON_INIT_RESPONDED,
      StateOp.finalizeIncoming,
      StateOp.updateIncomingPhase ReconciliationPhase.RECON_NONE] rfl).2.2.2.2.1 rfl rfl rfl⟩

/-- C26: `PrepareIncoming` does abort on requestor states in phase `RECON_NONE`. On a freshly
constructed requestor state whose unwritten `m_remote_q` holds 0, `PrepareIncoming(10, 5, 0)`
returns and stores 5; on the resulting state, still a requestor in phase `RECON_NONE`,
`PrepareIncoming(10, 1/2, 0)` aborts; and on a freshly constructed requestor state whose
unwritten `m_remote_q` holds 5 the first call aborts. -/
theorem PrepareIncoming_aborts_on_stored_q :
    (ReconciliationState.construct true false false 5 9).PrepareIncoming 0 10 5 0
      = Except.ok (exampleState [] 10 5) ∧
    (exampleState [] 10 5).IsRequestor = true ∧
    (exampleState [] 10 5).GetIncomingPhase = ReconciliationPhase.RECON_NONE ∧
    (exampleState [] 10 5).PrepareIncoming 0 10 (1 / 2) 0 = Except.error Fault.assertion ∧
    (ReconciliationState.construct true false false 5 9).PrepareIncoming 5 10 (1 / 2) 0
      = Except.error Fault.assertion := by
  refine ⟨?_, rfl, rfl, ?_, ?_⟩
  · simp [ReconciliationState.PrepareIncoming, ReconciliationState.construct, exampleState]
  · simp [ReconciliationState.PrepareIncoming, ReconciliationState.construct, exampleState]
    norm_num
  · simp [ReconciliationState.PrepareIncoming, ReconciliationState.construct]
    norm_num

/-- C27: a coefficient outside [0, 2] is stored. On a requestor state in phase `RECON_NONE`
whose stored `m_remote_q` is 0, `PrepareIncoming(10, 5, 0)` does not abort, and the
`m_remote_q` that `EstimateSketchCapacity` then uses is 5 (the product 5 * 3 is the double
15, which every rounding that leaves doubles unchanged returns). -/
theorem PrepareIncoming_stores_out_of_range_q :
    (exampleState [1, 2, 3] 0 0).PrepareIncoming 0 10 5 0
      = Except.ok (exampleState [1, 2, 3] 10 5) ∧
    (exampleState [1, 2, 3] 10 5).m_remote_q = some 5 ∧
    (∀ round_double : ℚ → ℚ, (∀ x : ℚ, IsDouble x → round_double x = x) →
      (exampleState [1, 2, 3] 10 5).EstimateSketchCapacity round_double exampleCapacity
        = some 23) := by
  refine ⟨?_, rfl, ?_⟩
  · simp [ReconciliationState.PrepareIncoming, ReconciliationState.construct, exampleState]
  · intro round_double hexact
    have h15 : round_double ((5 : ℚ) * ((min (3 % 2 ^ 16) 10 : Nat) : ℚ)) = 15 := by
      have hmin : ((min (3 % 2 ^ 16) 10 : Nat) : ℚ) = 3 := by norm_num
      have h := hexact _ (isDouble_natCast 15 (by norm_num))
      rw [hmin]
      norm_num at h ⊢
      exact h
    have hd : ReconciliationState.estimated_diff round_double 3 10 5 = 23 := by
      simp only [ReconciliationState.estimated_diff, h15]
      have hfloor : ⌊(15 : ℚ)⌋ = 15 := by
        rw [Int.floor_eq_iff]
        norm_num
      rw [hfloor]
      decide
    rw [estimate_exampleState]
    simp only [List.length_cons, List.length_nil]
    rw [hd]
    rfl

/-- C28: on a requestor state `FinalizeIncomingReconciliation` returns the state with an
empty short-id mapping and every other field, the local set included, as before, so that
`GetWTXIDsFromShortIDs` on it returns the empty list; on a state that is not a requestor it
aborts. -/
theorem FinalizeIncomingReconciliation_clears_cache (self : ReconciliationState) :
    (self.IsRequestor = true →
      self.FinalizeIncomingReconciliation
        = Except.ok { self with m_local_short_id_mapping := [] } ∧
      ∀ short_ids,
        ({ self with m_local_short_id_mapping := [] }).GetWTXIDsFromShortIDs short_ids = []) ∧
    (self.IsRequestor = false →
      self.FinalizeIncomingReconciliation = Except.error Fault.assertion) := by
  simp only [ReconciliationState.IsRequestor]
  constructor
  · intro hr
    refine ⟨by simp [ReconciliationState.FinalizeIncomingReconciliation, hr,
      ReconciliationState.ClearState], ?_⟩
    intro short_ids
    simp only [ReconciliationState.GetWTXIDsFromShortIDs, wtxids_loop, List.nil_append]
    simp [mapFind]
  · intro hr
    simp [ReconciliationState.FinalizeIncomingReconciliation, hr]

/-- C28, at a concrete input: the requestor state `exampleSecondRound` with cache [(2, 5)]. -/
theorem FinalizeIncomingReconciliation_clears_cache_witness :
    exampleSecondRound.FinalizeIncomingReconciliation
      = Except.ok { exampleSecondRound with m_local_short_id_mapping := [] } ∧
    ∀ short_ids,
      ({ exampleSecondRound with m_local_short_id_mapping := [] }).GetWTXIDsFromShortIDs
        short_ids = [] :=
  (FinalizeIncomingReconciliation_clears_cache exampleSecondRound).1 rfl

/-- C29: on a responder state `FinalizeOutgoingReconciliation(clear_local_set, updated_q)`
returns the state with `m_local_q` set to `updated_q`, an empty short-id mapping, the local
set emptied when `clear_local_set` is true and unchanged when it is false, and every other
field as before; on a state that is not a responder it aborts. -/
theorem FinalizeOutgoingReconciliation_effect (self : ReconciliationState)
    (clear_local_set : Bool) (updated_q : ℚ) :
    (self.IsResponder = true →
      self.FinalizeOutgoingReconciliation clear_local_set updated_q
        = Except.ok { self with
            m_local_q := updated_q
            m_local_short_id_mapping := []
            m_local_set := if clear_local_set then [] else self.m_local_set }) ∧
    (self.IsResponder = false →
      self.FinalizeOutgoingReconciliation clear_local_set updated_q
        = Except.error Fault.assertion) := by
  simp only [ReconciliationState.IsResponder]
  constructor
  · intro hr
    cases clear_local_set <;>
      simp [ReconciliationState.FinalizeOutgoingReconciliation, hr,
        ReconciliationState.ClearState]
  · intro hr
    simp [ReconciliationState.FinalizeOutgoingReconciliation, hr]

/-- C29, at a concrete input: a responder state holding the ids {4, 7}, not cleared. -/
theorem FinalizeOutgoingReconciliation_effect_witness :
    (exampleResponder [4, 7]).FinalizeOutgoingReconciliation false (1 / 10)
      = Except.ok { exampleResponder [4, 7] with
          m_local_q := 1 / 10
          m_local_short_id_mapping := []
          m_local_set := if false then [] else (exampleResponder [4, 7]).m_local_set } :=
  (FinalizeOutgoingReconciliation_effect (exampleResponder [4, 7]) false (1 / 10)).1 rfl

/-- C30, as stated, fails: for `local_q` = 1/16384, a double in [0, 2], the product with
32767 is 32767/16384 = 1.99993896484375, itself a double, whose nearest integer is 2, while
`GetLocalQ` returns 1, for every rounding that leaves doubles unchanged. Nor is the value
the floor of the exact product: for the double `1.0 / 32767`, in [0, 2], the exact product
is below 1, with floor 0, while the double product is 1 under rounding to a nearest double
and `GetLocalQ` returns 1. -/
theorem GetLocalQ_truncates :
    (0 : ℚ) ≤ 1 / 16384 ∧ (1 / 16384 : ℚ) ≤ 2 ∧
    IsDouble (1 / 16384) ∧ IsDouble ((1 / 16384 : ℚ) * (Q_PRECISION : ℚ)) ∧
    round ((1 / 16384 : ℚ) * (Q_PRECISION : ℚ)) = 2 ∧
    (∀ round_double : ℚ → ℚ, (∀ x : ℚ, IsDouble x → round_double x = x) →
      (exampleWithLocalQ (1 / 16384)).GetLocalQ round_double = 1) ∧
    (∀ round_double : ℚ → ℚ, IsDouble (round_double (double_inv_32767 * 32767)) →
      (∀ d : ℚ, IsDouble d →
        |round_double (double_inv_32767 * 32767) - double_inv_32767 * 32767|
          ≤ |d - double_inv_32767 * 32767|) →
      0 ≤ double_inv_32767 ∧ double_inv_32767 ≤ 2 ∧
      ⌊double_inv_32767 * (Q_PRECISION : ℚ)⌋ = 0 ∧
      (exampleWithLocalQ double_inv_32767).GetLocalQ round_double = 1) := by
  have hq : (Q_PRECISION : ℚ) = 32767 := by
    have : Q_PRECISION = 32767 := by decide
    rw [this]
    norm_num
  have hd : IsDouble ((1 / 16384 : ℚ) * (Q_PRECISION : ℚ)) := by
    refine ⟨32767, -14, ?_, by norm_num, by norm_num, ?_⟩
    · rw [abs_lt]
      constructor <;> norm_num
    · rw [hq]
      norm_num
  refine ⟨by norm_num, by norm_num, ?_, hd, ?_, ?_, ?_⟩
  · refine ⟨1, -14, ?_, by norm_num, by norm_num, ?_⟩
    · rw [abs_lt]
      constructor <;> norm_num
    · norm_num
  · rw [hq, round_eq, Int.floor_eq_iff]
    norm_num
  · intro round_double hexact
    have hfloor : ⌊round_double ((1 / 16384 : ℚ) * (Q_PRECISION : ℚ))⌋ = 1 := by
      rw [hexact _ hd, hq, Int.floor_eq_iff]
      norm_num
    have hm : (exampleWithLocalQ (1 / 16384)).m_local_q = 1 / 16384 := rfl
    simp only [ReconciliationState.GetLocalQ, hm, hfloor]
    decide
  · intro round_double hdouble hnearest
    have h1 := round_product_inv_32767 round_double hdouble hnearest
    refine ⟨by rw [double_inv_32767]; norm_num, by rw [double_inv_32767]; norm_num, ?_, ?_⟩
    · rw [hq, Int.floor_eq_iff, double_inv_32767]
      norm_num
    · have hm : (exampleWithLocalQ double_inv_32767).m_local_q = double_inv_32767 := rfl
      have hfloor : ⌊(1 : ℚ)⌋ = 1 := by
        rw [Int.floor_eq_iff]
        norm_num
      simp only [ReconciliationState.GetLocalQ, hm, hq, h1, hfloor]
      decide

/-- C30, amended: for every `local_q` in [0, 2], `GetLocalQ` returns the 16-bit wire value
floor(local_q * 32767), the double product with `Q_PRECISION` truncated to an integer. The
product is rounded to a double before it is truncated; for every rounding that is monotone
and leaves doubles unchanged the value lies between the floor and the ceiling of the exact
product and is at most 65534, and for the default q = 0.02 it is 655. -/
theorem GetLocalQ_floor (round_double : ℚ → ℚ) (self : ReconciliationState)
    (hmono : ∀ x y : ℚ, x ≤ y → round_double x ≤ round_double y)
    (hexact : ∀ x : ℚ, IsDouble x → round_double x = x)
    (h0 : 0 ≤ self.m_local_q) (h2 : self.m_local_q ≤ 2) :
    (self.GetLocalQ round_double : Int) = ⌊round_double (self.m_local_q * 32767)⌋ ∧
    Q_PRECISION = 32767 ∧
    self.GetLocalQ round_double ≤ 65534 ∧
    ⌊self.m_local_q * 32767⌋ ≤ (self.GetLocalQ round_double : Int) ∧
    (self.GetLocalQ round_double : Int) ≤ ⌈self.m_local_q * 32767⌉ ∧
    (self.m_local_q = DEFAULT_RECON_Q → self.GetLocalQ round_double = 655) := by
  have hq : (Q_PRECISION : ℚ) = 32767 := by
    have : Q_PRECISION = 32767 := by decide
    rw [this]
    norm_num
  have hx0 : (0 : ℚ) ≤ self.m_local_q * 32767 := by positivity
  have hx2 : self.m_local_q * 32767 ≤ 65534 := by linarith
  have hfl0 : 0 ≤ ⌊self.m_local_q * 32767⌋ := Int.floor_nonneg.mpr hx0
  have hfl2 : ⌊self.m_local_q * 32767⌋ ≤ 65534 := by
    have h1 : ((⌊self.m_local_q * 32767⌋ : Int) : ℚ) ≤ self.m_local_q * 32767 :=
      Int.floor_le _
    have h4 : ((⌊self.m_local_q * 32767⌋ : Int) : ℚ) ≤ ((65534 : Int) : ℚ) := by
      push_cast
      linarith
    exact_mod_cast h4
  have hce0 : 0 ≤ ⌈self.m_local_q * 32767⌉ := Int.ceil_nonneg hx0
  have hce2 : ⌈self.m_local_q * 32767⌉ ≤ 65534 := by
    rw [Int.ceil_le]
    push_cast
    exact hx2
  have hb := round_double_between round_double hmono hexact ⌊self.m_local_q * 32767⌋
    ⌈self.m_local_q * 32767⌉ (by rw [abs_lt]; constructor <;> omega)
    (by rw [abs_lt]; constructor <;> omega) (self.m_local_q * 32767) (Int.floor_le _)
    (Int.le_ceil _)
  have hlo : ⌊self.m_local_q * 32767⌋ ≤ ⌊round_double (self.m_local_q * 32767)⌋ :=
    Int.le_floor.mpr hb.1
  have hhi : ⌊round_double (self.m_local_q * 32767)⌋ ≤ ⌈self.m_local_q * 32767⌉ := by
    have h1 : ((⌊round_double (self.m_local_q * 32767)⌋ : Int) : ℚ)
        ≤ round_double (self.m_local_q * 32767) := Int.floor_le _
    have h4 : ((⌊round_double (self.m_local_q * 32767)⌋ : Int) : ℚ)
        ≤ ((⌈self.m_local_q * 32767⌉ : Int) : ℚ) := le_trans h1 hb.2
    exact_mod_cast h4
  have hval : self.GetLocalQ round_double
      = Int.toNat ⌊round_double (self.m_local_q * 32767)⌋ := by
    simp only [ReconciliationState.GetLocalQ, hq]
    apply Nat.mod_eq_of_lt
    omega
  refine ⟨?_, by decide, ?_, ?_, ?_, ?_⟩
  · rw [hval]
    omega
  · rw [hval]
    omega
  · rw [hval]
    omega
  · rw [hval]
    omega
  · intro hdef
    have h655 : IsDouble (655 : ℚ) := by
      simpa using isDouble_natCast 655 (by norm_num)
    have h6555 : IsDouble (1311 / 2 : ℚ) := by
      refine ⟨1311, -1, ?_, by norm_num, by norm_num, ?_⟩
      · rw [abs_lt]
        constructor <;> norm_num
      · norm_num
    have ha : (655 : ℚ) ≤ self.m_local_q * 32767 := by
      rw [hdef, DEFAULT_RECON_Q]
      norm_num
    have hb2 : self.m_local_q * 32767 ≤ (1311 / 2 : ℚ) := by
      rw [hdef, DEFAULT_RECON_Q]
      norm_num
    have h1 := hmono _ _ ha
    have h2b := hmono _ _ hb2
    rw [hexact _ h655] at h1
    rw [hexact _ h6555] at h2b
    have hfloor : ⌊round_double (self.m_local_q * 32767)⌋ = 655 := by
      rw [Int.floor_eq_iff]
      constructor
      · exact_mod_cast h1
      · push_cast
        linarith
    rw [hval, hfloor]
    rfl

/-- C30, amended, at the default coefficient 0.02, with the identity as the monotone
rounding that leaves doubles unchanged: the wire value is 655. -/
theorem GetLocalQ_floor_witness :
    (ReconciliationState.construct true false false 5 9).GetLocalQ exampleRound = 655 :=
  (GetLocalQ_floor exampleRound (ReconciliationState.construct true false false 5 9)
    (fun _ _ h => h) (fun _ _ => rfl)
    (by simp only [ReconciliationState.construct, DEFAULT_RECON_Q]; norm_num)
    (by simp only [ReconciliationState.construct, DEFAULT_RECON_Q]; norm_num)).2.2.2.2.2 rfl

/-- C31: a successful `EnableReconciliationSupport` appends the peer to the back of the queue,
the peers already queued keeping their order, exactly when the peer declared responder=true
(which is the case of outbound peers), and leaves the queue as it is when the peer declared
responder=false (inbound peers). -/
theorem EnableReconciliationSupport_queue (saltHash : Nat → Nat → Nat)
    (self : TxReconciliationTracker) (peer_id : NodeId)
    (inbound recon_requestor recon_responder : Bool)
    (recon_version remote_salt flooders : Nat)
    (h : (EnableReconciliationSupport saltHash self peer_id inbound recon_requestor
      recon_responder recon_version remote_salt flooders).1 = Except.ok true) :
    (EnableReconciliationSupport saltHash self peer_id inbound recon_requestor
      recon_responder recon_version remote_salt flooders).2.m_queue
      = (if recon_responder then self.m_queue ++ [peer_id] else self.m_queue) ∧
    recon_responder = !inbound := by
  obtain ⟨s, _, _, _, _, hresp, he⟩ := enable_true_inv saltHash self peer_id inbound
    recon_requestor recon_responder recon_version remote_salt flooders h
  rw [he, hresp]
  cases inbound <;> simp [accepted]

/-- C31, at a concrete input: an outbound peer accepted on a tracker with an empty queue. -/
theorem EnableReconciliationSupport_queue_witness :
    (EnableReconciliationSupport exampleHash (suggested false) 1 false false true 1 9
      0).2.m_queue = (if true then (suggested false).m_queue ++ [1] else (suggested false).m_queue) ∧
    true = !false :=
  EnableReconciliationSupport_queue exampleHash (suggested false) 1 false false true 1 9 0 rfl

/-- C32: with a non-empty queue of length n, `UpdateNextReconRequest(now)` sets
`m_next_recon_request` to `now` plus the integer quotient of 16,000,000 microseconds by n and
changes nothing else; with an empty queue the division, and with it the call, has no
defined result. -/
theorem UpdateNextReconRequest_interval (self : TxReconciliationTracker) (now : Int) :
    (self.m_queue ≠ [] →
      self.UpdateNextReconRequest now
        = some { self with
            m_next_recon_request := now + ((16000000 / self.m_queue.length : Nat) : Int) }) ∧
    (self.m_queue = [] → self.UpdateNextReconRequest now = none) := by
  constructor
  · intro hne
    have hlen : self.m_queue.length ≠ 0 := by
      intro e
      exact hne (List.length_eq_zero.mp e)
    simp only [UpdateNextReconRequest, hlen, if_false, RECON_REQUEST_INTERVAL]
    norm_cast
  · intro he
    simp [UpdateNextReconRequest, he]

/-- C32, at a concrete input: a queue of three peers at time 1000. -/
theorem UpdateNextReconRequest_interval_witness :
    ({ TxReconciliationTracker.empty with m_queue := [1, 2, 3] }).UpdateNextReconRequest 1000
      = some { TxReconciliationTracker.empty with
          m_queue := [1, 2, 3]
          m_next_recon_request := 1000 + ((16000000 / 3 : Nat) : Int) } :=
  (UpdateNextReconRequest_interval
    { TxReconciliationTracker.empty with m_queue := [1, 2, 3] } 1000).1 (by decide)

/-- C33: the deadline `NextReconRespond` returns at clock time t1 is not earlier than t1, and
every later sequence of calls at clock times between t1 and that deadline returns the same
deadline each time. -/
theorem NextReconRespond_shared (self : TxReconciliationTracker) (t1 : Int) (later : List Int)
    (h : ∀ t ∈ later, t1 ≤ t ∧ t ≤ (self.NextReconRespond t1).1) :
    t1 ≤ (self.NextReconRespond t1).1 ∧
    ((self.NextReconRespond t1).2.respondAtTimes later).1
      = List.replicate later.length (self.NextReconRespond t1).1 := by
  have hstored : (self.NextReconRespond t1).2.m_next_recon_respond
      = (self.NextReconRespond t1).1 := rfl
  constructor
  · by_cases hlt : self.m_next_recon_respond < t1
    · simp only [NextReconRespond, hlt, if_true, RECON_RESPONSE_INTERVAL]
      omega
    · simp only [NextReconRespond, hlt, if_false]
      omega
  · rw [respondAtTimes_within later (self.NextReconRespond t1).2
      (fun t ht => by rw [hstored]; exact (h t ht).2), hstored]

/-- C33, at a concrete input: a request at time 100 on a fresh tracker, then requests at
times 150 and 2000100. -/
theorem NextReconRespond_shared_witness :
    (100 : Int) ≤ (TxReconciliationTracker.empty.NextReconRespond 100).1 ∧
    ((TxReconciliationTracker.empty.NextReconRespond 100).2.respondAtTimes [150, 2000100]).1
      = List.replicate [(150 : Int), 2000100].length
          (TxReconciliationTracker.empty.NextReconRespond 100).1 :=
  NextReconRespond_shared TxReconciliationTracker.empty 100 [150, 2000100] (by decide)

/-- C34: the locks are not taken in the order local salts, states, queue. `RemovePeer` takes
the local salts mutex and the states mutex while holding the queue mutex;
`EnableReconciliationSupport`, on its accepting path for a responder, takes the queue mutex
and the local salts mutex while holding the states mutex. The two operations nest the states
and the queue mutex in opposite orders. -/
theorem lock_order_inverted :
    lockNestings [] RemovePeer_locks
      = [(TrackerMutex.m_queue_mutex, TrackerMutex.m_local_salts_mutex),
         (TrackerMutex.m_queue_mutex, TrackerMutex.m_states_mutex),
         (TrackerMutex.m_local_salts_mutex, TrackerMutex.m_states_mutex)] ∧
    lockNestings [] (EnableReconciliationSupport_locks false true)
      = [(TrackerMutex.m_states_mutex, TrackerMutex.m_queue_mutex),
         (TrackerMutex.m_states_mutex, TrackerMutex.m_local_salts_mutex)] ∧
    specLockRank TrackerMutex.m_local_salts_mutex < specLockRank TrackerMutex.m_queue_mutex ∧
    specLockRank TrackerMutex.m_local_salts_mutex < specLockRank TrackerMutex.m_states_mutex := by
  decide

/-- C35: the flooder count has no effect. Whatever `outbound_flooders` is, the accepted
outbound peer of the example gets `flood_to` = true. -/
theorem outbound_always_flooded (outbound_flooders : Nat) :
    ((EnableReconciliationSupport exampleHash (suggested false) 1 false false true 1 9
      outbound_flooders).2.GetPeerState 1).map ReconciliationState.IsChosenForFlooding
      = some true := by
  rfl

/-- C38, as stated, fails: for a local set of 65536 ids `GetLocalSet` has 65536 elements,
`GetLocalSetSize` returns 0, and `EstimateSketchCapacity` (remote size 0, coefficient 0,
identity normalisation) returns the estimate 1 of an empty local set (the product is the
double 0, which every rounding that leaves doubles unchanged returns). -/
theorem GetLocalSetSize_wraps :
    (exampleState (List.range 65536) 0 0).GetLocalSet.length = 65536 ∧
    (exampleState (List.range 65536) 0 0).GetLocalSetSize = 0 ∧
    (∀ round_double : ℚ → ℚ, (∀ x : ℚ, IsDouble x → round_double x = x) →
      (exampleState (List.range 65536) 0 0).EstimateSketchCapacity round_double
          exampleCapacity = some 1 ∧
      (exampleState [] 0 0).EstimateSketchCapacity round_double exampleCapacity = some 1) := by
  refine ⟨?_, ?_, ?_⟩
  · rw [exampleState_GetLocalSet, List.length_range]
  · rw [exampleState_GetLocalSetSize, List.length_range]
    rfl
  · intro round_double hexact
    have hdiff : ReconciliationState.estimated_diff round_double 65536 0 0 = 1 := by
      rw [estimated_diff_zero_q round_double hexact]
      decide
    have hdiff0 : ReconciliationState.estimated_diff round_double 0 0 0 = 1 := by
      rw [estimated_diff_zero_q round_double hexact]
      decide
    constructor
    · rw [estimate_exampleState, List.length_range, hdiff]
      rfl
    · rw [estimate_exampleState, List.length_nil, hdiff0]
      rfl

/-- C38, amended: `GetLocalSetSize()` is the number of ids in the local set reduced modulo
65536, and the capacity estimate is computed from that reduced size; for a local set of
fewer than 65536 ids it equals the length of `GetLocalSet()`, the true size. -/
theorem GetLocalSetSize_mod (self : ReconciliationState) :
    self.GetLocalSetSize = self.GetLocalSet.length % 65536 ∧
    (∀ (round_double : ℚ → ℚ) (remote_set_size : Nat) (remote_q : ℚ),
      ReconciliationState.estimated_diff round_double self.GetLocalSet.length remote_set_size
          remote_q
        = ReconciliationState.estimated_diff round_double self.GetLocalSetSize remote_set_size
          remote_q) ∧
    (self.GetLocalSet.length < 65536 → self.GetLocalSetSize = self.GetLocalSet.length) := by
  refine ⟨rfl, ?_, ?_⟩
  · intro round_double r q
    simp only [ReconciliationState.estimated_diff, ReconciliationState.GetLocalSetSize,
      ReconciliationState.GetLocalSet, Nat.mod_mod]
  · intro h
    exact Nat.mod_eq_of_lt h

/-- C38, amended, at a concrete input: a local set of three ids. -/
theorem GetLocalSetSize_mod_witness :
    (exampleState [1, 2, 3] 2 (1 / 10)).GetLocalSetSize
      = (exampleState [1, 2, 3] 2 (1 / 10)).GetLocalSet.length :=
  (GetLocalSetSize_mod (exampleState [1, 2, 3] 2 (1 / 10))).2.2 (by decide)

/-- C39: the failure without a pending salt is not atomic. On the empty tracker,
`EnableReconciliationSupport(1, false, false, true, 1, 9, 0)` throws `std::out_of_range`
and leaves peer 1 in the queue without a state. -/
theorem enable_without_salt_queues_peer :
    TxReconciliationTracker.empty.m_local_salts 1 = none ∧
    (EnableReconciliationSupport exampleHash TxReconciliationTracker.empty 1 false false true
      1 9 0).1 = Except.error Fault.out_of_range ∧
    (EnableReconciliationSupport exampleHash TxReconciliationTracker.empty 1 false false true
      1 9 0).2.m_queue = [1] ∧
    (EnableReconciliationSupport exampleHash TxReconciliationTracker.empty 1 false false true
      1 9 0).2.GetPeerState 1 = none ∧
    TxReconciliationTracker.empty.m_queue = [] := by
  refine ⟨rfl, rfl, rfl, rfl, rfl⟩

/-- C40: the queue invariant is broken. After `EnableReconciliationSupport` for outbound
peer 1 without a pending salt (it throws), peer 1 is queued without a state; after
`SuggestReconciling` and a second, successful `EnableReconciliationSupport`, the queue holds
peer 1 twice. -/
theorem queue_invariant_broken :
    (runOps exampleHash [TrackerOp.enable 1 false false true 1 9 0]).m_queue = [1] ∧
    (runOps exampleHash [TrackerOp.enable 1 false false true 1 9 0]).GetPeerState 1 = none ∧
    (runOps exampleHash
      [TrackerOp.enable 1 false false true 1 9 0, TrackerOp.suggest 1 false 5,
        TrackerOp.enable 1 false false true 1 9 0]).m_queue = [1, 1] ∧
    ((runOps exampleHash
      [TrackerOp.enable 1 false false true 1 9 0, TrackerOp.suggest 1 false 5,
        TrackerOp.enable 1 false false true 1 9 0]).GetPeerState 1).map
      ReconciliationState.IsResponder = some true := by
  refine ⟨rfl, rfl, rfl, rfl⟩

/-- C36: in every state reached from a freshly constructed one by `AddToReconSet`,
`ComputeSketch`, `PrepareIncoming`, the phase updates and the two finalisations (none of
them aborting), every entry (s, x) of the short-id mapping has x in the local set and
`ComputeShortID(x)` = s; hence `GetWTXIDsFromShortIDs` and `GetRelevantIDsFromShortIDs`
return only ids that are in the local set. -/
theorem cache_sound_reachable (sip : Nat → Nat → Nat → Nat) (created : Nat → Nat → Nat → Bool)
    (unwritten_q : ℚ) (requestor responder flood_to : Bool) (k0 k1 : Nat)
    (ops : List StateOp) (st : ReconciliationState)
    (h : runStateOps sip created unwritten_q ops
      (ReconciliationState.construct requestor responder flood_to k0 k1) = Except.ok st) :
    (∀ s x, (s, x) ∈ st.m_local_short_id_mapping →
      x ∈ st.GetLocalSet ∧ st.ComputeShortID sip x = s) ∧
    (∀ short_ids, ∀ x ∈ st.GetWTXIDsFromShortIDs short_ids, x ∈ st.GetLocalSet) ∧
    (∀ diff, ∀ x ∈ (st.GetRelevantIDsFromShortIDs diff).2, x ∈ st.GetLocalSet) := by
  have hinv := runStateOps_sound sip created unwritten_q ops _ st h
    (by intro e he; simp [ReconciliationState.construct] at he)
  simp only [ReconciliationState.GetLocalSet]
  refine ⟨fun s x hx => hinv (s, x) hx, ?_, ?_⟩
  · intro short_ids x hx
    obtain ⟨k, hk⟩ := wtxids_from_mapping st short_ids x hx
    exact (hinv (k, x) hk).1
  · intro diff x hx
    obtain ⟨k, hk⟩ := relevant_from_mapping st diff x hx
    exact (hinv (k, x) hk).1

/-- C36, at a concrete input: the state after `AddToReconSet({5})`, `ComputeSketch(10)`,
`AddToReconSet({3})`; the id found for short id 2 is in the local set. -/
theorem cache_sound_reachable_witness :
    runStateOps exampleSip exampleCreated 0
      [StateOp.addToReconSet [5], StateOp.computeSketch 10, StateOp.addToReconSet [3]]
      (ReconciliationState.construct true false false 5 9) = Except.ok exampleSecondRound ∧
    ∀ x ∈ exampleSecondRound.GetWTXIDsFromShortIDs [2], x ∈ exampleSecondRound.GetLocalSet :=
  ⟨rfl, (cache_sound_reachable exampleSip exampleCreated 0 true false false 5 9
    [StateOp.addToReconSet [5], StateOp.computeSketch 10, StateOp.addToReconSet [3]]
    exampleSecondRound rfl).2.1 [2]⟩

/-- C37, as stated, fails: in the state reached by `AddToReconSet({5})`, `ComputeSketch(10)`,
`AddToReconSet({3})`, the local ids 3 and 5 collide on short id 2, and after
`ComputeSketch(10)` the lookup of that short id returns the larger id 5. -/
theorem lookup_returns_larger_id :
    exampleSecondRound.GetLocalSet = [3, 5] ∧
    exampleSecondRound.ComputeShortID exampleSip 3 = 2 ∧
    exampleSecondRound.ComputeShortID exampleSip 5 = 2 ∧
    (exampleSecondRound.ComputeSketch exampleSip exampleCreated 10).2.GetWTXIDsFromShortIDs
      [exampleSecondRound.ComputeShortID exampleSip 3] = [5] := by
  refine ⟨rfl, rfl, rfl, rfl⟩

/-- C37, amended: on a state whose cache entries are sound (as in every reachable state),
after `ComputeSketch(capacity)` with capacity > 0: when no two local ids have the same
short id, `GetWTXIDsFromShortIDs` applied to the short ids of a list of local ids returns
that list; and when the cache was empty before the call, the id returned for the short id
of a local id is the smallest local id with that short id. -/
theorem lookup_round_trip (sip : Nat → Nat → Nat → Nat) (created : Nat → Nat → Nat → Bool)
    (self : ReconciliationState) (capacity : Nat) (hcap : 0 < capacity)
    (hsound : ∀ e ∈ self.m_local_short_id_mapping,
      e.2 ∈ self.m_local_set ∧ self.ComputeShortID sip e.2 = e.1) :
    ((∀ x ∈ self.GetLocalSet, ∀ y ∈ self.GetLocalSet,
        self.ComputeShortID sip x = self.ComputeShortID sip y → x = y) →
      ∀ xs : List Nat, (∀ x ∈ xs, x ∈ self.GetLocalSet) →
        (self.ComputeSketch sip created capacity).2.GetWTXIDsFromShortIDs
          (xs.map (self.ComputeShortID sip)) = xs) ∧
    (self.m_local_short_id_mapping = [] → self.m_local_set.Sorted (fun a b => a < b) →
      ∀ x ∈ self.GetLocalSet, ∃ z,
        (self.ComputeSketch sip created capacity).2.GetWTXIDsFromShortIDs
          [self.ComputeShortID sip x] = [z] ∧
        z ∈ self.GetLocalSet ∧ self.ComputeShortID sip z = self.ComputeShortID sip x ∧
        ∀ y ∈ self.GetLocalSet,
          self.ComputeShortID sip y = self.ComputeShortID sip x → z ≤ y) := by
  simp only [ReconciliationState.GetLocalSet]
  have hcap' : capacity ≠ 0 := by omega
  constructor
  · intro hinj xs hxs
    by_cases hne : self.m_local_set = []
    · cases xs with
      | nil => simp [ReconciliationState.GetWTXIDsFromShortIDs]
      | cons a rest =>
        have := hxs a (List.mem_cons_self a rest)
        rw [hne] at this
        simp at this
    · have hsound' := computeSketch_sound sip created self capacity hsound
      rw [computeSketch_eq sip created self capacity hne hcap'] at hsound' ⊢
      simp only at hsound'
      simp only [ReconciliationState.GetWTXIDsFromShortIDs, wtxids_loop, List.nil_append]
      have hfind : ∀ x ∈ self.m_local_set,
          mapFind (self.ComputeShortID sip x)
            (self.m_local_set.foldl
              (fun m wtxid => mapEmplace (self.ComputeShortID sip wtxid) wtxid m)
              self.m_local_short_id_mapping) = some x := by
        intro x hx
        obtain ⟨v, hv⟩ := key_foldl_mapEmplace (self.ComputeShortID sip) self.m_local_set
          self.m_local_short_id_mapping x hx
        have hsome := (mapFind_isSome_iff (self.ComputeShortID sip x) _).mpr ⟨v, hv⟩
        obtain ⟨w, hw⟩ := Option.isSome_iff_exists.mp hsome
        have hmem := mapFind_mem _ w _ hw
        have hw' := hsound' _ hmem
        simp only at hw'
        rw [hw, hinj w hw'.1 x hx hw'.2]
      induction xs with
      | nil => rfl
      | cons a rest ih =>
        simp only [List.map_cons, List.filterMap_cons,
          hfind a (hxs a (List.mem_cons_self a rest))]
        rw [ih (fun x hx => hxs x (List.mem_cons_of_mem a hx))]
  · intro hempty hsorted x hx
    have hne : self.m_local_set ≠ [] := List.ne_nil_of_mem hx
    rw [computeSketch_eq sip created self capacity hne hcap']
    simp only [ReconciliationState.GetWTXIDsFromShortIDs, wtxids_loop, List.nil_append, hempty]
    have hfold := mapFind_foldl_mapEmplace (self.ComputeShortID sip)
      (self.ComputeShortID sip x) self.m_local_set [] (by simp)
    simp only [mapFind] at hfold
    obtain ⟨z, hz⟩ := find_exists
      (fun y => decide (self.ComputeShortID sip y = self.ComputeShortID sip x))
      self.m_local_set x hx (by simp)
    obtain ⟨h1, h2, h3⟩ := find_least _ self.m_local_set hsorted z hz
    refine ⟨z, ?_, h1, by simpa using h2, ?_⟩
    · simp [hfold, hz]
    · intro y hy hsid
      exact h3 y hy (by simpa using hsid)

/-- C37, amended, at a concrete input: the local set {3, 5} with colliding short ids and an
empty cache; the id returned for the short id of 5 is 3. -/
theorem lookup_round_trip_witness :
    ∃ z, ((exampleState [3, 5] 0 0).ComputeSketch exampleSip exampleCreated
        10).2.GetWTXIDsFromShortIDs [(exampleState [3, 5] 0 0).ComputeShortID exampleSip 5]
        = [z] ∧
      z ∈ (exampleState [3, 5] 0 0).GetLocalSet ∧
      (exampleState [3, 5] 0 0).ComputeShortID exampleSip z
        = (exampleState [3, 5] 0 0).ComputeShortID exampleSip 5 ∧
      ∀ y ∈ (exampleState [3, 5] 0 0).GetLocalSet,
        (exampleState [3, 5] 0 0).ComputeShortID exampleSip y
          = (exampleState [3, 5] 0 0).ComputeShortID exampleSip 5 → z ≤ y :=
  (lookup_round_trip exampleSip exampleCreated (exampleState [3, 5] 0 0) 10 (by decide)
    (by intro e he; simp [exampleState, ReconciliationState.construct] at he)).2 rfl
    (by simp [exampleState]) 5 (by simp [exampleState, ReconciliationState.GetLocalSet])

end Claims

end TxReconciliation
